import Mathlib

/-!
# sf1r-lite aggregator: result merge and reconciliation

A shallow embedding of `AggregatorManager.cpp` (sf1r-lite, namespace `sf1r`):

* `mergeSearchResult`     : k-way merge of per-worker ranked lists (lines 10-96),
* `splitResultByWorkerid` : grouping of the current page by worker (lines 113-141),
* `mergeSummaryResult`    : position-keyed reassembly of display fields (lines 145-211),
* `mergeMiningResult`     : empty body (lines 214-217).

Modelling conventions.

* `std::vector<T>` is a `List T`; `v.resize(n)` / `v.resize(n, d)` is `resize v n d`.
* `size_t`, `docid_t`, `workerid_t` values are natural numbers.  `size_t` is 64 bits wide;
  the `size_t` additions whose operands are not bounded by the size of a vector, the sum
  `start_ + count_` of lines 39 and 121 and the sum of the total counts of line 33, are
  taken modulo `2 ^ 64` (`sizeAdd`).  The counters `cnt`, `iter[i]`, `i` stay below the
  size of a vector and the sum of line 34 adds the sizes of vectors that exist together,
  so these do not wrap.
* `float` rank scores are exact ordered numbers (`Int`); `0` is the value-initialised float.
* `UString` display values are `String`; `""` is the default-constructed value.
* `size_t(-1)` used as "no index found" is `none`.
* A vector read `v[i]` is `v.getD i d` with `d` the value-initialised element; a vector
  write `v[i] = x` is `v.set i x`.  Reads and writes past the end are undefined in the
  source; in the model such a read yields `d` and such a write has no effect.
* `std::map<workerid_t, shared_ptr<KeywordSearchResult>>` is a key-sorted association list.

The file has three layers: the embedding of the source, auxiliary predicates and example
data, and then the lemmas and the settled statements.
-/

namespace sf1r

/-- Modelled from the spec: the record `KeywordSearchResult` is declared in
`common/ResultType.h`, which is not among the sources.  The fields are the ones
`AggregatorManager.cpp` reads or writes, under the names used there (spec section 3:
`totalCount`, `documents`, `shardOfDocument`, `scores`, `customScores`, `positions`,
`pageStart`, `pageCount`, `displayFields`).  A default-constructed record has every
count at zero and every array empty. -/
structure KeywordSearchResult where
  propertyQueryTermList_ : List (List String) := []
  totalCount_ : Nat := 0
  topKDocs_ : List Nat := []
  topKWorkerIds_ : List Nat := []
  topKRankScoreList_ : List Int := []
  topKCustomRankScoreList_ : List Int := []
  topKPostionList_ : List Nat := []
  start_ : Nat := 0
  count_ : Nat := 0
  snippetTextOfDocumentInPage_ : List (List String) := []
  fullTextOfDocumentInPage_ : List (List String) := []
  rawTextOfSummaryInPage_ : List (List String) := []
deriving DecidableEq, Repr, Inhabited

/-- The call `v.resize(n, d)` of `std::vector`: the first `n` elements are kept, and the
vector is padded with copies of `d` up to length `n`. -/
def resize {α : Type} (v : List α) (n : Nat) (d : α) : List α :=
  v.take n ++ List.replicate (n - v.length) d

/-- The number of values of the type `size_t`, `2 ^ 64`. -/
def sizeModulus : Nat := 18446744073709551616

/-- The sum `a + b` of two `size_t` values: unsigned addition wraps modulo `2 ^ 64`. -/
def sizeAdd (a b : Nat) : Nat := (a + b) % sizeModulus

/-- A list of `(workerid, result)` pairs as handed over by the dispatch layer. -/
abbrev WorkerResults := List (Nat × KeywordSearchResult)

/-- The element `resultList[i].second`. -/
def workerResult (resultList : WorkerResults) (i : Nat) : KeywordSearchResult :=
  (resultList.getD i default).2

/-- The element `resultList[i].first`. -/
def workerId (resultList : WorkerResults) (i : Nat) : Nat :=
  (resultList.getD i default).1

/-! ## mergeSearchResult -/

/-- Lines 27-35: the pair `(overallTotalCount, overallResultCount)` accumulated over the
workers.  The total counts are arbitrary `size_t` values, so their sum wraps; the document
counts are the sizes of vectors that exist together, so their sum does not. -/
def basicInfo (resultList : WorkerResults) : Nat × Nat :=
  (List.range resultList.length).foldl
    (fun acc i =>
      let wResult := workerResult resultList i
      (sizeAdd acc.1 wResult.totalCount_, acc.2 + wResult.topKDocs_.length))
    (0, 0)

/-- The local `overallTotalCount` of line 27 after the loop of lines 30-35.  The source
prints it on line 36 and does not use it again. -/
def overallTotalCount (resultList : WorkerResults) : Nat := (basicInfo resultList).1

/-- The local `overallResultCount` of line 28 after the loop of lines 30-35. -/
def overallResultCount (resultList : WorkerResults) : Nat := (basicInfo resultList).2

/-- The condition `iter[i] < rankScoreList.size()` of line 67. -/
def cursorLive (resultList : WorkerResults) (iter : List Nat) (i : Nat) : Prop :=
  iter.getD i 0 < (workerResult resultList i).topKRankScoreList_.length

instance (resultList : WorkerResults) (iter : List Nat) (i : Nat) :
    Decidable (cursorLive resultList iter i) := by
  unfold cursorLive; infer_instance

/-- The value `rankScoreList[iter[i]]` of lines 67 and 69. -/
def headScore (resultList : WorkerResults) (iter : List Nat) (i : Nat) : Int :=
  (workerResult resultList i).topKRankScoreList_.getD (iter.getD i 0) 0

/-- One iteration of the inner loop, lines 66-71, on the pair `(max, maxi)`. -/
def findMaxStep (resultList : WorkerResults) (iter : List Nat)
    (acc : Int × Option Nat) (i : Nat) : Int × Option Nat :=
  if cursorLive resultList iter i ∧ headScore resultList iter i > acc.1 then
    (headScore resultList iter i, some i)
  else acc

/-- The inner loop of lines 63-72 run over the workers `0 .. n-1`, started from
`max = 0`, `maxi = size_t(-1)`. -/
def findMaxUpTo (resultList : WorkerResults) (iter : List Nat) (n : Nat) : Int × Option Nat :=
  (List.range n).foldl (findMaxStep resultList iter) (0, none)

/-- Lines 63-72: the pair `(max, maxi)` after scanning every worker. -/
def findMax (resultList : WorkerResults) (iter : List Nat) : Int × Option Nat :=
  findMaxUpTo resultList iter resultList.length

/-- The state of the outer loop of lines 60-92: the result under construction, the
cursor array `iter` and the slot counter `cnt`. -/
structure MergeState where
  result : KeywordSearchResult
  iter : List Nat
  cnt : Nat
deriving DecidableEq, Repr

/-- Lines 80-91: the body of the outer loop once `maxi` is known. -/
def mergeStep (resultList : WorkerResults) (maxi : Nat) (s : MergeState) : MergeState :=
  let workerid := workerId resultList maxi
  let wResult := workerResult resultList maxi
  let it := s.iter.getD maxi 0
  let result := s.result
  let result := { result with topKDocs_ := result.topKDocs_.set s.cnt (wResult.topKDocs_.getD it 0) }
  let result := { result with topKWorkerIds_ := result.topKWorkerIds_.set s.cnt workerid }
  let result := { result with
    topKRankScoreList_ := result.topKRankScoreList_.set s.cnt (wResult.topKRankScoreList_.getD it 0) }
  let result :=
    if wResult.topKCustomRankScoreList_.length > 0 then
      { result with
        topKCustomRankScoreList_ :=
          result.topKCustomRankScoreList_.set s.cnt (wResult.topKCustomRankScoreList_.getD it 0) }
    else result
  { result := result, iter := s.iter.set maxi (it + 1), cnt := s.cnt + 1 }

/-- The outer loop of lines 60-92 with `remaining = resultCount - cnt` iterations left;
it stops early (line 77) when no worker is selected. -/
def mergeLoop (resultList : WorkerResults) : Nat → MergeState → MergeState
  | 0, s => s
  | remaining + 1, s =>
    match (findMax resultList s.iter).2 with
    | none => s
    | some maxi => mergeLoop resultList remaining (mergeStep resultList maxi s)

/-- Lines 38-53: the page window is clipped against `overallResultCount` and the four
global arrays are resized to `resultCount`, the `size_t` sum of the window as it was
requested (line 39). -/
def clipAndResize (result : KeywordSearchResult) (overallResultCount : Nat) :
    KeywordSearchResult :=
  let resultCount := sizeAdd result.start_ result.count_
  let result :=
    if result.start_ > overallResultCount then { result with start_ := overallResultCount }
    else result
  let result :=
    if resultCount > overallResultCount then
      { result with count_ := overallResultCount - result.start_ }
    else result
  { result with
    topKDocs_ := resize result.topKDocs_ resultCount 0
    topKWorkerIds_ := resize result.topKWorkerIds_ resultCount 0
    topKRankScoreList_ := resize result.topKRankScoreList_ resultCount 0
    topKCustomRankScoreList_ := resize result.topKCustomRankScoreList_ resultCount 0 }

/-- The state in which the outer loop ends, for two or more workers or none
(lines 24-92); the loop bound is the `resultCount` of line 39. -/
def mergeFinalState (result : KeywordSearchResult) (resultList : WorkerResults) : MergeState :=
  mergeLoop resultList (sizeAdd result.start_ result.count_)
    { result := clipAndResize result (overallResultCount resultList)
      iter := List.replicate resultList.length 0
      cnt := 0 }

/-- The function `AggregatorManager::mergeSearchResult` (lines 10-96); the returned record
is the value of the reference parameter `result` on return. -/
def mergeSearchResult (result : KeywordSearchResult) (resultList : WorkerResults) :
    KeywordSearchResult :=
  if resultList.length = 1 then
    let result := workerResult resultList 0
    { result with
      topKWorkerIds_ := resize result.topKWorkerIds_ result.topKDocs_.length (workerId resultList 0) }
  else
    (mergeFinalState result resultList).result

/-- A `GlobalResult` "created empty by the caller with the desired page window"
(spec section 3): every array is empty. -/
def CreatedEmpty (result : KeywordSearchResult) : Prop :=
  result.topKDocs_ = [] ∧ result.topKWorkerIds_ = [] ∧ result.topKRankScoreList_ = [] ∧
  result.topKCustomRankScoreList_ = [] ∧ result.topKPostionList_ = [] ∧
  result.snippetTextOfDocumentInPage_ = [] ∧ result.fullTextOfDocumentInPage_ = [] ∧
  result.rawTextOfSummaryInPage_ = []

instance (result : KeywordSearchResult) : Decidable (CreatedEmpty result) := by
  unfold CreatedEmpty; infer_instance

/-- A list of scores is non-increasing. -/
def NonIncreasing (l : List Int) : Prop := l.Pairwise (fun a b => b ≤ a)

instance (l : List Int) : Decidable (NonIncreasing l) := by
  unfold NonIncreasing; infer_instance

/-! ## splitResultByWorkerid -/

/-- The map `std::map<workerid_t, boost::shared_ptr<KeywordSearchResult>>`: an association
list kept sorted by key.  Each shared pointer is owned by its map entry, so writing
through the pointer is an update of the entry. -/
abbrev ResultMap := List (Nat × KeywordSearchResult)

/-- The lookup `resultMap.find(k)`; `none` stands for `resultMap.end()`. -/
def mapFind : ResultMap → Nat → Option KeywordSearchResult
  | [], _ => none
  | (k', v) :: m, k => if k' = k then some v else mapFind m k

/-- The call `resultMap.insert(std::make_pair(k, v))`: the entry is placed in key order;
a map that already holds `k` is left as it is. -/
def mapInsert : ResultMap → Nat → KeywordSearchResult → ResultMap
  | [], k, v => [(k, v)]
  | (k', v') :: m, k, v =>
    if k < k' then (k, v) :: (k', v') :: m
    else if k = k' then (k', v') :: m
    else (k', v') :: mapInsert m k v

/-- A write through the shared pointer stored under key `k`. -/
def mapModify (m : ResultMap) (k : Nat) (f : KeywordSearchResult → KeywordSearchResult) :
    ResultMap :=
  m.map (fun e => if e.1 = k then (e.1, f e.2) else e)

/-- Lines 137-139: the three `push_back` calls on the accumulator. -/
def pushDoc (result : KeywordSearchResult) (curWorkerid i : Nat)
    (subResult : KeywordSearchResult) : KeywordSearchResult :=
  { subResult with
    topKDocs_ := subResult.topKDocs_ ++ [result.topKDocs_.getD i 0]
    topKWorkerIds_ := subResult.topKWorkerIds_ ++ [curWorkerid]
    topKPostionList_ := subResult.topKPostionList_ ++ [i] }

/-- Lines 124-139: the loop body for the global position `i`. -/
def splitStep (result : KeywordSearchResult) (resultMap : ResultMap) (i : Nat) : ResultMap :=
  let curWorkerid := result.topKWorkerIds_.getD i 0
  let resultMap :=
    match mapFind resultMap curWorkerid with
    | none =>
      mapInsert resultMap curWorkerid
        { propertyQueryTermList_ := result.propertyQueryTermList_ }
    | some _ => resultMap
  mapModify resultMap curWorkerid (pushDoc result curWorkerid i)

/-- The loop of lines 119-140 from position `i` on, with at most `fuel` iterations; the
bound of line 121 is the `size_t` sum `start_ + count_`. -/
def splitLoop (result : KeywordSearchResult) : Nat → Nat → ResultMap → ResultMap
  | 0, _, resultMap => resultMap
  | fuel + 1, i, resultMap =>
    if i < result.topKWorkerIds_.length then
      if i ≥ sizeAdd result.start_ result.count_ then resultMap
      else splitLoop result fuel (i + 1) (splitStep result resultMap i)
    else resultMap

/-- The function `AggregatorManager::splitResultByWorkerid` (lines 113-141); the returned
map is the value of the reference parameter `resultMap` on return.  The loop variable runs
from `start_` and stays below `topKWorkerIds.size()`, so `size - start_` iterations
suffice. -/
def splitResultByWorkerid (result : KeywordSearchResult) (resultMap : ResultMap) : ResultMap :=
  splitLoop result (result.topKWorkerIds_.length - result.start_) result.start_ resultMap

/-! ## mergeSummaryResult (shared sub-results) -/

/-- A display-field table `vector<vector<UString>>`, indexed `[field][document]`. -/
abbrev Grid := List (List String)

/-- The read `grid[dis][i]`.  Both `operator[]` calls are unchecked: the value is the one
the source reads when `dis` is a row of `grid` and `i` a cell of that row (`cellInBounds`),
and the source has no defined behaviour otherwise, where this function yields `""`. -/
def cellGet (grid : Grid) (dis i : Nat) : String := (grid.getD dis []).getD i ""

/-- The write `grid[dis][i] = v`. -/
def cellSet (grid : Grid) (dis i : Nat) (v : String) : Grid :=
  grid.set dis ((grid.getD dis []).set i v)

/-- The call `grid[dis].resize(topk)`. -/
def rowResize (grid : Grid) (dis topk : Nat) : Grid :=
  grid.set dis (resize (grid.getD dis []) topk "")

/-- Lines 165-168: the row `dis` of each display table is resized to `topk` cells; the
summary table only when `isSummaryOn` is non-zero. -/
def initRow (topk isSummaryOn : Nat) (result : KeywordSearchResult) (dis : Nat) :
    KeywordSearchResult :=
  let result := { result with
    snippetTextOfDocumentInPage_ := rowResize result.snippetTextOfDocumentInPage_ dis topk }
  let result := { result with
    fullTextOfDocumentInPage_ := rowResize result.fullTextOfDocumentInPage_ dis topk }
  if isSummaryOn ≠ 0 then
    { result with
      rawTextOfSummaryInPage_ := rowResize result.rawTextOfSummaryInPage_ dis topk }
  else result

/-- Lines 159-162: the display tables of `result` are given `displayPropertyNum` rows; the
summary table only when `isSummaryOn` is non-zero. -/
def initTables (displayPropertyNum isSummaryOn : Nat) (result : KeywordSearchResult) :
    KeywordSearchResult :=
  let result := { result with
    snippetTextOfDocumentInPage_ := resize result.snippetTextOfDocumentInPage_ displayPropertyNum [] }
  let result := { result with
    fullTextOfDocumentInPage_ := resize result.fullTextOfDocumentInPage_ displayPropertyNum [] }
  if isSummaryOn ≠ 0 then
    { result with
      rawTextOfSummaryInPage_ := resize result.rawTextOfSummaryInPage_ displayPropertyNum [] }
  else result

/-- Lines 159-169: the display tables of `result` are given `displayPropertyNum` rows of
`topk` cells. -/
def initSummary (result : KeywordSearchResult) (topk displayPropertyNum isSummaryOn : Nat) :
    KeywordSearchResult :=
  (List.range displayPropertyNum).foldl (initRow topk isSummaryOn)
    (initTables displayPropertyNum isSummaryOn result)

/-- The test `iter[sub] < subTopKPosList.size() && subTopKPosList[iter[sub]] == i` of
line 184. -/
def claimsSlot (resultList : WorkerResults) (iter : List Nat) (i sub : Nat) : Bool :=
  decide (iter.getD sub 0 < (workerResult resultList sub).topKPostionList_.length ∧
    (workerResult resultList sub).topKPostionList_.getD (iter.getD sub 0) 0 = i)

/-- Lines 180-190: the first sub-result whose cursor points at global position `i`;
`none` stands for `curSub == size_t(-1)`. -/
def findSub (resultList : WorkerResults) (iter : List Nat) (i : Nat) : Option Nat :=
  (List.range resultList.length).find? (claimsSlot resultList iter i)

/-- Lines 200-203: the display values of `subResult` at local index `it` are copied into
global slot `i` of the display field `dis`; the summary value only when `isSummaryOn` is
non-zero. -/
def copyField (isSummaryOn : Nat) (subResult : KeywordSearchResult) (it i : Nat)
    (result : KeywordSearchResult) (dis : Nat) : KeywordSearchResult :=
  let result := { result with
    snippetTextOfDocumentInPage_ :=
      cellSet result.snippetTextOfDocumentInPage_ dis i
        (cellGet subResult.snippetTextOfDocumentInPage_ dis it) }
  let result := { result with
    fullTextOfDocumentInPage_ :=
      cellSet result.fullTextOfDocumentInPage_ dis i
        (cellGet subResult.fullTextOfDocumentInPage_ dis it) }
  if isSummaryOn ≠ 0 then
    { result with
      rawTextOfSummaryInPage_ :=
        cellSet result.rawTextOfSummaryInPage_ dis i
          (cellGet subResult.rawTextOfSummaryInPage_ dis it) }
  else result

/-- Lines 198-204: `copyField` for every display field. -/
def copyFields (displayPropertyNum isSummaryOn : Nat) (subResult : KeywordSearchResult)
    (it i : Nat) (result : KeywordSearchResult) : KeywordSearchResult :=
  (List.range displayPropertyNum).foldl (copyField isSummaryOn subResult it i) result

/-- The state of the loop of lines 177-208: the result under construction and the cursor
array `iter`. -/
structure SummaryState where
  result : KeywordSearchResult
  iter : List Nat
deriving DecidableEq, Repr

/-- Lines 179-207: the loop body for the global slot `i`. -/
def summaryStep (resultList : WorkerResults) (displayPropertyNum isSummaryOn : Nat)
    (s : SummaryState) (i : Nat) : SummaryState :=
  match findSub resultList s.iter i with
  | none => s
  | some curSub =>
    { result :=
        copyFields displayPropertyNum isSummaryOn (workerResult resultList curSub)
          (s.iter.getD curSub 0) i s.result
      iter := s.iter.set curSub (s.iter.getD curSub 0 + 1) }

/-- The state in which the loop of lines 177-208 ends, for a non-empty sub-result list. -/
def summaryFinalState (result : KeywordSearchResult) (resultList : WorkerResults) :
    SummaryState :=
  let topk := result.topKDocs_.length
  let displayPropertyNum := (workerResult resultList 0).snippetTextOfDocumentInPage_.length
  let isSummaryOn := (workerResult resultList 0).rawTextOfSummaryInPage_.length
  (List.range topk).foldl (summaryStep resultList displayPropertyNum isSummaryOn)
    { result := initSummary result topk displayPropertyNum isSummaryOn
      iter := List.replicate resultList.length 0 }

/-- The function `AggregatorManager::mergeSummaryResult` over shared sub-results
(lines 145-211); the returned record is the value of `result` on return. -/
def mergeSummaryResult (result : KeywordSearchResult) (resultList : WorkerResults) :
    KeywordSearchResult :=
  if resultList.length ≤ 0 then result
  else (summaryFinalState result resultList).result

/-- The function `AggregatorManager::mergeMiningResult` (lines 214-217): an empty body. -/
def mergeMiningResult (result : KeywordSearchResult) (_resultList : WorkerResults) :
    KeywordSearchResult :=
  result

/-! ## Auxiliary predicates and example data -/

/-- Every worker's score list is non-increasing. -/
def ScoresSorted (rl : WorkerResults) : Prop :=
  ∀ w ∈ rl, NonIncreasing w.2.topKRankScoreList_

/-- The filled slots `P` of the scores array dominate every live head. -/
def HeadsBelow (rl : WorkerResults) (iter : List Nat) (P : List Int) : Prop :=
  ∀ x ∈ P, ∀ j, cursorLive rl iter j → headScore rl iter j ≤ x

/-- Worker A of the example scenario (spec section 8): documents `[d1, d3]`, scores
`[9, 5]`, `totalCount = 10`. -/
def shardA : KeywordSearchResult :=
  { totalCount_ := 10, topKDocs_ := [1, 3], topKRankScoreList_ := [9, 5] }

/-- Worker B of the example scenario (spec section 8): documents `[d2, d4]`, scores
`[8, 1]`, `totalCount = 5`. -/
def shardB : KeywordSearchResult :=
  { totalCount_ := 5, topKDocs_ := [2, 4], topKRankScoreList_ := [8, 1] }

/-- The worker list of the example scenario, with worker ids 100 (A) and 200 (B). -/
def shardsAB : WorkerResults := [(100, shardA), (200, shardB)]

/-- The global positions `splitResultByWorkerid` visits: from `start_` up to, and not
including, the smaller of `topKWorkerIds_.size()` and the `size_t` sum `start_ + count_`. -/
def pageWindow (result : KeywordSearchResult) : List Nat :=
  List.range' result.start_
    (min result.topKWorkerIds_.length (sizeAdd result.start_ result.count_) - result.start_)

/-- The positions among `visited` that `result` attributes to worker `k`. -/
def positionsOf (result : KeywordSearchResult) (k : Nat) (visited : List Nat) : List Nat :=
  visited.filter (fun i => result.topKWorkerIds_.getD i 0 = k)

/-- The accumulator that the positions `p` of worker `k` build up. -/
def accumulatorOf (result : KeywordSearchResult) (k : Nat) (p : List Nat) :
    KeywordSearchResult :=
  { propertyQueryTermList_ := result.propertyQueryTermList_
    topKDocs_ := p.map (fun i => result.topKDocs_.getD i 0)
    topKWorkerIds_ := p.map (fun _ => k)
    topKPostionList_ := p }

/-- The map after the positions `visited` have been split out of `result`: its keys are
distinct and worker `k` has an accumulator exactly when some visited position is
attributed to it. -/
def SplitInv (result : KeywordSearchResult) (visited : List Nat) (m : ResultMap) : Prop :=
  (m.map Prod.fst).Nodup ∧
  ∀ k, mapFind m k =
    if positionsOf result k visited = [] then none
    else some (accumulatorOf result k (positionsOf result k visited))

/-- The merged page of the example scenario with the window `(1, 3)`: four documents,
attributed alternately to the workers 100 and 200. -/
def pageAB : KeywordSearchResult :=
  { start_ := 1, count_ := 3, topKDocs_ := [1, 2, 3, 4],
    topKWorkerIds_ := [100, 200, 100, 200], topKRankScoreList_ := [9, 8, 5, 1],
    topKCustomRankScoreList_ := [0, 0, 0, 0] }

/-- A display table has `rows` rows of `cols` cells each. -/
def GridShape (grid : Grid) (rows cols : Nat) : Prop :=
  grid.length = rows ∧ ∀ dis, dis < rows → (grid.getD dis []).length = cols

/-- The effect of lines 198-204 on one display table: column `it` of `src` is copied into
column `i` of `dst`, for the rows `0 .. n-1`. -/
def copyColumn (n : Nat) (src : Grid) (it i : Nat) (dst : Grid) : Grid :=
  (List.range n).foldl (fun g dis => cellSet g dis i (cellGet src dis it)) dst

/-- The effect of lines 163-169 on one display table: the rows `0 .. n-1` are resized to
`topk` cells. -/
def resizeRows (n topk : Nat) (grid : Grid) : Grid :=
  (List.range n).foldl (fun g dis => rowResize g dis topk) grid

/-- The record with its three display tables blanked: what `mergeSummaryResult` never
writes. -/
def rankingPart (result : KeywordSearchResult) : KeywordSearchResult :=
  { result with
    snippetTextOfDocumentInPage_ := []
    fullTextOfDocumentInPage_ := []
    rawTextOfSummaryInPage_ := [] }

/-- The loop body of lines 179-207 seen on one display table `sel` and the cursor array. -/
def gridStep (sel : KeywordSearchResult → Grid) (resultList : WorkerResults)
    (displayPropertyNum : Nat) (st : Grid × List Nat) (i : Nat) : Grid × List Nat :=
  match findSub resultList st.2 i with
  | none => st
  | some curSub =>
    (copyColumn displayPropertyNum (sel (workerResult resultList curSub))
        (st.2.getD curSub 0) i st.1,
      st.2.set curSub (st.2.getD curSub 0 + 1))

/-- The loop of lines 177-208 seen on one display table, over the slots `0 .. n-1`. -/
def gridLoop (sel : KeywordSearchResult → Grid) (resultList : WorkerResults)
    (displayPropertyNum n : Nat) (init : Grid) : Grid × List Nat :=
  (List.range n).foldl (gridStep sel resultList displayPropertyNum)
    (init, List.replicate resultList.length 0)

/-- The number of entries of a positions list that lie below slot `i`. -/
def countBelow (p : List Nat) (i : Nat) : Nat := (p.filter (fun x => decide (x < i))).length

/-- What the inner scan has established after the workers `0 .. n-1`. -/
structure ScanInv (rl : WorkerResults) (iter : List Nat) (n : Nat) (acc : Int × Option Nat) :
    Prop where
  nonneg : 0 ≤ acc.1
  upper : ∀ j, j < n → cursorLive rl iter j → headScore rl iter j ≤ acc.1
  none_zero : acc.2 = none → acc.1 = 0
  some_lt : ∀ i, acc.2 = some i → i < n
  some_live : ∀ i, acc.2 = some i → cursorLive rl iter i
  some_head : ∀ i, acc.2 = some i → headScore rl iter i = acc.1
  some_pos : ∀ i, acc.2 = some i → 0 < acc.1
  some_first : ∀ i, acc.2 = some i → ∀ j, j < i → cursorLive rl iter j → headScore rl iter j < acc.1

/-- The display tables can be reassembled by a linear scan: every positions list is
strictly increasing and no position occurs in two sub-results. -/
def PositionsWellFormed (rl : WorkerResults) : Prop :=
  (∀ w ∈ rl, w.2.topKPostionList_.Pairwise (· < ·)) ∧
  rl.Pairwise (fun x y => ∀ p ∈ x.2.topKPostionList_, p ∉ y.2.topKPostionList_)

/-- What the loop of lines 177-208 has established on one display table before slot `i`:
each cursor counts the positions below `i`, the table keeps its shape, every claimed slot
below `i` holds the values of its sub-result, and every other slot is as initialised. -/
structure GridInv (sel : KeywordSearchResult → Grid) (rl : WorkerResults) (dpn topk : Nat)
    (init : Grid) (i : Nat) (st : Grid × List Nat) : Prop where
  iter_len : st.2.length = rl.length
  cursor : ∀ a, a < rl.length →
    st.2.getD a 0 = countBelow (workerResult rl a).topKPostionList_ i
  shape : GridShape st.1 dpn topk
  claimed : ∀ a, a < rl.length → ∀ j, j < (workerResult rl a).topKPostionList_.length →
    (workerResult rl a).topKPostionList_.getD j 0 < i →
    (workerResult rl a).topKPostionList_.getD j 0 < topk →
    ∀ dis, dis < dpn →
      cellGet st.1 dis ((workerResult rl a).topKPostionList_.getD j 0) =
        cellGet (sel (workerResult rl a)) dis j
  untouched : ∀ i', (i ≤ i' ∨ ∀ a, a < rl.length → i' ∉ (workerResult rl a).topKPostionList_) →
    ∀ dis, cellGet st.1 dis i' = cellGet init dis i'

/-- The loop of lines 177-208 run from the initialised tables, with the number of display
fields and the summary flag given. -/
def summaryRun (result : KeywordSearchResult) (resultList : WorkerResults)
    (displayPropertyNum isSummaryOn : Nat) : SummaryState :=
  (List.range result.topKDocs_.length).foldl
    (summaryStep resultList displayPropertyNum isSummaryOn)
    { result := initSummary result result.topKDocs_.length displayPropertyNum isSummaryOn
      iter := List.replicate resultList.length 0 }

/-- A display table as lines 159-169 leave it: `dpn` rows of `topk` cells, old content
kept where there was any. -/
def initGrid (grid : Grid) (dpn topk : Nat) : Grid :=
  resizeRows dpn topk (resize grid dpn [])

/-- The display table `sel` after `mergeSummaryResult`, from its initialised state. -/
def finalGrid (sel : KeywordSearchResult → Grid) (result : KeywordSearchResult)
    (resultList : WorkerResults) (dpn : Nat) : Grid :=
  (gridLoop sel resultList dpn result.topKDocs_.length
    (initGrid (sel result) dpn result.topKDocs_.length)).1

/-- A secondary-phase reply of worker 100 for the page `pageAB`: it owns position 2 and
carries two display fields, summaries enabled. -/
def subA : KeywordSearchResult :=
  { topKDocs_ := [3], topKWorkerIds_ := [100], topKPostionList_ := [2],
    snippetTextOfDocumentInPage_ := [["a2"], ["A2"]],
    fullTextOfDocumentInPage_ := [["fa2"], ["FA2"]],
    rawTextOfSummaryInPage_ := [["ra2"], ["RA2"]] }

/-- A secondary-phase reply of worker 200 for the page `pageAB`: it owns positions 1
and 3 and carries two display fields, summaries enabled. -/
def subB : KeywordSearchResult :=
  { topKDocs_ := [2, 4], topKWorkerIds_ := [200, 200], topKPostionList_ := [1, 3],
    snippetTextOfDocumentInPage_ := [["b1", "b3"], ["B1", "B3"]],
    fullTextOfDocumentInPage_ := [["fb1", "fb3"], ["FB1", "FB3"]],
    rawTextOfSummaryInPage_ := [["rb1", "rb3"], ["RB1", "RB3"]] }

/-! ## Auxiliary views of the merge loop -/

/-- The state in which the outer loop of lines 60-92 starts (lines 38-59). -/
def mergeInitState (result : KeywordSearchResult) (resultList : WorkerResults) : MergeState :=
  { result := clipAndResize result (overallResultCount resultList)
    iter := List.replicate resultList.length 0
    cnt := 0 }

/-- The states of the outer loop of lines 60-92 at the head of each iteration, in order,
followed by the state in which the loop ends; `remaining` as in `mergeLoop`. -/
def mergeTrace (resultList : WorkerResults) : Nat → MergeState → List MergeState
  | 0, s => [s]
  | remaining + 1, s =>
    match (findMax resultList s.iter).2 with
    | none => [s]
    | some maxi => s :: mergeTrace resultList remaining (mergeStep resultList maxi s)

/-- The selections `(maxi, iter[maxi])` of the successive iterations of the outer loop
of lines 60-92, started from the cursor array `iter`. -/
def mergePicks (resultList : WorkerResults) : Nat → List Nat → List (Nat × Nat)
  | 0, _ => []
  | remaining + 1, iter =>
    match (findMax resultList iter).2 with
    | none => []
    | some maxi =>
      (maxi, iter.getD maxi 0) ::
        mergePicks resultList remaining (iter.set maxi (iter.getD maxi 0 + 1))

/-- The cursor array `iter` when the outer loop of lines 60-92 ends. -/
def mergeCursors (resultList : WorkerResults) : Nat → List Nat → List Nat
  | 0, iter => iter
  | remaining + 1, iter =>
    match (findMax resultList iter).2 with
    | none => iter
    | some maxi => mergeCursors resultList remaining (iter.set maxi (iter.getD maxi 0 + 1))

/-- The score `resultList[a].second.topKRankScoreList_[j]` of a selection `(a, j)`. -/
def pickScore (resultList : WorkerResults) (p : Nat × Nat) : Int :=
  (workerResult resultList p.1).topKRankScoreList_.getD p.2 0

/-- The document `resultList[a].second.topKDocs_[j]` of a selection `(a, j)`. -/
def pickDoc (resultList : WorkerResults) (p : Nat × Nat) : Nat :=
  (workerResult resultList p.1).topKDocs_.getD p.2 0

/-- The scores of all workers, concatenated in input-list order. -/
def allScores (resultList : WorkerResults) : List Int :=
  (resultList.map (fun w => w.2.topKRankScoreList_)).flatten

/-- The descending sort of a list of scores. -/
def sortDescending (l : List Int) : List Int := l.insertionSort (· ≥ ·)

/-- The scores not yet consumed under the cursor array `iter`, worker by worker. -/
def remainingScores (resultList : WorkerResults) (iter : List Nat) : List Int :=
  ((List.range resultList.length).map
    (fun a => (workerResult resultList a).topKRankScoreList_.drop (iter.getD a 0))).flatten

/-- A conditional array write: `l[k] = v` when a value is supplied, nothing otherwise. -/
def writeOpt {α : Type} (l : List α) (k : Nat) (o : Option α) : List α :=
  match o with
  | some v => l.set k v
  | none => l

/-- The selections made from worker `a`. -/
def picksOf (a : Nat) (picks : List (Nat × Nat)) : List (Nat × Nat) :=
  picks.filter (fun p => decide (p.1 = a))

/-- The custom score that a selection `(a, j)` writes (lines 87-88): the worker's custom
score at `j` when the worker has custom scores, nothing otherwise. -/
def pickCustom (resultList : WorkerResults) (p : Nat × Nat) : Option Int :=
  if (workerResult resultList p.1).topKCustomRankScoreList_.length > 0 then
    some ((workerResult resultList p.1).topKCustomRankScoreList_.getD p.2 0)
  else none

/-- A worker whose second score is zero. -/
def shardZero : KeywordSearchResult :=
  { totalCount_ := 2, topKDocs_ := [1, 2], topKRankScoreList_ := [5, 0] }

/-- A worker whose only score is negative. -/
def shardNegative : KeywordSearchResult :=
  { totalCount_ := 1, topKDocs_ := [3], topKRankScoreList_ := [-2] }

/-- Two workers, with ids 100 and 200, that return three documents between them, two of
them with a score that is not positive. -/
def shardsNonPositive : WorkerResults := [(100, shardZero), (200, shardNegative)]

/-- A worker, with custom scores, for the merge with worker A of the example scenario. -/
def shardC : KeywordSearchResult :=
  { totalCount_ := 2, topKDocs_ := [5, 6], topKRankScoreList_ := [7, 2],
    topKCustomRankScoreList_ := [70, 20] }

/-- Worker A of the example scenario, without custom scores, and worker `shardC`. -/
def shardsAC : WorkerResults := [(100, shardA), (300, shardC)]

/-- The filled global slots `0 .. filled-1` that `result` attributes to the worker id
`id`, in increasing slot order. -/
def slotsOf (result : KeywordSearchResult) (filled id : Nat) : List Nat :=
  (List.range filled).filter (fun k => decide (result.topKWorkerIds_.getD k 0 = id))

/-- Three workers, with ids 5, 6 and 7, whose head scores tie at 7; the first and the
third carry custom scores. -/
def shardsTied : WorkerResults :=
  [(5, { topKDocs_ := [11, 12, 13], topKRankScoreList_ := [7, 7, 2],
         topKCustomRankScoreList_ := [70, 71, 72] }),
   (6, { topKDocs_ := [21, 22], topKRankScoreList_ := [9, 7] }),
   (7, { topKDocs_ := [31, 32, 33, 34], topKRankScoreList_ := [7, 3, 3, 1],
         topKCustomRankScoreList_ := [1, 2, 3, 4] })]

/-- One iteration of the outer loop leads from `s` to `s'` by appending the head of the
first worker, in input-list order, whose head score is the maximum over the cursors
within bounds: the slot `s.cnt` receives that worker's document, id and score, the slot
counter moves on by one, and only that worker's cursor advances, by one. -/
def AppendsFirstMaximum (rl : WorkerResults) (s s' : MergeState) : Prop :=
  ∃ a, a < rl.length ∧ cursorLive rl s.iter a ∧
    (∀ j, j < rl.length → cursorLive rl s.iter j →
      headScore rl s.iter j ≤ headScore rl s.iter a) ∧
    (∀ j, j < a → cursorLive rl s.iter j → headScore rl s.iter j ≠ headScore rl s.iter a) ∧
    s'.cnt = s.cnt + 1 ∧
    s.cnt < s'.result.topKDocs_.length ∧
    s'.result.topKDocs_.getD s.cnt 0 =
      (workerResult rl a).topKDocs_.getD (s.iter.getD a 0) 0 ∧
    s'.result.topKWorkerIds_.getD s.cnt 0 = workerId rl a ∧
    s'.result.topKRankScoreList_.getD s.cnt 0 = headScore rl s.iter a ∧
    s'.iter.getD a 0 = s.iter.getD a 0 + 1 ∧
    ∀ j, j ≠ a → s'.iter.getD j 0 = s.iter.getD j 0

/-- Every array access of one iteration of the outer loop (lines 63-91), started in the
state `s`, is within bounds: `resultList[i]` and `iter[i]` of the scan (the read
`rankScoreList[iter[i]]` is guarded by the test before it on line 67), and, when a
worker `maxi` is selected, `resultList[maxi]`, `iter[maxi]`, the worker's documents and
scores at its cursor, its custom scores at its cursor when it has any, and the four
global arrays at the slot counter. -/
def IterationInBounds (rl : WorkerResults) (s : MergeState) : Prop :=
  (∀ i, i < rl.length → i < s.iter.length) ∧
  ∀ maxi, (findMax rl s.iter).2 = some maxi →
    maxi < rl.length ∧ maxi < s.iter.length ∧
    s.iter.getD maxi 0 < (workerResult rl maxi).topKDocs_.length ∧
    s.iter.getD maxi 0 < (workerResult rl maxi).topKRankScoreList_.length ∧
    ((workerResult rl maxi).topKCustomRankScoreList_.length > 0 →
      s.iter.getD maxi 0 < (workerResult rl maxi).topKCustomRankScoreList_.length) ∧
    s.cnt < s.result.topKDocs_.length ∧
    s.cnt < s.result.topKWorkerIds_.length ∧
    s.cnt < s.result.topKRankScoreList_.length ∧
    s.cnt < s.result.topKCustomRankScoreList_.length

/-- Every score of every worker is strictly positive. -/
def ScoresPositive (rl : WorkerResults) : Prop :=
  ∀ w ∈ rl, ∀ x ∈ w.2.topKRankScoreList_, 0 < x

/-! ## Auxiliary views of the reassembly loop -/

/-- The state of the loop of lines 177-208 when slot `n` is about to be processed, that
is after the slots `0 .. n-1`; the number of display fields and the summary flag are read
off the first sub-result as on lines 155-156. -/
def summaryStateAt (result : KeywordSearchResult) (resultList : WorkerResults) (n : Nat) :
    SummaryState :=
  (List.range n).foldl
    (summaryStep resultList (workerResult resultList 0).snippetTextOfDocumentInPage_.length
      (workerResult resultList 0).rawTextOfSummaryInPage_.length)
    { result := initSummary result result.topKDocs_.length
        (workerResult resultList 0).snippetTextOfDocumentInPage_.length
        (workerResult resultList 0).rawTextOfSummaryInPage_.length
      iter := List.replicate resultList.length 0 }

/-- A result of three documents whose snippet table already holds a row of old values. -/
def pageOld : KeywordSearchResult :=
  { topKDocs_ := [1, 2, 3], topKWorkerIds_ := [200, 100, 200],
    snippetTextOfDocumentInPage_ := [["old0", "old1", "old2"]] }

/-- A sub-result that owns position 1. -/
def subFirst : KeywordSearchResult :=
  { topKPostionList_ := [1], snippetTextOfDocumentInPage_ := [["a1"]],
    fullTextOfDocumentInPage_ := [["fa1"]] }

/-- A sub-result whose positions list names position 1 as well, returns to position 0
after it and ends with position 2. -/
def subSecond : KeywordSearchResult :=
  { topKPostionList_ := [0, 1, 0, 2], snippetTextOfDocumentInPage_ := [["b0", "b1", "b2", "b3"]],
    fullTextOfDocumentInPage_ := [["fb0", "fb1", "fb2", "fb3"]] }

/-- The two sub-results, `subFirst` before `subSecond`. -/
def subsConflict : WorkerResults := [(100, subFirst), (200, subSecond)]

/-- The read `grid[dis][i]` of an `operator[]` chain stays inside the table: `dis` is a row
of `grid` and `i` is a cell of that row.  The operator is unchecked, so outside these bounds
the source has no defined behaviour. -/
def cellInBounds (grid : Grid) (dis i : Nat) : Prop :=
  dis < grid.length ∧ i < (grid.getD dis []).length

instance (grid : Grid) (dis i : Nat) : Decidable (cellInBounds grid dis i) := by
  unfold cellInBounds; infer_instance

/-- The reads of lines 200-203 for the sub-result `subResult` at its cursor `it` stay inside
its display tables, for every display field; the summary table is read only when
`isSummaryOn` is non-zero. -/
def copyReadsInBounds (displayPropertyNum isSummaryOn : Nat) (subResult : KeywordSearchResult)
    (it : Nat) : Prop :=
  ∀ dis, dis < displayPropertyNum →
    cellInBounds subResult.snippetTextOfDocumentInPage_ dis it ∧
    cellInBounds subResult.fullTextOfDocumentInPage_ dis it ∧
    (isSummaryOn ≠ 0 → cellInBounds subResult.rawTextOfSummaryInPage_ dis it)

instance (displayPropertyNum isSummaryOn : Nat) (subResult : KeywordSearchResult) (it : Nat) :
    Decidable (copyReadsInBounds displayPropertyNum isSummaryOn subResult it) := by
  unfold copyReadsInBounds; infer_instance

/-- Every read of lines 200-203 that the loop of lines 177-208 performs stays inside the
table it reads: whenever a sub-result is selected for a slot, its display tables hold a
value at its cursor in each of the `displayPropertyNum` rows. -/
def SummaryReadsInBounds (result : KeywordSearchResult) (resultList : WorkerResults) : Prop :=
  ∀ i, i < result.topKDocs_.length →
    ∀ curSub ∈ findSub resultList (summaryStateAt result resultList i).iter i,
      copyReadsInBounds (workerResult resultList 0).snippetTextOfDocumentInPage_.length
        (workerResult resultList 0).rawTextOfSummaryInPage_.length
        (workerResult resultList curSub)
        ((summaryStateAt result resultList i).iter.getD curSub 0)

instance (result : KeywordSearchResult) (resultList : WorkerResults) :
    Decidable (SummaryReadsInBounds result resultList) := by
  unfold SummaryReadsInBounds; infer_instance

/-- A secondary-phase reply of worker 200 for the page `pageAB` that owns positions 1 and 3
and carries no display field at all. -/
def subBare : KeywordSearchResult :=
  { topKDocs_ := [2, 4], topKWorkerIds_ := [200, 200], topKPostionList_ := [1, 3] }

/-- The reply `subA`, with two display fields, followed by the reply `subBare`. -/
def subsBare : WorkerResults := [(100, subA), (200, subBare)]

/-- A page of three documents whose requested window `(1, 2 ^ 64 - 1)` has a sum that
does not fit a `size_t`. -/
def pageWrapped : KeywordSearchResult :=
  { start_ := 1, count_ := 18446744073709551615, topKDocs_ := [1, 2, 3],
    topKWorkerIds_ := [100, 200, 100] }

/-! ## Lemmas on `sizeAdd` -/

theorem sizeAdd_lt (a b : Nat) : sizeAdd a b < sizeModulus :=
  Nat.mod_lt _ (by decide)

/-! ## Lemmas on `resize` -/

@[simp] theorem resize_length {α : Type} (v : List α) (n : Nat) (d : α) :
    (resize v n d).length = n := by
  simp [resize, List.length_take]; omega

@[simp] theorem resize_nil {α : Type} (n : Nat) (d : α) :
    resize ([] : List α) n d = List.replicate n d := by
  simp [resize]

/-! ## Lemmas on the inner scan -/

theorem findMaxUpTo_succ (rl : WorkerResults) (iter : List Nat) (n : Nat) :
    findMaxUpTo rl iter (n + 1) = findMaxStep rl iter (findMaxUpTo rl iter n) n := by
  simp [findMaxUpTo, List.range_succ, List.foldl_append]

theorem findMaxUpTo_inv (rl : WorkerResults) (iter : List Nat) (n : Nat) :
    ScanInv rl iter n (findMaxUpTo rl iter n) := by
  induction n with
  | zero =>
    refine ⟨?_, ?_, ?_, ?_, ?_, ?_, ?_, ?_⟩ <;> simp [findMaxUpTo]
  | succ n ih =>
    rw [findMaxUpTo_succ]
    generalize findMaxUpTo rl iter n = acc at ih
    unfold findMaxStep
    split_ifs with h
    · obtain ⟨hl, hgt⟩ := h
      refine ⟨?_, ?_, ?_, ?_, ?_, ?_, ?_, ?_⟩
      · have := ih.nonneg; simp only; omega
      · intro j hj hlive
        rcases Nat.lt_succ_iff_lt_or_eq.mp hj with hj | hj
        · have := ih.upper j hj hlive; simp only; omega
        · subst hj; simp
      · simp
      · intro i hi; simp at hi; omega
      · intro i hi; simp at hi; subst hi; exact hl
      · intro i hi; simp at hi; subst hi; rfl
      · intro i _; have := ih.nonneg; simp only; omega
      · intro i hi j hj hlive; simp at hi; subst hi
        have := ih.upper j hj hlive; simp only; omega
    · refine ⟨ih.nonneg, ?_, ih.none_zero, ?_, ih.some_live, ih.some_head, ih.some_pos,
        ih.some_first⟩
      · intro j hj hlive
        rcases Nat.lt_succ_iff_lt_or_eq.mp hj with hj | hj
        · exact ih.upper j hj hlive
        · subst hj
          by_contra hc
          exact h ⟨hlive, by omega⟩
      · intro i hi; have := ih.some_lt i hi; omega

theorem findMax_inv (rl : WorkerResults) (iter : List Nat) :
    ScanInv rl iter rl.length (findMax rl iter) :=
  findMaxUpTo_inv rl iter rl.length

/-- A cursor of a worker index outside the list is never live. -/
theorem not_cursorLive_of_ge (rl : WorkerResults) (iter : List Nat) (j : Nat)
    (h : rl.length ≤ j) : ¬ cursorLive rl iter j := by
  unfold cursorLive workerResult
  rw [List.getD_eq_default _ _ h]
  exact Nat.not_lt_zero _

/-! ## Lemmas on the outer loop -/

@[simp] theorem mergeStep_scores (rl : WorkerResults) (maxi : Nat) (s : MergeState) :
    (mergeStep rl maxi s).result.topKRankScoreList_ =
      s.result.topKRankScoreList_.set s.cnt (headScore rl s.iter maxi) := by
  unfold mergeStep headScore; simp only; split_ifs <;> rfl

@[simp] theorem mergeStep_docs (rl : WorkerResults) (maxi : Nat) (s : MergeState) :
    (mergeStep rl maxi s).result.topKDocs_ =
      s.result.topKDocs_.set s.cnt
        ((workerResult rl maxi).topKDocs_.getD (s.iter.getD maxi 0) 0) := by
  unfold mergeStep; simp only; split_ifs <;> rfl

@[simp] theorem mergeStep_workerIds (rl : WorkerResults) (maxi : Nat) (s : MergeState) :
    (mergeStep rl maxi s).result.topKWorkerIds_ =
      s.result.topKWorkerIds_.set s.cnt (workerId rl maxi) := by
  unfold mergeStep; simp only; split_ifs <;> rfl

theorem mergeStep_customScores (rl : WorkerResults) (maxi : Nat) (s : MergeState) :
    (mergeStep rl maxi s).result.topKCustomRankScoreList_ =
      if (workerResult rl maxi).topKCustomRankScoreList_.length > 0 then
        s.result.topKCustomRankScoreList_.set s.cnt
          ((workerResult rl maxi).topKCustomRankScoreList_.getD (s.iter.getD maxi 0) 0)
      else s.result.topKCustomRankScoreList_ := by
  unfold mergeStep; simp only; split_ifs <;> rfl

@[simp] theorem mergeStep_customScores_length (rl : WorkerResults) (maxi : Nat) (s : MergeState) :
    (mergeStep rl maxi s).result.topKCustomRankScoreList_.length =
      s.result.topKCustomRankScoreList_.length := by
  rw [mergeStep_customScores]; split_ifs <;> simp

@[simp] theorem mergeStep_iter (rl : WorkerResults) (maxi : Nat) (s : MergeState) :
    (mergeStep rl maxi s).iter = s.iter.set maxi (s.iter.getD maxi 0 + 1) := rfl

@[simp] theorem mergeStep_cnt (rl : WorkerResults) (maxi : Nat) (s : MergeState) :
    (mergeStep rl maxi s).cnt = s.cnt + 1 := rfl

@[simp] theorem mergeStep_start (rl : WorkerResults) (maxi : Nat) (s : MergeState) :
    (mergeStep rl maxi s).result.start_ = s.result.start_ := by
  unfold mergeStep; simp only; split_ifs <;> rfl

@[simp] theorem mergeStep_count (rl : WorkerResults) (maxi : Nat) (s : MergeState) :
    (mergeStep rl maxi s).result.count_ = s.result.count_ := by
  unfold mergeStep; simp only; split_ifs <;> rfl

@[simp] theorem mergeStep_totalCount (rl : WorkerResults) (maxi : Nat) (s : MergeState) :
    (mergeStep rl maxi s).result.totalCount_ = s.result.totalCount_ := by
  unfold mergeStep; simp only; split_ifs <;> rfl

/-- A property of the result record that every loop iteration preserves is preserved by
the whole loop. -/
theorem mergeLoop_preserves (rl : WorkerResults) (P : KeywordSearchResult → Prop)
    (hstep : ∀ maxi s, P s.result → P (mergeStep rl maxi s).result) :
    ∀ (n : Nat) (s : MergeState), P s.result → P (mergeLoop rl n s).result := by
  intro n
  induction n with
  | zero => intro s h; exact h
  | succ n ih =>
    intro s h
    unfold mergeLoop
    split
    · exact h
    · exact ih _ (hstep _ _ h)

theorem mergeLoop_start (rl : WorkerResults) (n : Nat) (s : MergeState) :
    (mergeLoop rl n s).result.start_ = s.result.start_ :=
  mergeLoop_preserves rl (fun r => r.start_ = s.result.start_) (by intro m t h; simpa using h) n s rfl

theorem mergeLoop_count (rl : WorkerResults) (n : Nat) (s : MergeState) :
    (mergeLoop rl n s).result.count_ = s.result.count_ :=
  mergeLoop_preserves rl (fun r => r.count_ = s.result.count_) (by intro m t h; simpa using h) n s rfl

theorem mergeLoop_totalCount (rl : WorkerResults) (n : Nat) (s : MergeState) :
    (mergeLoop rl n s).result.totalCount_ = s.result.totalCount_ :=
  mergeLoop_preserves rl (fun r => r.totalCount_ = s.result.totalCount_)
    (by intro m t h; simpa using h) n s rfl

theorem mergeLoop_docs_length (rl : WorkerResults) (n : Nat) (s : MergeState) :
    (mergeLoop rl n s).result.topKDocs_.length = s.result.topKDocs_.length :=
  mergeLoop_preserves rl (fun r => r.topKDocs_.length = s.result.topKDocs_.length)
    (by intro m t h; simpa using h) n s rfl

theorem mergeLoop_workerIds_length (rl : WorkerResults) (n : Nat) (s : MergeState) :
    (mergeLoop rl n s).result.topKWorkerIds_.length = s.result.topKWorkerIds_.length :=
  mergeLoop_preserves rl (fun r => r.topKWorkerIds_.length = s.result.topKWorkerIds_.length)
    (by intro m t h; simpa using h) n s rfl

theorem mergeLoop_scores_length (rl : WorkerResults) (n : Nat) (s : MergeState) :
    (mergeLoop rl n s).result.topKRankScoreList_.length = s.result.topKRankScoreList_.length :=
  mergeLoop_preserves rl
    (fun r => r.topKRankScoreList_.length = s.result.topKRankScoreList_.length)
    (by intro m t h; simpa using h) n s rfl

theorem mergeLoop_customScores_length (rl : WorkerResults) (n : Nat) (s : MergeState) :
    (mergeLoop rl n s).result.topKCustomRankScoreList_.length =
      s.result.topKCustomRankScoreList_.length :=
  mergeLoop_preserves rl
    (fun r => r.topKCustomRankScoreList_.length = s.result.topKCustomRankScoreList_.length)
    (by intro m t h; simpa using h) n s rfl

/-! ## Lemmas on `clipAndResize` -/

theorem clipAndResize_start (r : KeywordSearchResult) (R : Nat) :
    (clipAndResize r R).start_ = min r.start_ R := by
  unfold clipAndResize; simp only
  split_ifs <;> simp <;> omega

theorem clipAndResize_count (r : KeywordSearchResult) (R : Nat) :
    (clipAndResize r R).count_ =
      if sizeAdd r.start_ r.count_ ≤ R then r.count_ else R - min r.start_ R := by
  unfold clipAndResize; simp only
  split_ifs <;> first | rfl | omega | (simp only []; omega)

@[simp] theorem clipAndResize_totalCount (r : KeywordSearchResult) (R : Nat) :
    (clipAndResize r R).totalCount_ = r.totalCount_ := by
  unfold clipAndResize; simp only
  split_ifs <;> rfl

@[simp] theorem clipAndResize_docs (r : KeywordSearchResult) (R : Nat) :
    (clipAndResize r R).topKDocs_ = resize r.topKDocs_ (sizeAdd r.start_ r.count_) 0 := by
  unfold clipAndResize; simp only
  split_ifs <;> rfl

@[simp] theorem clipAndResize_workerIds (r : KeywordSearchResult) (R : Nat) :
    (clipAndResize r R).topKWorkerIds_ = resize r.topKWorkerIds_ (sizeAdd r.start_ r.count_) 0 := by
  unfold clipAndResize; simp only
  split_ifs <;> rfl

@[simp] theorem clipAndResize_scores (r : KeywordSearchResult) (R : Nat) :
    (clipAndResize r R).topKRankScoreList_ =
      resize r.topKRankScoreList_ (sizeAdd r.start_ r.count_) 0 := by
  unfold clipAndResize; simp only
  split_ifs <;> rfl

@[simp] theorem clipAndResize_customScores (r : KeywordSearchResult) (R : Nat) :
    (clipAndResize r R).topKCustomRankScoreList_ =
      resize r.topKCustomRankScoreList_ (sizeAdd r.start_ r.count_) 0 := by
  unfold clipAndResize; simp only
  split_ifs <;> rfl

/-! ## General list lemmas -/

theorem getD_set_eq {α : Type} (l : List α) (i : Nat) (v d : α) (h : i < l.length) :
    (l.set i v).getD i d = v := by
  simp [List.getElem?_set, h]

theorem getD_set_ne {α : Type} (l : List α) (i j : Nat) (v d : α) (h : i ≠ j) :
    (l.set i v).getD j d = l.getD j d := by
  simp [List.getElem?_set, h]

theorem set_append_replicate {α : Type} (P : List α) (n : Nat) (d v : α) :
    (P ++ List.replicate (n + 1) d).set P.length v = (P ++ [v]) ++ List.replicate n d := by
  rw [List.set_append_right _ _ (Nat.le_refl _)]
  simp [List.replicate_succ]

theorem getD_le_of_nonIncreasing (l : List Int) (h : NonIncreasing l) (i j : Nat)
    (hij : i < j) (hj : j < l.length) : l.getD j 0 ≤ l.getD i 0 := by
  have hi : i < l.length := by omega
  rw [List.getD_eq_getElem _ _ hj, List.getD_eq_getElem _ _ hi]
  exact (List.pairwise_iff_getElem.mp h) i j hi hj hij

theorem nonIncreasing_append_zeros (P : List Int) (n : Nat) (h : NonIncreasing P)
    (hpos : ∀ x ∈ P, 0 < x) : NonIncreasing (P ++ List.replicate n 0) := by
  unfold NonIncreasing at *
  rw [List.pairwise_append]
  refine ⟨h, by simp, ?_⟩
  intro a ha b hb
  rw [List.eq_of_mem_replicate hb]
  exact le_of_lt (hpos a ha)

theorem nonIncreasing_replicate_zero (n : Nat) : NonIncreasing (List.replicate n 0) := by
  simp [NonIncreasing]

/-! ## The scores written by the outer loop -/

theorem workerResult_mem (rl : WorkerResults) (i : Nat) (h : i < rl.length) :
    ∃ id, (id, workerResult rl i) ∈ rl := by
  refine ⟨workerId rl i, ?_⟩
  unfold workerId workerResult
  rw [List.getD_eq_getElem _ _ h]
  exact List.getElem_mem _

theorem headsBelow_step (rl : WorkerResults) (hs : ScoresSorted rl) (iter : List Nat)
    (hlen : iter.length = rl.length) (P : List Int) (hP : HeadsBelow rl iter P) (maxi : Nat)
    (hmax : (findMax rl iter).2 = some maxi) :
    HeadsBelow rl (iter.set maxi (iter.getD maxi 0 + 1)) (P ++ [headScore rl iter maxi]) := by
  have inv := findMax_inv rl iter
  have hlt := inv.some_lt maxi hmax
  have hlive := inv.some_live maxi hmax
  have hhead := inv.some_head maxi hmax
  -- every live head of the new cursor array is at most the selected score
  have key : ∀ j, cursorLive rl (iter.set maxi (iter.getD maxi 0 + 1)) j →
      headScore rl (iter.set maxi (iter.getD maxi 0 + 1)) j ≤ headScore rl iter maxi := by
    intro j hj
    by_cases hjm : maxi = j
    · subst hjm
      unfold cursorLive at hj
      unfold headScore
      rw [getD_set_eq _ _ _ _ (by omega)] at hj ⊢
      obtain ⟨id, hmem⟩ := workerResult_mem rl maxi hlt
      exact getD_le_of_nonIncreasing _ (hs _ hmem) _ _ (Nat.lt_succ_self _) hj
    · unfold cursorLive at hj
      unfold headScore at *
      rw [getD_set_ne _ _ _ _ _ hjm] at hj ⊢
      by_cases hjl : j < rl.length
      · have := inv.upper j hjl hj
        unfold headScore at this
        omega
      · exact absurd hj (not_cursorLive_of_ge rl iter j (by omega))
  intro x hx j hj
  rcases List.mem_append.mp hx with hx | hx
  · exact le_trans (key j hj) (hP x hx maxi hlive)
  · rw [List.mem_singleton.mp hx]; exact key j hj

theorem mergeLoop_scores_sorted (rl : WorkerResults) (hs : ScoresSorted rl) :
    ∀ (n : Nat) (s : MergeState) (P : List Int),
      s.result.topKRankScoreList_ = P ++ List.replicate n 0 →
      P.length = s.cnt → s.iter.length = rl.length →
      NonIncreasing P → (∀ x ∈ P, 0 < x) → HeadsBelow rl s.iter P →
      NonIncreasing (mergeLoop rl n s).result.topKRankScoreList_ := by
  intro n
  induction n with
  | zero =>
    intro s P hS _ _ hP _ _
    simpa [mergeLoop, hS] using hP
  | succ n ih =>
    intro s P hS hcnt hlen hP hpos hheads
    unfold mergeLoop
    split
    · rw [hS]; exact nonIncreasing_append_zeros P _ hP hpos
    · rename_i maxi hmax
      have inv := findMax_inv rl s.iter
      have hv : 0 < headScore rl s.iter maxi := by
        rw [inv.some_head maxi hmax]; exact inv.some_pos maxi hmax
      apply ih _ (P ++ [headScore rl s.iter maxi])
      · rw [mergeStep_scores, hS, ← hcnt, set_append_replicate]
      · simp [hcnt]
      · simpa using hlen
      · unfold NonIncreasing at *
        rw [List.pairwise_append]
        refine ⟨hP, by simp, ?_⟩
        intro a ha b hb
        rw [List.mem_singleton.mp hb]
        exact hheads a ha maxi (inv.some_live maxi hmax)
      · intro x hx
        rcases List.mem_append.mp hx with hx | hx
        · exact hpos x hx
        · rw [List.mem_singleton.mp hx]; exact hv
      · exact headsBelow_step rl hs s.iter hlen P hheads maxi hmax

/-! ## The accumulated counts -/

theorem foldl_range_getD {α β : Type} (l : List α) (d : α) (f : β → α → β) (a : β) :
    ∀ n, n ≤ l.length →
      (List.range n).foldl (fun acc i => f acc (l.getD i d)) a = (l.take n).foldl f a := by
  intro n
  induction n with
  | zero => intro _; simp
  | succ n ih =>
    intro hn
    have hlt : n < l.length := by omega
    rw [List.range_succ, List.foldl_append, ih (by omega), List.take_succ, List.foldl_append]
    simp [List.getElem?_eq_getElem hlt]

theorem foldl_pair_sum {α : Type} (l : List α) (f g : α → Nat) :
    ∀ x y : Nat, l.foldl (fun acc w => (sizeAdd acc.1 (f w), acc.2 + g w))
        (x % sizeModulus, y) =
      ((x + (l.map f).sum) % sizeModulus, y + (l.map g).sum) := by
  induction l with
  | nil => intro x y; simp
  | cons w l ih =>
    intro x y
    have h : sizeAdd (x % sizeModulus) (f w) = (x + f w) % sizeModulus := by
      unfold sizeAdd; exact Nat.mod_add_mod _ _ _
    simp only [List.foldl_cons, List.map_cons, List.sum_cons, h, ih, Nat.add_assoc]

theorem basicInfo_eq (rl : WorkerResults) :
    basicInfo rl =
      ((rl.map (fun w => w.2.totalCount_)).sum % sizeModulus,
        (rl.map (fun w => w.2.topKDocs_.length)).sum) := by
  unfold basicInfo workerResult
  have h := foldl_range_getD rl default
    (fun (acc : Nat × Nat) (w : Nat × KeywordSearchResult) =>
      (sizeAdd acc.1 w.2.totalCount_, acc.2 + w.2.topKDocs_.length)) (0, 0) rl.length
    (Nat.le_refl _)
  simp only [List.take_length] at h
  rw [h]
  have := foldl_pair_sum rl (fun w => w.2.totalCount_) (fun w => w.2.topKDocs_.length) 0 0
  simpa using this

theorem overallResultCount_eq (rl : WorkerResults) :
    overallResultCount rl = (rl.map (fun w => w.2.topKDocs_.length)).sum := by
  simp [overallResultCount, basicInfo_eq]

theorem overallTotalCount_eq (rl : WorkerResults) :
    overallTotalCount rl = (rl.map (fun w => w.2.totalCount_)).sum % sizeModulus := by
  simp [overallTotalCount, basicInfo_eq]

/-! ## Facts about `mergeSearchResult` outside the single-worker branch -/

theorem mergeSearchResult_of_ne_one (result : KeywordSearchResult) (rl : WorkerResults)
    (h : rl.length ≠ 1) :
    mergeSearchResult result rl = (mergeFinalState result rl).result := by
  simp [mergeSearchResult, h]

theorem mergeFinalState_start (result : KeywordSearchResult) (rl : WorkerResults) :
    (mergeFinalState result rl).result.start_ = min result.start_ (overallResultCount rl) := by
  unfold mergeFinalState
  rw [mergeLoop_start]; exact clipAndResize_start _ _

theorem mergeFinalState_count (result : KeywordSearchResult) (rl : WorkerResults) :
    (mergeFinalState result rl).result.count_ =
      if sizeAdd result.start_ result.count_ ≤ overallResultCount rl then result.count_
      else overallResultCount rl - min result.start_ (overallResultCount rl) := by
  unfold mergeFinalState
  rw [mergeLoop_count]; exact clipAndResize_count _ _

theorem mergeFinalState_totalCount (result : KeywordSearchResult) (rl : WorkerResults) :
    (mergeFinalState result rl).result.totalCount_ = result.totalCount_ := by
  unfold mergeFinalState
  rw [mergeLoop_totalCount]; simp

theorem mergeFinalState_lengths (result : KeywordSearchResult) (rl : WorkerResults) :
    (mergeFinalState result rl).result.topKDocs_.length = sizeAdd result.start_ result.count_ ∧
    (mergeFinalState result rl).result.topKWorkerIds_.length = sizeAdd result.start_ result.count_ ∧
    (mergeFinalState result rl).result.topKRankScoreList_.length =
      sizeAdd result.start_ result.count_ ∧
    (mergeFinalState result rl).result.topKCustomRankScoreList_.length =
      sizeAdd result.start_ result.count_ := by
  unfold mergeFinalState
  rw [mergeLoop_docs_length, mergeLoop_workerIds_length, mergeLoop_scores_length,
    mergeLoop_customScores_length]
  simp

/-- Outside the single-worker branch `result.totalCount_` is never assigned. -/
theorem mergeSearchResult_totalCount_unchanged (result : KeywordSearchResult)
    (rl : WorkerResults) (h : rl.length ≠ 1) :
    (mergeSearchResult result rl).totalCount_ = result.totalCount_ := by
  rw [mergeSearchResult_of_ne_one _ _ h, mergeFinalState_totalCount]

/-! ## Lemmas on the result map -/

theorem mapFind_eq_none_iff (m : ResultMap) (k : Nat) :
    mapFind m k = none ↔ k ∉ m.map Prod.fst := by
  induction m with
  | nil => simp [mapFind]
  | cons e m ih =>
    obtain ⟨k0, v0⟩ := e
    simp only [mapFind, List.map_cons, List.mem_cons, not_or]
    by_cases h : k0 = k
    · simp [h]
    · simp only [h, if_false, ih]
      exact ⟨fun h' => ⟨fun h'' => h h''.symm, h'⟩, fun h' => h'.2⟩

theorem mapFind_mapInsert (m : ResultMap) (k : Nat) (v : KeywordSearchResult) (k' : Nat)
    (habs : mapFind m k = none) :
    mapFind (mapInsert m k v) k' = if k = k' then some v else mapFind m k' := by
  induction m with
  | nil => simp [mapInsert, mapFind]
  | cons e m ih =>
    obtain ⟨k0, v0⟩ := e
    simp only [mapFind] at habs
    by_cases h0 : k0 = k
    · simp [h0] at habs
    · simp only [h0, if_false] at habs
      simp only [mapInsert]
      by_cases h1 : k < k0
      · simp only [h1, if_true, mapFind]
      · have h2 : ¬ k = k0 := fun h => h0 h.symm
        simp only [h1, h2, if_false, mapFind, ih habs]
        by_cases h3 : k0 = k'
        · have h4 : ¬ k = k' := by omega
          simp [h3, h4]
        · simp [h3]

theorem mapModify_cons (e : Nat × KeywordSearchResult) (m : ResultMap) (k : Nat)
    (f : KeywordSearchResult → KeywordSearchResult) :
    mapModify (e :: m) k f = (if e.1 = k then (e.1, f e.2) else e) :: mapModify m k f := rfl

theorem mapFind_mapModify (m : ResultMap) (k : Nat)
    (f : KeywordSearchResult → KeywordSearchResult) (k' : Nat) :
    mapFind (mapModify m k f) k' = if k = k' then (mapFind m k).map f else mapFind m k' := by
  induction m with
  | nil => simp [mapModify, mapFind]
  | cons e m ih =>
    obtain ⟨k0, v0⟩ := e
    rw [mapModify_cons]
    by_cases h1 : k0 = k
    · subst h1
      rw [if_pos rfl]
      simp only [mapFind]
      by_cases h2 : k0 = k'
      · simp [h2]
      · simp only [h2, if_false, ih]
    · rw [if_neg h1]
      simp only [mapFind, h1, if_false, ih]
      by_cases h2 : k0 = k'
      · have h3 : ¬ k = k' := by omega
        simp [h2, h3]
      · simp [h2]

theorem mapModify_keys (m : ResultMap) (k : Nat) (f : KeywordSearchResult → KeywordSearchResult) :
    (mapModify m k f).map Prod.fst = m.map Prod.fst := by
  induction m with
  | nil => rfl
  | cons e m ih =>
    rw [mapModify_cons, List.map_cons, List.map_cons, ih]
    split_ifs <;> rfl

theorem mem_mapInsert_keys (m : ResultMap) (k : Nat) (v : KeywordSearchResult) (k' : Nat) :
    k' ∈ (mapInsert m k v).map Prod.fst ↔ k' = k ∨ k' ∈ m.map Prod.fst := by
  induction m with
  | nil => simp [mapInsert]
  | cons e m ih =>
    obtain ⟨k0, v0⟩ := e
    simp only [mapInsert]
    split_ifs with h1 h2
    · simp
    · subst h2; simp
    · simp only [List.map_cons, List.mem_cons, ih]
      tauto

theorem mapInsert_keys_nodup (m : ResultMap) (k : Nat) (v : KeywordSearchResult)
    (habs : k ∉ m.map Prod.fst) (h : (m.map Prod.fst).Nodup) :
    ((mapInsert m k v).map Prod.fst).Nodup := by
  induction m with
  | nil => simp [mapInsert]
  | cons e m ih =>
    obtain ⟨k0, v0⟩ := e
    simp only [List.map_cons, List.nodup_cons] at h
    simp only [List.map_cons, List.mem_cons, not_or] at habs
    simp only [mapInsert]
    split_ifs with h1 h2
    · simp only [List.map_cons, List.nodup_cons, List.mem_cons, not_or]
      exact ⟨⟨habs.1, habs.2⟩, h.1, h.2⟩
    · exact absurd h2 habs.1
    · simp only [List.map_cons, List.nodup_cons, mem_mapInsert_keys, not_or]
      exact ⟨⟨fun h' => habs.1 h'.symm, h.1⟩, ih habs.2 h.2⟩

theorem mapFind_of_mem (m : ResultMap) (h : (m.map Prod.fst).Nodup) (k : Nat)
    (v : KeywordSearchResult) (hmem : (k, v) ∈ m) : mapFind m k = some v := by
  induction m with
  | nil => simp at hmem
  | cons e m ih =>
    obtain ⟨k0, v0⟩ := e
    simp only [List.map_cons, List.nodup_cons] at h
    simp only [mapFind]
    rcases List.mem_cons.mp hmem with heq | hmem
    · simp only [Prod.mk.injEq] at heq
      simp [heq.1, heq.2]
    · have hne : ¬ k0 = k := by
        intro hk
        apply h.1
        rw [hk]
        exact List.mem_map.mpr ⟨(k, v), hmem, rfl⟩
      simp only [hne, if_false]
      exact ih h.2 hmem

theorem mem_of_mapFind (m : ResultMap) (k : Nat) (v : KeywordSearchResult)
    (h : mapFind m k = some v) : (k, v) ∈ m := by
  induction m with
  | nil => simp [mapFind] at h
  | cons e m ih =>
    obtain ⟨k0, v0⟩ := e
    simp only [mapFind] at h
    by_cases hk : k0 = k
    · simp only [hk, if_true, Option.some.injEq] at h
      simp [hk, h]
    · simp only [hk, if_false] at h
      exact List.mem_cons_of_mem _ (ih h)

/-! ## The split loop -/

theorem splitLoop_eq_foldl (result : KeywordSearchResult) :
    ∀ (fuel i : Nat) (m : ResultMap), result.topKWorkerIds_.length ≤ i + fuel →
      splitLoop result fuel i m =
        (List.range' i
          (min result.topKWorkerIds_.length (sizeAdd result.start_ result.count_) - i)).foldl
          (splitStep result) m := by
  intro fuel
  induction fuel with
  | zero =>
    intro i m h
    have : min result.topKWorkerIds_.length (sizeAdd result.start_ result.count_) - i = 0 := by omega
    simp [splitLoop, this]
  | succ fuel ih =>
    intro i m h
    unfold splitLoop
    split_ifs with h1 h2
    · have : min result.topKWorkerIds_.length (sizeAdd result.start_ result.count_) - i = 0 := by omega
      simp [this]
    · have : min result.topKWorkerIds_.length (sizeAdd result.start_ result.count_) - i =
          (min result.topKWorkerIds_.length (sizeAdd result.start_ result.count_) - (i + 1)) + 1 := by
        omega
      rw [this, List.range'_succ, List.foldl_cons]
      exact ih (i + 1) _ (by omega)
    · have : min result.topKWorkerIds_.length (sizeAdd result.start_ result.count_) - i = 0 := by omega
      simp [this]

theorem splitResultByWorkerid_eq_foldl (result : KeywordSearchResult) (m : ResultMap) :
    splitResultByWorkerid result m = (pageWindow result).foldl (splitStep result) m := by
  unfold splitResultByWorkerid pageWindow
  exact splitLoop_eq_foldl result _ _ m (by omega)

theorem positionsOf_append (result : KeywordSearchResult) (k : Nat) (visited : List Nat)
    (i : Nat) :
    positionsOf result k (visited ++ [i]) =
      positionsOf result k visited ++
        (if result.topKWorkerIds_.getD i 0 = k then [i] else []) := by
  unfold positionsOf
  rw [List.filter_append]
  by_cases h : result.topKWorkerIds_.getD i 0 = k
  · simp only [h, if_true]; rw [List.filter_cons_of_pos (by simpa using h)]; rfl
  · simp only [h, if_false]; rw [List.filter_cons_of_neg (by simpa using h)]; rfl

theorem pushDoc_accumulatorOf (result : KeywordSearchResult) (k i : Nat) (p : List Nat) :
    pushDoc result k i (accumulatorOf result k p) = accumulatorOf result k (p ++ [i]) := by
  simp [pushDoc, accumulatorOf]

theorem splitStep_inv (result : KeywordSearchResult) (visited : List Nat) (m : ResultMap)
    (i : Nat) (h : SplitInv result visited m) :
    SplitInv result (visited ++ [i]) (splitStep result m i) := by
  obtain ⟨hnd, hfind⟩ := h
  unfold splitStep
  simp only
  generalize hcur : result.topKWorkerIds_.getD i 0 = cur
  have hcurfind := hfind cur
  constructor
  · rw [mapModify_keys]
    split
    · rename_i hnone
      exact mapInsert_keys_nodup m cur _ ((mapFind_eq_none_iff m cur).mp hnone) hnd
    · exact hnd
  · intro k
    rw [mapFind_mapModify, positionsOf_append, hcur]
    by_cases hk : cur = k
    · subst hk
      simp only [if_true]
      split
      · rename_i hnone
        rw [mapFind_mapInsert m cur _ cur hnone, if_pos rfl]
        rw [hnone] at hcurfind
        have hp : positionsOf result cur visited = [] := by
          by_contra hne
          rw [if_neg hne] at hcurfind
          exact absurd hcurfind (by simp)
        simp [hp, pushDoc, accumulatorOf]
      · rename_i acc hsome
        rw [hsome] at hcurfind
        have hp : positionsOf result cur visited ≠ [] := by
          intro he
          rw [if_pos he] at hcurfind
          exact absurd hcurfind (by simp)
        rw [if_neg hp] at hcurfind
        have hacc : acc = accumulatorOf result cur (positionsOf result cur visited) := by
          simpa using hcurfind
        rw [hsome, hacc]
        simp [pushDoc_accumulatorOf]
    · simp only [hk, if_false, List.append_nil]
      split
      · rename_i hnone
        rw [mapFind_mapInsert m cur _ k hnone, if_neg hk]
        exact hfind k
      · exact hfind k

theorem splitFold_inv (result : KeywordSearchResult) :
    ∀ (todo visited : List Nat) (m : ResultMap), SplitInv result visited m →
      SplitInv result (visited ++ todo) (todo.foldl (splitStep result) m) := by
  intro todo
  induction todo with
  | nil => intro visited m h; simpa using h
  | cons i todo ih =>
    intro visited m h
    have := ih (visited ++ [i]) _ (splitStep_inv result visited m i h)
    simpa using this

/-- The map written into an empty map holds, for each worker, the accumulator built from
the positions of the page window attributed to that worker. -/
theorem splitResultByWorkerid_inv (result : KeywordSearchResult) :
    SplitInv result (pageWindow result) (splitResultByWorkerid result []) := by
  rw [splitResultByWorkerid_eq_foldl]
  have h0 : SplitInv result [] [] := by
    refine ⟨by simp, ?_⟩
    intro k; simp [mapFind, positionsOf]
  simpa using splitFold_inv result (pageWindow result) [] [] h0

theorem mem_pageWindow (result : KeywordSearchResult) (i : Nat) :
    i ∈ pageWindow result ↔
      result.start_ ≤ i ∧ i < min (sizeAdd result.start_ result.count_) result.topKWorkerIds_.length := by
  unfold pageWindow
  rw [List.mem_range'_1]
  omega

theorem mem_positionsOf (result : KeywordSearchResult) (k : Nat) (visited : List Nat) (i : Nat) :
    i ∈ positionsOf result k visited ↔ i ∈ visited ∧ result.topKWorkerIds_.getD i 0 = k := by
  unfold positionsOf
  simp [List.mem_filter]

theorem positionsOf_pageWindow_increasing (result : KeywordSearchResult) (k : Nat) :
    (positionsOf result k (pageWindow result)).Pairwise (· < ·) := by
  unfold positionsOf pageWindow
  apply List.Pairwise.filter
  exact List.pairwise_lt_range' _ _

/-- Every entry of the map written into an empty map is the accumulator of its key, and
that accumulator is not empty. -/
theorem splitResultByWorkerid_entry (result : KeywordSearchResult) (k : Nat)
    (acc : KeywordSearchResult) (hmem : (k, acc) ∈ splitResultByWorkerid result []) :
    positionsOf result k (pageWindow result) ≠ [] ∧
    acc = accumulatorOf result k (positionsOf result k (pageWindow result)) := by
  obtain ⟨hnd, hfind⟩ := splitResultByWorkerid_inv result
  have h := mapFind_of_mem _ hnd k acc hmem
  rw [hfind k] at h
  by_cases hp : positionsOf result k (pageWindow result) = []
  · rw [if_pos hp] at h; exact absurd h (by simp)
  · rw [if_neg hp] at h
    exact ⟨hp, by simpa using h.symm⟩

theorem accumulatorOf_entry (g : KeywordSearchResult) (k : Nat) (p : List Nat) (j : Nat)
    (hj : j < p.length) :
    (accumulatorOf g k p).topKPostionList_.getD j 0 = p[j] ∧
    (accumulatorOf g k p).topKDocs_.getD j 0 = g.topKDocs_.getD p[j] 0 ∧
    (accumulatorOf g k p).topKWorkerIds_.getD j 0 = k := by
  simp [accumulatorOf, List.getElem?_eq_getElem hj, List.getElem?_replicate, hj]

theorem index_unique_of_increasing (p : List Nat) (h : p.Pairwise (· < ·)) (j j' : Nat)
    (hj : j < p.length) (hj' : j' < p.length) (heq : p[j'] = p[j]) : j' = j := by
  rcases Nat.lt_trichotomy j' j with hlt | heq' | hgt
  · have := (List.pairwise_iff_getElem.mp h) j' j hj' hj hlt; omega
  · exact heq'
  · have := (List.pairwise_iff_getElem.mp h) j j' hj hj' hgt; omega

/-! ## Display tables -/

theorem cellGet_cellSet (grid : Grid) (dis i : Nat) (v : String) (dis' i' : Nat) :
    cellGet (cellSet grid dis i v) dis' i' =
      if dis = dis' ∧ i = i' ∧ dis < grid.length ∧ i < (grid.getD dis []).length then v
      else cellGet grid dis' i' := by
  unfold cellGet cellSet
  by_cases hd : dis = dis'
  · subst hd
    by_cases hlt : dis < grid.length
    · rw [getD_set_eq _ _ _ _ hlt]
      by_cases hi : i = i'
      · subst hi
        by_cases hil : i < (grid.getD dis []).length
        · rw [getD_set_eq _ _ _ _ hil, if_pos ⟨rfl, rfl, hlt, hil⟩]
        · rw [List.set_eq_of_length_le (by omega), if_neg (fun h => hil h.2.2.2)]
      · rw [getD_set_ne _ _ _ _ _ hi, if_neg (fun h => hi h.2.1)]
    · rw [List.set_eq_of_length_le (by omega), if_neg (fun h => hlt h.2.2.1)]
  · rw [getD_set_ne _ _ _ _ _ hd, if_neg (fun h => hd h.1)]

theorem getD_set_length {α : Type} (l : List α) (i : Nat) (v d : α) (j : Nat) :
    (l.set i v).getD j d = if i = j ∧ i < l.length then v else l.getD j d := by
  by_cases h : i = j
  · subst h
    by_cases hl : i < l.length
    · rw [getD_set_eq _ _ _ _ hl]; simp [hl]
    · rw [List.set_eq_of_length_le (by omega)]; simp [hl]
  · rw [getD_set_ne _ _ _ _ _ h]; simp [h]

theorem cellSet_shape (grid : Grid) (rows cols : Nat) (h : GridShape grid rows cols)
    (dis i : Nat) (v : String) : GridShape (cellSet grid dis i v) rows cols := by
  obtain ⟨h1, h2⟩ := h
  unfold cellSet
  refine ⟨by simpa using h1, ?_⟩
  intro d hd
  rw [getD_set_length]
  split_ifs with hc
  · rw [List.length_set]; rw [hc.1]; exact h2 d hd
  · exact h2 d hd

theorem copyColumn_succ (n : Nat) (src : Grid) (it i : Nat) (dst : Grid) :
    copyColumn (n + 1) src it i dst =
      cellSet (copyColumn n src it i dst) n i (cellGet src n it) := by
  simp [copyColumn, List.range_succ, List.foldl_append]

theorem copyColumn_shape (src : Grid) (it i : Nat) (dst : Grid) (rows cols : Nat)
    (h : GridShape dst rows cols) (n : Nat) : GridShape (copyColumn n src it i dst) rows cols := by
  induction n with
  | zero => simpa [copyColumn] using h
  | succ n ih => rw [copyColumn_succ]; exact cellSet_shape _ _ _ ih _ _ _

theorem cellGet_copyColumn (src : Grid) (it i : Nat) (dst : Grid) (rows cols : Nat)
    (h : GridShape dst rows cols) (hi : i < cols) (n : Nat) (hn : n ≤ rows) (dis i' : Nat) :
    cellGet (copyColumn n src it i dst) dis i' =
      if dis < n ∧ i' = i then cellGet src dis it else cellGet dst dis i' := by
  induction n with
  | zero => simp [copyColumn]
  | succ n ih =>
    have hshape := copyColumn_shape src it i dst rows cols h n
    rw [copyColumn_succ, cellGet_cellSet, ih (by omega)]
    have h1 : n < (copyColumn n src it i dst).length := by rw [hshape.1]; omega
    have h2 : i < ((copyColumn n src it i dst).getD n []).length := by
      rw [hshape.2 n (by omega)]; exact hi
    by_cases hd : n = dis
    · subst hd
      by_cases hi' : i = i'
      · subst hi'
        rw [if_pos ⟨rfl, rfl, h1, h2⟩, if_pos ⟨Nat.lt_succ_self _, rfl⟩]
      · have hne : ¬ i' = i := fun h => hi' h.symm
        rw [if_neg (fun h => hi' h.2.1), if_neg (fun h => hne h.2), if_neg (fun h => hne h.2)]
    · rw [if_neg (fun h => hd h.1)]
      by_cases hc : dis < n ∧ i' = i
      · rw [if_pos hc, if_pos ⟨by omega, hc.2⟩]
      · rw [if_neg hc, if_neg (fun h => hc ⟨by omega, h.2⟩)]

theorem resizeRows_succ (n topk : Nat) (grid : Grid) :
    resizeRows (n + 1) topk grid = rowResize (resizeRows n topk grid) n topk := by
  simp [resizeRows, List.range_succ, List.foldl_append]

theorem resizeRows_shape (topk : Nat) (grid : Grid) (n : Nat) :
    (resizeRows n topk grid).length = grid.length ∧
    (∀ dis, dis < n → dis < grid.length → ((resizeRows n topk grid).getD dis []).length = topk) ∧
    (∀ dis, n ≤ dis → (resizeRows n topk grid).getD dis [] = grid.getD dis []) := by
  induction n with
  | zero => simp [resizeRows]
  | succ n ih =>
    obtain ⟨ih1, ih2, ih3⟩ := ih
    rw [resizeRows_succ]
    unfold rowResize
    refine ⟨by simpa using ih1, ?_, ?_⟩
    · intro dis hd hdl
      rw [getD_set_length]
      split_ifs with hc
      · simp
      · have : dis < n := by
          rcases Nat.lt_succ_iff_lt_or_eq.mp hd with h | h
          · exact h
          · exfalso; apply hc; exact ⟨h.symm, by rw [ih1]; omega⟩
        exact ih2 dis this hdl
    · intro dis hd
      rw [getD_set_ne _ _ _ _ _ (by omega)]
      exact ih3 dis (by omega)

/-- After lines 159-169 a display table has `displayPropertyNum` rows of `topk` cells. -/
theorem initGrid_shape (grid : Grid) (dpn topk : Nat) :
    GridShape (resizeRows dpn topk (resize grid dpn [])) dpn topk := by
  obtain ⟨h1, h2, -⟩ := resizeRows_shape topk (resize grid dpn []) dpn
  rw [resize_length] at h1
  exact ⟨h1, fun dis hd => h2 dis hd (by rw [resize_length]; exact hd)⟩

theorem grid_ext (g1 g2 : Grid) (rows cols : Nat) (h1 : GridShape g1 rows cols)
    (h2 : GridShape g2 rows cols)
    (h : ∀ dis i, dis < rows → i < cols → cellGet g1 dis i = cellGet g2 dis i) : g1 = g2 := by
  apply List.ext_getElem (by rw [h1.1, h2.1])
  intro dis hd1 hd2
  have hr : dis < rows := by rw [← h1.1]; exact hd1
  have e1 : g1.getD dis [] = g1[dis] := List.getD_eq_getElem _ _ hd1
  have e2 : g2.getD dis [] = g2[dis] := List.getD_eq_getElem _ _ hd2
  have l1 := h1.2 dis hr
  have l2 := h2.2 dis hr
  rw [e1] at l1
  rw [e2] at l2
  apply List.ext_getElem (by rw [l1, l2])
  intro i hi1 hi2
  have := h dis i hr (by rw [← l1]; exact hi1)
  unfold cellGet at this
  rw [e1, e2, List.getD_eq_getElem _ _ hi1, List.getD_eq_getElem _ _ hi2] at this
  exact this

/-! ## Cursors over strictly increasing position lists -/

theorem countBelow_nil (i : Nat) : countBelow [] i = 0 := rfl

theorem countBelow_cons (x : Nat) (p : List Nat) (i : Nat) :
    countBelow (x :: p) i = (if x < i then 1 else 0) + countBelow p i := by
  unfold countBelow
  by_cases h : x < i
  · rw [List.filter_cons_of_pos (by simpa using h), if_pos h, List.length_cons]; omega
  · rw [List.filter_cons_of_neg (by simpa using h), if_neg h]; omega

theorem countBelow_eq_zero (p : List Nat) (i : Nat) (h : ∀ x ∈ p, i ≤ x) :
    countBelow p i = 0 := by
  induction p with
  | nil => rfl
  | cons x p ih =>
    rw [countBelow_cons, ih (fun y hy => h y (List.mem_cons_of_mem _ hy))]
    have := h x (List.mem_cons_self _ _)
    rw [if_neg (by omega)]

/-- The cursor of a strictly increasing positions list points at slot `i` exactly when
`i` occurs in the list. -/
theorem mem_iff_cursor (p : List Nat) (hp : p.Pairwise (· < ·)) (i : Nat) :
    i ∈ p ↔ countBelow p i < p.length ∧ p.getD (countBelow p i) 0 = i := by
  induction p with
  | nil => simp [countBelow_nil]
  | cons x p ih =>
    rw [List.pairwise_cons] at hp
    rw [countBelow_cons]
    by_cases hx : x < i
    · rw [if_pos hx, List.mem_cons, ih hp.2]
      have e : (x :: p).getD (1 + countBelow p i) 0 = p.getD (countBelow p i) 0 := by
        rw [Nat.add_comm]; rfl
      rw [e, List.length_cons]
      constructor
      · rintro (h | h)
        · omega
        · exact ⟨by omega, h.2⟩
      · rintro ⟨h1, h2⟩
        exact Or.inr ⟨by omega, h2⟩
    · have hz : countBelow p i = 0 :=
        countBelow_eq_zero p i (fun y hy => by have := hp.1 y hy; omega)
      rw [if_neg hx, hz, List.mem_cons]
      have e : (x :: p).getD (0 + 0) 0 = x := rfl
      rw [e, List.length_cons]
      constructor
      · rintro (h | h)
        · exact ⟨by omega, h.symm⟩
        · have := hp.1 i h; omega
      · rintro ⟨-, h2⟩
        exact Or.inl h2.symm

theorem countBelow_succ (p : List Nat) (hp : p.Pairwise (· < ·)) (i : Nat) :
    countBelow p (i + 1) = countBelow p i + (if i ∈ p then 1 else 0) := by
  induction p with
  | nil => simp [countBelow_nil]
  | cons x p ih =>
    rw [List.pairwise_cons] at hp
    rw [countBelow_cons, countBelow_cons, ih hp.2]
    by_cases hx : x < i
    · have hxi : ¬ i = x := by omega
      have hmem : i ∈ x :: p ↔ i ∈ p := by simp [hxi]
      rw [if_pos hx, if_pos (by omega)]
      by_cases hm : i ∈ p
      · rw [if_pos hm, if_pos (hmem.mpr hm)]; omega
      · rw [if_neg hm, if_neg (fun h => hm (hmem.mp h))]; omega
    · have hnm : i ∉ p := fun h => by have := hp.1 i h; omega
      rw [if_neg hx, if_neg hnm]
      by_cases hxe : x = i
      · subst hxe
        rw [if_pos (Nat.lt_succ_self _), if_pos (List.mem_cons_self _ _)]; omega
      · rw [if_neg (by omega), if_neg (by simp [hnm]; omega)]; omega

/-! ## The reassembly loop on one display table -/

theorem workerResult_eq_getElem (rl : WorkerResults) (a : Nat) (h : a < rl.length) :
    workerResult rl a = rl[a].2 := by
  unfold workerResult; rw [List.getD_eq_getElem _ _ h]

theorem wellFormed_increasing (rl : WorkerResults) (hwf : PositionsWellFormed rl) (a : Nat)
    (h : a < rl.length) : (workerResult rl a).topKPostionList_.Pairwise (· < ·) := by
  rw [workerResult_eq_getElem rl a h]
  exact hwf.1 _ (List.getElem_mem h)

theorem wellFormed_disjoint (rl : WorkerResults) (hwf : PositionsWellFormed rl) (a b : Nat)
    (ha : a < rl.length) (hb : b < rl.length) (hab : a ≠ b) (x : Nat)
    (hx : x ∈ (workerResult rl a).topKPostionList_) :
    x ∉ (workerResult rl b).topKPostionList_ := by
  rw [workerResult_eq_getElem rl a ha] at hx
  rw [workerResult_eq_getElem rl b hb]
  have hp := List.pairwise_iff_getElem.mp hwf.2
  rcases Nat.lt_or_gt_of_ne hab with hlt | hgt
  · exact hp a b ha hb hlt x hx
  · intro hx'
    exact hp b a hb ha hgt x hx' hx

theorem findSub_some (rl : WorkerResults) (iter : List Nat) (i c : Nat)
    (h : findSub rl iter i = some c) : c < rl.length ∧ claimsSlot rl iter i c = true := by
  unfold findSub at h
  exact ⟨List.mem_range.mp (List.mem_of_find?_eq_some h), List.find?_some h⟩

theorem findSub_none (rl : WorkerResults) (iter : List Nat) (i : Nat)
    (h : findSub rl iter i = none) : ∀ a, a < rl.length → claimsSlot rl iter i a = false := by
  unfold findSub at h
  intro a ha
  have := (List.find?_eq_none.mp h) a (List.mem_range.mpr ha)
  simpa using this

theorem claimsSlot_iff_mem (rl : WorkerResults) (hwf : PositionsWellFormed rl)
    (iter : List Nat) (i a : Nat) (ha : a < rl.length)
    (hcur : iter.getD a 0 = countBelow (workerResult rl a).topKPostionList_ i) :
    claimsSlot rl iter i a = true ↔ i ∈ (workerResult rl a).topKPostionList_ := by
  unfold claimsSlot
  rw [decide_eq_true_iff, hcur]
  exact (mem_iff_cursor _ (wellFormed_increasing rl hwf a ha) i).symm

theorem getD_mem_of_lt (p : List Nat) (j : Nat) (h : j < p.length) : p.getD j 0 ∈ p := by
  rw [List.getD_eq_getElem _ _ h]; exact List.getElem_mem h

theorem gridStep_inv (sel : KeywordSearchResult → Grid) (rl : WorkerResults)
    (hwf : PositionsWellFormed rl) (dpn topk : Nat) (init : Grid) (i : Nat) (hi : i < topk)
    (st : Grid × List Nat) (h : GridInv sel rl dpn topk init i st) :
    GridInv sel rl dpn topk init (i + 1) (gridStep sel rl dpn st i) := by
  unfold gridStep
  split
  · -- no sub-result claims slot `i`
    rename_i hnone
    have hno : ∀ a, a < rl.length → i ∉ (workerResult rl a).topKPostionList_ := by
      intro a ha hmem
      have := findSub_none rl st.2 i hnone a ha
      rw [(claimsSlot_iff_mem rl hwf st.2 i a ha (h.cursor a ha)).mpr hmem] at this
      exact absurd this (by simp)
    refine ⟨h.iter_len, ?_, h.shape, ?_, ?_⟩
    · intro a ha
      rw [countBelow_succ _ (wellFormed_increasing rl hwf a ha), if_neg (hno a ha)]
      exact h.cursor a ha
    · intro a ha j hj hlt htop dis hdis
      have hne : (workerResult rl a).topKPostionList_.getD j 0 ≠ i := by
        intro he
        exact hno a ha (he ▸ getD_mem_of_lt _ j hj)
      exact h.claimed a ha j hj (by omega) htop dis hdis
    · intro i' hi' dis
      apply h.untouched i' _ dis
      rcases hi' with h1 | h1
      · exact Or.inl (by omega)
      · exact Or.inr h1
  · -- sub-result `c` claims slot `i`
    rename_i c hsome
    obtain ⟨hc, hclaim⟩ := findSub_some rl st.2 i c hsome
    have hmem : i ∈ (workerResult rl c).topKPostionList_ :=
      (claimsSlot_iff_mem rl hwf st.2 i c hc (h.cursor c hc)).mp hclaim
    have hcursor := (mem_iff_cursor _ (wellFormed_increasing rl hwf c hc) i).mp hmem
    rw [← h.cursor c hc] at hcursor
    have hcell := cellGet_copyColumn (sel (workerResult rl c)) (st.2.getD c 0) i st.1 dpn topk
      h.shape hi dpn (Nat.le_refl _)
    refine ⟨by simpa using h.iter_len, ?_, ?_, ?_, ?_⟩
    · intro a ha
      rw [countBelow_succ _ (wellFormed_increasing rl hwf a ha)]
      by_cases hac : c = a
      · subst hac
        rw [getD_set_eq _ _ _ _ (by rw [h.iter_len]; exact hc), if_pos hmem, h.cursor c hc]
      · rw [getD_set_ne _ _ _ _ _ hac, if_neg (wellFormed_disjoint rl hwf c a hc ha hac i hmem),
          h.cursor a ha]
        rfl
    · exact copyColumn_shape _ _ _ _ _ _ h.shape _
    · intro a ha j hj hlt htop dis hdis
      simp only
      rw [hcell]
      by_cases he : (workerResult rl a).topKPostionList_.getD j 0 = i
      · have hac : c = a := by
          by_contra hne
          exact wellFormed_disjoint rl hwf c a hc ha hne i hmem (he ▸ getD_mem_of_lt _ j hj)
        subst hac
        have hjj : j = st.2.getD c 0 := by
          have hinc := wellFormed_increasing rl hwf c hc
          apply index_unique_of_increasing _ hinc _ _ hcursor.1 hj
          rw [← List.getD_eq_getElem _ 0 hj, ← List.getD_eq_getElem _ 0 hcursor.1, he,
            hcursor.2]
        rw [if_pos ⟨hdis, he⟩, hjj]
      · rw [if_neg (fun hh => he hh.2)]
        exact h.claimed a ha j hj (by omega) htop dis hdis
    · intro i' hi' dis
      simp only
      have hne : i' ≠ i := by
        rcases hi' with h1 | h1
        · omega
        · intro he; exact h1 c hc (he ▸ hmem)
      rw [hcell, if_neg (fun hh => hne hh.2)]
      apply h.untouched i' _ dis
      rcases hi' with h1 | h1
      · exact Or.inl (by omega)
      · exact Or.inr h1

theorem gridLoop_succ (sel : KeywordSearchResult → Grid) (rl : WorkerResults) (dpn n : Nat)
    (init : Grid) :
    gridLoop sel rl dpn (n + 1) init = gridStep sel rl dpn (gridLoop sel rl dpn n init) n := by
  simp [gridLoop, List.range_succ, List.foldl_append]

theorem gridLoop_inv (sel : KeywordSearchResult → Grid) (rl : WorkerResults)
    (hwf : PositionsWellFormed rl) (dpn topk : Nat) (init : Grid)
    (hshape : GridShape init dpn topk) (n : Nat) (hn : n ≤ topk) :
    GridInv sel rl dpn topk init n (gridLoop sel rl dpn n init) := by
  induction n with
  | zero =>
    refine ⟨by simp [gridLoop], ?_, hshape, ?_, ?_⟩
    · intro a ha
      have : countBelow (workerResult rl a).topKPostionList_ 0 = 0 :=
        countBelow_eq_zero _ _ (fun _ _ => Nat.zero_le _)
      rw [this]
      simp [gridLoop, List.getElem?_replicate, ha]
    · intro a _ j _ hlt; omega
    · intro i' _ dis; rfl
  | succ n ih =>
    rw [gridLoop_succ]
    exact gridStep_inv sel rl hwf dpn topk init n (by omega) _ (ih (by omega))

/-! ## mergeSummaryResult seen table by table -/

theorem foldl_keep {α β : Type} (l : List β) (x : α) : l.foldl (fun a _ => a) x = x := by
  induction l with
  | nil => rfl
  | cons _ l ih => simp

theorem copyFields_snippet (dpn sumOn : Nat) (sub : KeywordSearchResult) (it i : Nat)
    (r : KeywordSearchResult) :
    (copyFields dpn sumOn sub it i r).snippetTextOfDocumentInPage_ =
      copyColumn dpn sub.snippetTextOfDocumentInPage_ it i r.snippetTextOfDocumentInPage_ := by
  unfold copyFields copyColumn
  symm
  apply List.foldl_hom (fun r : KeywordSearchResult => r.snippetTextOfDocumentInPage_)
  intro x y
  unfold copyField
  simp only
  split_ifs <;> rfl

theorem copyFields_fullText (dpn sumOn : Nat) (sub : KeywordSearchResult) (it i : Nat)
    (r : KeywordSearchResult) :
    (copyFields dpn sumOn sub it i r).fullTextOfDocumentInPage_ =
      copyColumn dpn sub.fullTextOfDocumentInPage_ it i r.fullTextOfDocumentInPage_ := by
  unfold copyFields copyColumn
  symm
  apply List.foldl_hom (fun r : KeywordSearchResult => r.fullTextOfDocumentInPage_)
  intro x y
  unfold copyField
  simp only
  split_ifs <;> rfl

theorem copyFields_rawText_on (dpn sumOn : Nat) (hon : sumOn ≠ 0) (sub : KeywordSearchResult)
    (it i : Nat) (r : KeywordSearchResult) :
    (copyFields dpn sumOn sub it i r).rawTextOfSummaryInPage_ =
      copyColumn dpn sub.rawTextOfSummaryInPage_ it i r.rawTextOfSummaryInPage_ := by
  unfold copyFields copyColumn
  symm
  apply List.foldl_hom (fun r : KeywordSearchResult => r.rawTextOfSummaryInPage_)
  intro x y
  unfold copyField
  simp only
  rw [if_pos hon]

theorem copyFields_rawText_off (dpn : Nat) (sub : KeywordSearchResult)
    (it i : Nat) (r : KeywordSearchResult) :
    (copyFields dpn 0 sub it i r).rawTextOfSummaryInPage_ = r.rawTextOfSummaryInPage_ := by
  unfold copyFields
  have := List.foldl_hom (fun r : KeywordSearchResult => r.rawTextOfSummaryInPage_)
    (copyField 0 sub it i) (fun (g : Grid) (_ : Nat) => g) (List.range dpn) r
    (by intro x y; rfl)
  exact this.symm.trans (foldl_keep _ _)

theorem copyFields_rankingPart (dpn sumOn : Nat) (sub : KeywordSearchResult) (it i : Nat)
    (r : KeywordSearchResult) :
    rankingPart (copyFields dpn sumOn sub it i r) = rankingPart r := by
  unfold copyFields
  have := List.foldl_hom rankingPart
    (copyField sumOn sub it i) (fun (g : KeywordSearchResult) (_ : Nat) => g) (List.range dpn) r
    (by intro x y; unfold copyField; simp only; split_ifs <;> rfl)
  exact this.symm.trans (foldl_keep _ _)

theorem initSummary_snippet (r : KeywordSearchResult) (topk dpn sumOn : Nat) :
    (initSummary r topk dpn sumOn).snippetTextOfDocumentInPage_ =
      resizeRows dpn topk (resize r.snippetTextOfDocumentInPage_ dpn []) := by
  unfold initSummary resizeRows
  have := List.foldl_hom (fun r : KeywordSearchResult => r.snippetTextOfDocumentInPage_)
    (initRow topk sumOn) (fun g dis => rowResize g dis topk) (List.range dpn)
    (initTables dpn sumOn r) (by intro x y; unfold initRow; simp only; split_ifs <;> rfl)
  have e : (initTables dpn sumOn r).snippetTextOfDocumentInPage_ = resize r.snippetTextOfDocumentInPage_ dpn [] := by
    unfold initTables
    simp only
    split_ifs <;> rfl
  refine this.symm.trans ?_
  simp only [e]

theorem initSummary_fullText (r : KeywordSearchResult) (topk dpn sumOn : Nat) :
    (initSummary r topk dpn sumOn).fullTextOfDocumentInPage_ =
      resizeRows dpn topk (resize r.fullTextOfDocumentInPage_ dpn []) := by
  unfold initSummary resizeRows
  have := List.foldl_hom (fun r : KeywordSearchResult => r.fullTextOfDocumentInPage_)
    (initRow topk sumOn) (fun g dis => rowResize g dis topk) (List.range dpn)
    (initTables dpn sumOn r) (by intro x y; unfold initRow; simp only; split_ifs <;> rfl)
  have e : (initTables dpn sumOn r).fullTextOfDocumentInPage_ = resize r.fullTextOfDocumentInPage_ dpn [] := by
    unfold initTables
    simp only
    split_ifs <;> rfl
  refine this.symm.trans ?_
  simp only [e]

theorem initSummary_rawText_on (r : KeywordSearchResult) (topk dpn sumOn : Nat)
    (hon : sumOn ≠ 0) :
    (initSummary r topk dpn sumOn).rawTextOfSummaryInPage_ =
      resizeRows dpn topk (resize r.rawTextOfSummaryInPage_ dpn []) := by
  unfold initSummary resizeRows
  have := List.foldl_hom (fun r : KeywordSearchResult => r.rawTextOfSummaryInPage_)
    (initRow topk sumOn) (fun g dis => rowResize g dis topk) (List.range dpn)
    (initTables dpn sumOn r) (by intro x y; unfold initRow; simp only; rw [if_pos hon])
  have e : (initTables dpn sumOn r).rawTextOfSummaryInPage_ = resize r.rawTextOfSummaryInPage_ dpn [] := by
    unfold initTables
    simp only
    rw [if_pos hon]
  refine this.symm.trans ?_
  simp only [e]

theorem initSummary_rawText_off (r : KeywordSearchResult) (topk dpn : Nat) :
    (initSummary r topk dpn 0).rawTextOfSummaryInPage_ = r.rawTextOfSummaryInPage_ := by
  unfold initSummary
  have := List.foldl_hom (fun r : KeywordSearchResult => r.rawTextOfSummaryInPage_)
    (initRow topk 0) (fun (g : Grid) (_ : Nat) => g) (List.range dpn)
    (initTables dpn 0 r) (by intro x y; rfl)
  exact this.symm.trans (foldl_keep _ _)

theorem initSummary_rankingPart (r : KeywordSearchResult) (topk dpn sumOn : Nat) :
    rankingPart (initSummary r topk dpn sumOn) = rankingPart r := by
  unfold initSummary
  have := List.foldl_hom rankingPart
    (initRow topk sumOn) (fun (g : KeywordSearchResult) (_ : Nat) => g) (List.range dpn)
    (initTables dpn sumOn r) (by intro x y; unfold initRow; simp only; split_ifs <;> rfl)
  refine (this.symm.trans (foldl_keep _ _)).trans ?_
  unfold initTables
  simp only
  split_ifs <;> rfl

/-- The summary loop projected on one display table that every iteration copies. -/
theorem summaryLoop_grid (sel : KeywordSearchResult → Grid) (rl : WorkerResults)
    (dpn sumOn : Nat)
    (hsel : ∀ sub it i r, sel (copyFields dpn sumOn sub it i r) =
      copyColumn dpn (sel sub) it i (sel r))
    (l : List Nat) (s : SummaryState) :
    (sel (l.foldl (summaryStep rl dpn sumOn) s).result,
        (l.foldl (summaryStep rl dpn sumOn) s).iter) =
      l.foldl (gridStep sel rl dpn) (sel s.result, s.iter) := by
  symm
  apply List.foldl_hom (fun s : SummaryState => (sel s.result, s.iter))
  intro x y
  unfold gridStep summaryStep
  simp only
  cases findSub rl x.iter y with
  | none => rfl
  | some c => simp only [hsel]

/-- The summary loop leaves alone whatever every `copyFields` call leaves alone. -/
theorem summaryLoop_keep {α : Type} (proj : KeywordSearchResult → α) (rl : WorkerResults)
    (dpn sumOn : Nat)
    (hproj : ∀ sub it i r, proj (copyFields dpn sumOn sub it i r) = proj r)
    (l : List Nat) (s : SummaryState) :
    proj (l.foldl (summaryStep rl dpn sumOn) s).result = proj s.result := by
  have := List.foldl_hom (fun s : SummaryState => proj s.result)
    (summaryStep rl dpn sumOn) (fun (g : α) (_ : Nat) => g) l s
    (by
      intro x y
      unfold summaryStep
      simp only
      cases findSub rl x.iter y with
      | none => rfl
      | some c => simp only [hproj])
  exact this.symm.trans (foldl_keep _ _)

/-! ## The display tables after mergeSummaryResult -/

theorem ksr_ext (a b : KeywordSearchResult) (h0 : rankingPart a = rankingPart b)
    (h1 : a.snippetTextOfDocumentInPage_ = b.snippetTextOfDocumentInPage_)
    (h2 : a.fullTextOfDocumentInPage_ = b.fullTextOfDocumentInPage_)
    (h3 : a.rawTextOfSummaryInPage_ = b.rawTextOfSummaryInPage_) : a = b := by
  cases a; cases b
  simp only [rankingPart, KeywordSearchResult.mk.injEq] at h0 h1 h2 h3 ⊢
  simp_all

theorem summaryFinalState_eq (g : KeywordSearchResult) (rl : WorkerResults) :
    summaryFinalState g rl =
      summaryRun g rl (workerResult rl 0).snippetTextOfDocumentInPage_.length
        (workerResult rl 0).rawTextOfSummaryInPage_.length := rfl

theorem summaryRun_snippet (g : KeywordSearchResult) (rl : WorkerResults) (dpn sumOn : Nat) :
    (summaryRun g rl dpn sumOn).result.snippetTextOfDocumentInPage_ =
      finalGrid (fun r => r.snippetTextOfDocumentInPage_) g rl dpn := by
  unfold summaryRun finalGrid gridLoop initGrid
  have := summaryLoop_grid (fun r => r.snippetTextOfDocumentInPage_) rl dpn sumOn
    (copyFields_snippet dpn sumOn) (List.range g.topKDocs_.length)
    { result := initSummary g g.topKDocs_.length dpn sumOn
      iter := List.replicate rl.length 0 }
  rw [initSummary_snippet] at this
  rw [← this]

theorem summaryRun_fullText (g : KeywordSearchResult) (rl : WorkerResults) (dpn sumOn : Nat) :
    (summaryRun g rl dpn sumOn).result.fullTextOfDocumentInPage_ =
      finalGrid (fun r => r.fullTextOfDocumentInPage_) g rl dpn := by
  unfold summaryRun finalGrid gridLoop initGrid
  have := summaryLoop_grid (fun r => r.fullTextOfDocumentInPage_) rl dpn sumOn
    (copyFields_fullText dpn sumOn) (List.range g.topKDocs_.length)
    { result := initSummary g g.topKDocs_.length dpn sumOn
      iter := List.replicate rl.length 0 }
  rw [initSummary_fullText] at this
  rw [← this]

theorem summaryRun_rawText_on (g : KeywordSearchResult) (rl : WorkerResults) (dpn sumOn : Nat)
    (hon : sumOn ≠ 0) :
    (summaryRun g rl dpn sumOn).result.rawTextOfSummaryInPage_ =
      finalGrid (fun r => r.rawTextOfSummaryInPage_) g rl dpn := by
  unfold summaryRun finalGrid gridLoop initGrid
  have := summaryLoop_grid (fun r => r.rawTextOfSummaryInPage_) rl dpn sumOn
    (copyFields_rawText_on dpn sumOn hon) (List.range g.topKDocs_.length)
    { result := initSummary g g.topKDocs_.length dpn sumOn
      iter := List.replicate rl.length 0 }
  rw [initSummary_rawText_on _ _ _ _ hon] at this
  rw [← this]

theorem summaryRun_rawText_off (g : KeywordSearchResult) (rl : WorkerResults) (dpn sumOn : Nat)
    (hoff : sumOn = 0) :
    (summaryRun g rl dpn sumOn).result.rawTextOfSummaryInPage_ = g.rawTextOfSummaryInPage_ := by
  subst hoff
  unfold summaryRun
  rw [summaryLoop_keep (fun r => r.rawTextOfSummaryInPage_) rl dpn 0
    (copyFields_rawText_off dpn)]
  exact initSummary_rawText_off _ _ _

theorem summaryRun_rankingPart (g : KeywordSearchResult) (rl : WorkerResults) (dpn sumOn : Nat) :
    rankingPart (summaryRun g rl dpn sumOn).result = rankingPart g := by
  unfold summaryRun
  rw [summaryLoop_keep rankingPart rl dpn sumOn (copyFields_rankingPart dpn sumOn)]
  exact initSummary_rankingPart _ _ _ _

theorem mem_workerResult (rl : WorkerResults) (w : Nat × KeywordSearchResult) (h : w ∈ rl) :
    ∃ a, a < rl.length ∧ workerResult rl a = w.2 := by
  obtain ⟨a, ha, he⟩ := List.getElem_of_mem h
  exact ⟨a, ha, by rw [workerResult_eq_getElem rl a ha, he]⟩

/-- What a display table holds after the reassembly over well-formed sub-results: it has
`dpn` rows of `topk` cells; the slot `positions[j]` of a sub-result holds that sub-result's
value at local index `j`; a slot that no sub-result claims is as initialised. -/
theorem finalGrid_spec (sel : KeywordSearchResult → Grid) (g : KeywordSearchResult)
    (rl : WorkerResults) (hwf : PositionsWellFormed rl) (dpn : Nat) :
    GridShape (finalGrid sel g rl dpn) dpn g.topKDocs_.length ∧
    (∀ w ∈ rl, ∀ j, j < w.2.topKPostionList_.length →
      w.2.topKPostionList_.getD j 0 < g.topKDocs_.length → ∀ dis, dis < dpn →
        cellGet (finalGrid sel g rl dpn) dis (w.2.topKPostionList_.getD j 0) =
          cellGet (sel w.2) dis j) ∧
    (∀ i, (∀ w ∈ rl, i ∉ w.2.topKPostionList_) → ∀ dis,
      cellGet (finalGrid sel g rl dpn) dis i =
        cellGet (initGrid (sel g) dpn g.topKDocs_.length) dis i) := by
  have inv := gridLoop_inv sel rl hwf dpn g.topKDocs_.length
    (initGrid (sel g) dpn g.topKDocs_.length) (initGrid_shape _ _ _) g.topKDocs_.length
    (Nat.le_refl _)
  refine ⟨inv.shape, ?_, ?_⟩
  · intro w hw j hj hlt dis hdis
    obtain ⟨a, ha, he⟩ := mem_workerResult rl w hw
    rw [← he] at hj hlt ⊢
    exact inv.claimed a ha j hj hlt hlt dis hdis
  · intro i hi dis
    apply inv.untouched i _ dis
    right
    intro a ha
    rw [workerResult_eq_getElem rl a ha]
    exact hi _ (List.getElem_mem ha)

theorem PositionsWellFormed.perm (rl1 rl2 : WorkerResults) (hperm : rl1.Perm rl2)
    (hwf : PositionsWellFormed rl1) : PositionsWellFormed rl2 := by
  refine ⟨fun w hw => hwf.1 w (hperm.mem_iff.mpr hw), ?_⟩
  have hsymm : ∀ x y : Nat × KeywordSearchResult,
      (∀ p ∈ x.2.topKPostionList_, p ∉ y.2.topKPostionList_) →
      (∀ p ∈ y.2.topKPostionList_, p ∉ x.2.topKPostionList_) :=
    fun x y h p hp hp' => h p hp' hp
  exact hperm.pairwise hwf.2 (fun {x y} h => hsymm x y h)

/-- A display table after the reassembly does not depend on the order of the sub-results. -/
theorem finalGrid_perm (sel : KeywordSearchResult → Grid) (g : KeywordSearchResult)
    (rl1 rl2 : WorkerResults) (hperm : rl1.Perm rl2) (hwf : PositionsWellFormed rl1)
    (dpn : Nat) : finalGrid sel g rl1 dpn = finalGrid sel g rl2 dpn := by
  obtain ⟨s1, c1, u1⟩ := finalGrid_spec sel g rl1 hwf dpn
  obtain ⟨s2, c2, u2⟩ := finalGrid_spec sel g rl2 (hwf.perm rl1 rl2 hperm) dpn
  apply grid_ext _ _ _ _ s1 s2
  intro dis i hdis hi
  by_cases hown : ∃ w ∈ rl1, i ∈ w.2.topKPostionList_
  · obtain ⟨w, hw, hmem⟩ := hown
    obtain ⟨j, hj, hji⟩ := List.getElem_of_mem hmem
    have hji' : w.2.topKPostionList_.getD j 0 = i := by
      rw [List.getD_eq_getElem _ _ hj]; exact hji
    have e1 := c1 w hw j hj (by rw [hji']; exact hi) dis hdis
    have e2 := c2 w (hperm.mem_iff.mp hw) j hj (by rw [hji']; exact hi) dis hdis
    rw [hji'] at e1 e2
    rw [e1, e2]
  · have hno1 : ∀ w ∈ rl1, i ∉ w.2.topKPostionList_ := fun w hw hmem => hown ⟨w, hw, hmem⟩
    have hno2 : ∀ w ∈ rl2, i ∉ w.2.topKPostionList_ :=
      fun w hw => hno1 w (hperm.mem_iff.mpr hw)
    rw [u1 i hno1 dis, u2 i hno2 dis]

/-! ## mergeSearchResult: settled statements -/

/-- In the single-worker branch (lines 17-22) the result is the worker's record with its
`topKWorkerIds_` resized to the number of documents, new slots holding the worker id. -/
theorem mergeSearchResult_single (result r : KeywordSearchResult) (id : Nat) :
    mergeSearchResult result [(id, r)] =
      { r with topKWorkerIds_ := resize r.topKWorkerIds_ r.topKDocs_.length id } := by
  simp [mergeSearchResult, workerResult, workerId]

/-- When the worker hands over an empty `topKWorkerIds_`, the single-worker branch fills
the array with the worker id, once per document. -/
theorem mergeSearchResult_single_of_empty_workerIds (result r : KeywordSearchResult) (id : Nat)
    (h : r.topKWorkerIds_ = []) :
    (mergeSearchResult result [(id, r)]).topKWorkerIds_ =
      List.replicate r.topKDocs_.length id := by
  simp [mergeSearchResult_single, h]

/-- C1: for workers whose score lists are non-increasing and as long as their document
lists, and a result created empty with any page window, the whole scores array of the
merged result (filled slots and trailing default slots alike) is non-increasing. -/
theorem mergeSearchResult_scores_nonIncreasing (result : KeywordSearchResult)
    (resultList : WorkerResults) (hempty : CreatedEmpty result)
    (hsorted : ∀ w ∈ resultList, NonIncreasing w.2.topKRankScoreList_)
    (_hlen : ∀ w ∈ resultList, w.2.topKRankScoreList_.length = w.2.topKDocs_.length) :
    NonIncreasing (mergeSearchResult result resultList).topKRankScoreList_ := by
  by_cases h1 : resultList.length = 1
  · obtain ⟨id, hmem⟩ := workerResult_mem resultList 0 (by omega)
    have := hsorted _ hmem
    simpa [mergeSearchResult, h1] using this
  · rw [mergeSearchResult_of_ne_one _ _ h1]
    unfold mergeFinalState
    apply mergeLoop_scores_sorted resultList hsorted _ _ []
    · simp [hempty.2.2.1]
    · rfl
    · simp
    · simp [NonIncreasing]
    · simp
    · intro x hx; simp at hx

/-- Witness for C1: the example scenario of the spec with the window `(0, 7)`, which
leaves three trailing default slots. -/
theorem mergeSearchResult_scores_nonIncreasing_witness :
    CreatedEmpty { start_ := 0, count_ := 7 } ∧
    (∀ w ∈ shardsAB, NonIncreasing w.2.topKRankScoreList_) ∧
    (∀ w ∈ shardsAB, w.2.topKRankScoreList_.length = w.2.topKDocs_.length) ∧
    NonIncreasing (mergeSearchResult { start_ := 0, count_ := 7 } shardsAB).topKRankScoreList_ :=
  ⟨by decide, by decide, by decide,
    mergeSearchResult_scores_nonIncreasing { start_ := 0, count_ := 7 } shardsAB
      (by decide) (by decide) (by decide)⟩

/-- C2 (code evaluated at the failing input): a single worker with id 3 whose record
already carries the attribution array `[7]` for its two documents; the merged
attribution array keeps the stale `7` and only the added slot receives the id. -/
theorem mergeSearchResult_single_stale_workerIds :
    (mergeSearchResult {} [(3, { topKDocs_ := [1, 2], topKWorkerIds_ := [7] })]).topKWorkerIds_ =
      [7, 3] := by
  decide

/-- C4 (code evaluated at the failing input): for the two workers of the example
scenario the total counts sum to 15, and the result, whose total count was 0 before the
call, still holds 0 after it. -/
theorem mergeSearchResult_totalCount_not_stored :
    (shardsAB.map (fun w => w.2.totalCount_)).sum = 15 ∧
    overallTotalCount shardsAB = 15 ∧
    (mergeSearchResult { start_ := 0, count_ := 3 } shardsAB).totalCount_ = 0 := by
  decide

/-- C9 (counterexample): merging the empty worker list into a result created empty with
the window `(0, 3)` leaves the four global arrays at length 3. -/
theorem mergeSearchResult_nil_arrays_not_empty :
    CreatedEmpty { start_ := 0, count_ := 3 } ∧
    (mergeSearchResult { start_ := 0, count_ := 3 } []).topKDocs_.length = 3 ∧
    (mergeSearchResult { start_ := 0, count_ := 3 } []).topKWorkerIds_.length = 3 ∧
    (mergeSearchResult { start_ := 0, count_ := 3 } []).topKRankScoreList_.length = 3 ∧
    (mergeSearchResult { start_ := 0, count_ := 3 } []).topKCustomRankScoreList_.length = 3 := by
  decide

/-- C9 (amended): merging the empty worker list into a result created empty with the
requested window `(s, c)` leaves each of the four global arrays at length
`(s + c) mod 2 ^ 64`, the `size_t` sum of the window as requested, with every slot at the
default value `0`; the arrays are empty exactly when that sum is `0`.  The page window
held on return starts at `0`, and its count is `0` unless that sum is `0`, in which case
the count is left as requested. -/
theorem mergeSearchResult_nil (result : KeywordSearchResult) (hempty : CreatedEmpty result) :
    (mergeSearchResult result []).topKDocs_ =
      List.replicate (sizeAdd result.start_ result.count_) 0 ∧
    (mergeSearchResult result []).topKWorkerIds_ =
      List.replicate (sizeAdd result.start_ result.count_) 0 ∧
    (mergeSearchResult result []).topKRankScoreList_ =
      List.replicate (sizeAdd result.start_ result.count_) 0 ∧
    (mergeSearchResult result []).topKCustomRankScoreList_ =
      List.replicate (sizeAdd result.start_ result.count_) 0 ∧
    ((mergeSearchResult result []).topKDocs_.length = 0 ↔
      sizeAdd result.start_ result.count_ = 0) ∧
    (mergeSearchResult result []).start_ = 0 ∧
    (mergeSearchResult result []).count_ =
      (if sizeAdd result.start_ result.count_ = 0 then result.count_ else 0) := by
  have hloop : ∀ n s, mergeLoop [] n s = s := by
    intro n s
    cases n with
    | zero => rfl
    | succ n => simp [mergeLoop, findMax, findMaxUpTo]
  obtain ⟨h1, h2, h3, h4, -⟩ := hempty
  have hs := clipAndResize_start result 0
  have hc := clipAndResize_count result 0
  simp only [Nat.min_zero, Nat.sub_zero] at hs hc
  simp only [mergeSearchResult, mergeFinalState, hloop, List.length_nil, Nat.zero_ne_one,
    if_false, overallResultCount, basicInfo, List.range_zero, List.foldl_nil,
    clipAndResize_docs, clipAndResize_workerIds, clipAndResize_scores,
    clipAndResize_customScores, h1, h2, h3, h4, resize_nil, List.length_replicate, hs]
  refine ⟨trivial, trivial, trivial, trivial, trivial, trivial, ?_⟩
  rw [hc]; split_ifs <;> omega

/-- Witness for C9 (amended): the window `(2, 3)` gives arrays of five default slots and
the window `(0, 0)`; the window `(2 ^ 64 - 1, 1)`, whose `size_t` sum is `0`, gives empty
arrays and leaves the count at `1`. -/
theorem mergeSearchResult_nil_witness :
    CreatedEmpty { start_ := 2, count_ := 3 } ∧
    (mergeSearchResult { start_ := 2, count_ := 3 } []).topKDocs_ = [0, 0, 0, 0, 0] ∧
    (mergeSearchResult { start_ := 2, count_ := 3 } []).count_ = 0 ∧
    (mergeSearchResult { start_ := 18446744073709551615, count_ := 1 } []).topKDocs_ = [] ∧
    (mergeSearchResult { start_ := 18446744073709551615, count_ := 1 } []).count_ = 1 :=
  ⟨by decide,
    (mergeSearchResult_nil { start_ := 2, count_ := 3 } (by decide)).1.trans (by decide),
    (mergeSearchResult_nil { start_ := 2, count_ := 3 } (by decide)).2.2.2.2.2.2.trans
      (by decide),
    (mergeSearchResult_nil { start_ := 18446744073709551615, count_ := 1 }
      (by decide)).1.trans (by decide),
    (mergeSearchResult_nil { start_ := 18446744073709551615, count_ := 1 }
      (by decide)).2.2.2.2.2.2.trans (by decide)⟩

/-- C10 (counterexample): for the two workers of the example scenario (four documents)
and the requested window `(0, 7)`, the arrays have length 7 while the window held on
return is `(0, 4)`. -/
theorem mergeSearchResult_length_not_clipped_sum :
    2 ≤ shardsAB.length ∧
    (mergeSearchResult { start_ := 0, count_ := 7 } shardsAB).topKDocs_.length = 7 ∧
    (mergeSearchResult { start_ := 0, count_ := 7 } shardsAB).start_ +
      (mergeSearchResult { start_ := 0, count_ := 7 } shardsAB).count_ = 4 := by
  decide

/-- C10 (amended): for two or more workers and every requested window `(s, c)`, the four
global arrays all have length `(s + c) mod 2 ^ 64`, the `size_t` sum of the window as
requested (before clipping); for `size_t` values `s`, `c` and fewer than `2 ^ 64` returned
documents, this equals `pageStart + pageCount` of the window held on return exactly when
`s + c` does not exceed the sum of the workers' returned document counts. -/
theorem mergeSearchResult_lengths (result : KeywordSearchResult) (resultList : WorkerResults)
    (hmany : 2 ≤ resultList.length) :
    (mergeSearchResult result resultList).topKDocs_.length =
      sizeAdd result.start_ result.count_ ∧
    (mergeSearchResult result resultList).topKWorkerIds_.length =
      sizeAdd result.start_ result.count_ ∧
    (mergeSearchResult result resultList).topKRankScoreList_.length =
      sizeAdd result.start_ result.count_ ∧
    (mergeSearchResult result resultList).topKCustomRankScoreList_.length =
      sizeAdd result.start_ result.count_ ∧
    (result.start_ < sizeModulus → result.count_ < sizeModulus →
      (resultList.map (fun w => w.2.topKDocs_.length)).sum < sizeModulus →
      ((mergeSearchResult result resultList).start_ +
          (mergeSearchResult result resultList).count_ =
          sizeAdd result.start_ result.count_ ↔
        result.start_ + result.count_ ≤
          (resultList.map (fun w => w.2.topKDocs_.length)).sum)) := by
  have hne : resultList.length ≠ 1 := by omega
  obtain ⟨h1, h2, h3, h4⟩ := mergeFinalState_lengths result resultList
  rw [mergeSearchResult_of_ne_one _ _ hne, mergeFinalState_start, mergeFinalState_count,
    overallResultCount_eq]
  refine ⟨h1, h2, h3, h4, ?_⟩
  generalize (resultList.map (fun w => w.2.topKDocs_.length)).sum = R
  unfold sizeAdd sizeModulus
  intro hs hc hR
  split_ifs <;> omega

/-- Witness for C10 (amended): the example scenario with the window `(1, 2)`, and with
the window `(2 ^ 64 - 1, 2)`, whose `size_t` sum is `1`. -/
theorem mergeSearchResult_lengths_witness :
    2 ≤ shardsAB.length ∧
    (mergeSearchResult { start_ := 1, count_ := 2 } shardsAB).topKDocs_.length = 3 ∧
    (mergeSearchResult { start_ := 1, count_ := 2 } shardsAB).topKCustomRankScoreList_.length = 3 ∧
    (mergeSearchResult { start_ := 18446744073709551615, count_ := 2 } shardsAB).topKDocs_.length
      = 1 :=
  ⟨by decide,
    (mergeSearchResult_lengths { start_ := 1, count_ := 2 } shardsAB (by decide)).1,
    (mergeSearchResult_lengths { start_ := 1, count_ := 2 } shardsAB (by decide)).2.2.2.1,
    (mergeSearchResult_lengths { start_ := 18446744073709551615, count_ := 2 } shardsAB
      (by decide)).1⟩

/-! ## splitResultByWorkerid: settled statements -/

/-- C7 (counterexample): the page `pageWrapped` has three documents and the window
`(1, 2 ^ 64 - 1)`.  Position 1 satisfies `start_ ≤ 1 < min (start_ + count_) n`, yet the
`size_t` sum of line 121 is `0`, the loop breaks in its first iteration, and the map
written into an empty map is empty: the worker of position 1 has no accumulator. -/
theorem splitResultByWorkerid_wrapped_window_empty :
    pageWrapped.topKDocs_.length = pageWrapped.topKWorkerIds_.length ∧
    pageWrapped.start_ ≤ 1 ∧
    1 < min (pageWrapped.start_ + pageWrapped.count_) pageWrapped.topKDocs_.length ∧
    sizeAdd pageWrapped.start_ pageWrapped.count_ = 0 ∧
    splitResultByWorkerid pageWrapped [] = [] ∧
    mapFind (splitResultByWorkerid pageWrapped []) (pageWrapped.topKWorkerIds_.getD 1 0) =
      none := by
  decide

/-- C7 (amended): for a global result whose documents and attribution arrays have equal
length `n`, the map written into an empty map has distinct keys; every position `i` with
`start_ ≤ i < min ((start_ + count_) mod 2 ^ 64) n`, the sum being the `size_t` sum of
line 121, occurs at exactly one local index `j` of the accumulator keyed by the worker of
`i`, with the document of `i` and the key recorded there; and every entry of every
accumulator arises from such a position, no accumulator being empty. -/
theorem splitResultByWorkerid_page (g : KeywordSearchResult)
    (hlen : g.topKDocs_.length = g.topKWorkerIds_.length) :
    ((splitResultByWorkerid g []).map Prod.fst).Nodup ∧
    (∀ i, g.start_ ≤ i → i < min (sizeAdd g.start_ g.count_) g.topKDocs_.length →
      ∃ acc, mapFind (splitResultByWorkerid g []) (g.topKWorkerIds_.getD i 0) = some acc ∧
        ∃ j, j < acc.topKPostionList_.length ∧ acc.topKPostionList_.getD j 0 = i ∧
          acc.topKDocs_.getD j 0 = g.topKDocs_.getD i 0 ∧
          acc.topKWorkerIds_.getD j 0 = g.topKWorkerIds_.getD i 0 ∧
          ∀ j', j' < acc.topKPostionList_.length →
            acc.topKPostionList_.getD j' 0 = i → j' = j) ∧
    (∀ k acc, (k, acc) ∈ splitResultByWorkerid g [] →
      acc.topKPostionList_ ≠ [] ∧
      acc.topKDocs_.length = acc.topKPostionList_.length ∧
      acc.topKWorkerIds_.length = acc.topKPostionList_.length ∧
      ∀ j, j < acc.topKPostionList_.length →
        g.start_ ≤ acc.topKPostionList_.getD j 0 ∧
        acc.topKPostionList_.getD j 0 < min (sizeAdd g.start_ g.count_) g.topKDocs_.length ∧
        g.topKWorkerIds_.getD (acc.topKPostionList_.getD j 0) 0 = k ∧
        acc.topKDocs_.getD j 0 = g.topKDocs_.getD (acc.topKPostionList_.getD j 0) 0 ∧
        acc.topKWorkerIds_.getD j 0 = k) := by
  obtain ⟨hnd, hfind⟩ := splitResultByWorkerid_inv g
  refine ⟨hnd, ?_, ?_⟩
  · intro i hi1 hi2
    have hmem : i ∈ positionsOf g (g.topKWorkerIds_.getD i 0) (pageWindow g) := by
      rw [mem_positionsOf, mem_pageWindow]
      exact ⟨⟨hi1, by omega⟩, rfl⟩
    have hne : positionsOf g (g.topKWorkerIds_.getD i 0) (pageWindow g) ≠ [] :=
      List.ne_nil_of_mem hmem
    refine ⟨_, by rw [hfind, if_neg hne], ?_⟩
    obtain ⟨j, hj, hji⟩ := List.getElem_of_mem hmem
    have hent := accumulatorOf_entry g (g.topKWorkerIds_.getD i 0) _ j hj
    rw [hji] at hent
    refine ⟨j, hj, hent.1, hent.2.1, hent.2.2, ?_⟩
    intro j' hj' hj'i
    have hjp : j' < (positionsOf g (g.topKWorkerIds_.getD i 0) (pageWindow g)).length := hj'
    have hent' := accumulatorOf_entry g (g.topKWorkerIds_.getD i 0) _ j' hjp
    rw [hent'.1] at hj'i
    exact index_unique_of_increasing _ (positionsOf_pageWindow_increasing g _) j j' hj hjp
      (hj'i.trans hji.symm)
  · intro k acc hmem
    obtain ⟨hne, hacc⟩ := splitResultByWorkerid_entry g k acc hmem
    subst hacc
    refine ⟨hne, by simp [accumulatorOf], by simp [accumulatorOf], ?_⟩
    intro j hj
    have hj' : j < (positionsOf g k (pageWindow g)).length := hj
    have hent := accumulatorOf_entry g k _ j hj'
    have hin := (mem_positionsOf g k (pageWindow g) _).mp (List.getElem_mem hj')
    rw [mem_pageWindow] at hin
    rw [hent.1]
    exact ⟨hin.1.1, by omega, hin.2, hent.2.1, hent.2.2⟩

/-- Witness for C7: the page `pageAB`; position 2 sits in the accumulator of worker 100. -/
theorem splitResultByWorkerid_page_witness :
    pageAB.topKDocs_.length = pageAB.topKWorkerIds_.length ∧
    ((splitResultByWorkerid pageAB []).map Prod.fst).Nodup ∧
    ∃ acc, mapFind (splitResultByWorkerid pageAB []) (pageAB.topKWorkerIds_.getD 2 0) =
        some acc ∧
      ∃ j, j < acc.topKPostionList_.length ∧ acc.topKPostionList_.getD j 0 = 2 ∧
        acc.topKDocs_.getD j 0 = pageAB.topKDocs_.getD 2 0 ∧
        acc.topKWorkerIds_.getD j 0 = pageAB.topKWorkerIds_.getD 2 0 ∧
        ∀ j', j' < acc.topKPostionList_.length →
          acc.topKPostionList_.getD j' 0 = 2 → j' = j :=
  ⟨by decide, (splitResultByWorkerid_page pageAB (by decide)).1,
    (splitResultByWorkerid_page pageAB (by decide)).2.1 2 (by decide) (by decide)⟩

/-- C8: in every accumulator that `splitResultByWorkerid` writes into an empty map the
positions list is strictly increasing and as long as the accumulator's documents list and
its worker-id list. -/
theorem splitResultByWorkerid_positions_increasing (g : KeywordSearchResult) (k : Nat)
    (acc : KeywordSearchResult) (hmem : (k, acc) ∈ splitResultByWorkerid g []) :
    acc.topKPostionList_.Pairwise (· < ·) ∧
    acc.topKPostionList_.length = acc.topKDocs_.length ∧
    acc.topKPostionList_.length = acc.topKWorkerIds_.length := by
  obtain ⟨-, hacc⟩ := splitResultByWorkerid_entry g k acc hmem
  subst hacc
  exact ⟨positionsOf_pageWindow_increasing g k, by simp [accumulatorOf], by simp [accumulatorOf]⟩

/-- Witness for C8: the accumulator of worker 200 for the page `pageAB`. -/
theorem splitResultByWorkerid_positions_increasing_witness :
    (200, ({ topKDocs_ := [2, 4], topKWorkerIds_ := [200, 200], topKPostionList_ := [1, 3] } :
        KeywordSearchResult)) ∈ splitResultByWorkerid pageAB [] ∧
    [1, 3].Pairwise (· < ·) :=
  ⟨by decide,
    (splitResultByWorkerid_positions_increasing pageAB 200
      { topKDocs_ := [2, 4], topKWorkerIds_ := [200, 200], topKPostionList_ := [1, 3] }
      (by decide)).1⟩

/-! ## mergeSummaryResult: settled statements -/

theorem mergeSummaryResult_of_ne_nil (g : KeywordSearchResult) (rl : WorkerResults)
    (h : rl ≠ []) :
    mergeSummaryResult g rl =
      (summaryRun g rl (workerResult rl 0).snippetTextOfDocumentInPage_.length
        (workerResult rl 0).rawTextOfSummaryInPage_.length).result := by
  have hl : ¬ rl.length ≤ 0 := by
    cases rl with
    | nil => exact absurd rfl h
    | cons _ _ => simp
  simp only [mergeSummaryResult, hl, if_false, summaryFinalState_eq]

theorem workerResult_zero_mem (rl : WorkerResults) (h : rl ≠ []) :
    ∃ w ∈ rl, workerResult rl 0 = w.2 := by
  cases rl with
  | nil => exact absurd rfl h
  | cons w _ => exact ⟨w, List.mem_cons_self _ _, rfl⟩

/-- The sub-results that keep the positions recorded at split time can be reassembled by a
linear scan, and every recorded position is a slot of the page. -/
theorem split_positions_wellFormed (g : KeywordSearchResult) (L : WorkerResults)
    (hkeys : (L.map Prod.fst).Perm ((splitResultByWorkerid g []).map Prod.fst))
    (hpos : ∀ w ∈ L, ∃ acc, (w.1, acc) ∈ splitResultByWorkerid g [] ∧
      w.2.topKPostionList_ = acc.topKPostionList_) :
    PositionsWellFormed L ∧
    ∀ w ∈ L, ∀ p ∈ w.2.topKPostionList_, p < g.topKWorkerIds_.length := by
  have hposOf : ∀ w ∈ L, w.2.topKPostionList_ = positionsOf g w.1 (pageWindow g) := by
    intro w hw
    obtain ⟨acc, hmem, he⟩ := hpos w hw
    obtain ⟨-, hacc⟩ := splitResultByWorkerid_entry g w.1 acc hmem
    rw [he, hacc]; rfl
  have hnd : (L.map Prod.fst).Nodup :=
    hkeys.nodup_iff.mpr (splitResultByWorkerid_inv g).1
  refine ⟨⟨?_, ?_⟩, ?_⟩
  · intro w hw
    rw [hposOf w hw]
    exact positionsOf_pageWindow_increasing g w.1
  · have hne : L.Pairwise (fun x y => x.1 ≠ y.1) := List.pairwise_map.mp hnd
    refine hne.imp_of_mem ?_
    intro x y hx hy hxy p hp hp'
    rw [hposOf x hx, mem_positionsOf] at hp
    rw [hposOf y hy, mem_positionsOf] at hp'
    exact hxy (hp.2.symm.trans hp'.2)
  · intro w hw p hp
    rw [hposOf w hw, mem_positionsOf, mem_pageWindow] at hp
    omega

/-- C5: split/reassemble round trip.  Let `g` have documents and attribution arrays of
equal length, and let `L` list, in any order, one sub-result per entry of the map that
`splitResultByWorkerid` writes into an empty map, each keeping the positions recorded for
its worker and carrying `F` display fields with one value per recorded position (the
summary table too when summaries are enabled, which the code reads off the first
sub-result).  Then after `mergeSummaryResult` the snippet and full-text value, and the
summary value when summaries are enabled, at field `f` and global slot `positions[j]` of
a sub-result is the value that sub-result supplied at field `f`, local index `j`. -/
theorem split_mergeSummary_roundtrip (g : KeywordSearchResult)
    (hlen : g.topKDocs_.length = g.topKWorkerIds_.length) (L : WorkerResults)
    (hkeys : (L.map Prod.fst).Perm ((splitResultByWorkerid g []).map Prod.fst))
    (hpos : ∀ w ∈ L, ∃ acc, (w.1, acc) ∈ splitResultByWorkerid g [] ∧
      w.2.topKPostionList_ = acc.topKPostionList_)
    (F : Nat)
    (hsnip : ∀ w ∈ L, w.2.snippetTextOfDocumentInPage_.length = F ∧
      ∀ row ∈ w.2.snippetTextOfDocumentInPage_, row.length = w.2.topKPostionList_.length)
    (_hfull : ∀ w ∈ L, w.2.fullTextOfDocumentInPage_.length = F ∧
      ∀ row ∈ w.2.fullTextOfDocumentInPage_, row.length = w.2.topKPostionList_.length)
    (_hraw : (workerResult L 0).rawTextOfSummaryInPage_.length ≠ 0 →
      ∀ w ∈ L, w.2.rawTextOfSummaryInPage_.length = F ∧
        ∀ row ∈ w.2.rawTextOfSummaryInPage_, row.length = w.2.topKPostionList_.length) :
    ∀ w ∈ L, ∀ j, j < w.2.topKPostionList_.length → ∀ f, f < F →
      cellGet (mergeSummaryResult g L).snippetTextOfDocumentInPage_ f
          (w.2.topKPostionList_.getD j 0) =
        cellGet w.2.snippetTextOfDocumentInPage_ f j ∧
      cellGet (mergeSummaryResult g L).fullTextOfDocumentInPage_ f
          (w.2.topKPostionList_.getD j 0) =
        cellGet w.2.fullTextOfDocumentInPage_ f j ∧
      ((workerResult L 0).rawTextOfSummaryInPage_.length ≠ 0 →
        cellGet (mergeSummaryResult g L).rawTextOfSummaryInPage_ f
            (w.2.topKPostionList_.getD j 0) =
          cellGet w.2.rawTextOfSummaryInPage_ f j) := by
  intro w hw j hj f hf
  have hne : L ≠ [] := List.ne_nil_of_mem hw
  obtain ⟨hwf, hbelow⟩ := split_positions_wellFormed g L hkeys hpos
  obtain ⟨w0, hw0, he0⟩ := workerResult_zero_mem L hne
  have hdpn : (workerResult L 0).snippetTextOfDocumentInPage_.length = F := by
    rw [he0]; exact (hsnip w0 hw0).1
  have hslot : w.2.topKPostionList_.getD j 0 < g.topKDocs_.length := by
    rw [hlen]; exact hbelow w hw _ (getD_mem_of_lt _ j hj)
  rw [mergeSummaryResult_of_ne_nil g L hne, hdpn, summaryRun_snippet, summaryRun_fullText]
  refine ⟨(finalGrid_spec _ g L hwf F).2.1 w hw j hj hslot f hf,
    (finalGrid_spec _ g L hwf F).2.1 w hw j hj hslot f hf, ?_⟩
  intro hsum
  rw [summaryRun_rawText_on _ _ _ _ hsum]
  exact (finalGrid_spec _ g L hwf F).2.1 w hw j hj hslot f hf

/-- Witness for C5: the page `pageAB` and the replies `subB`, `subA`, listed against the
key order of the map; slot 3 of field 1 holds the value worker 200 supplied at local
index 1. -/
theorem split_mergeSummary_roundtrip_witness :
    pageAB.topKDocs_.length = pageAB.topKWorkerIds_.length ∧
    cellGet (mergeSummaryResult pageAB [(200, subB), (100, subA)]).snippetTextOfDocumentInPage_
      1 3 = "B3" ∧
    cellGet (mergeSummaryResult pageAB [(200, subB), (100, subA)]).fullTextOfDocumentInPage_
      1 3 = "FB3" ∧
    cellGet (mergeSummaryResult pageAB [(200, subB), (100, subA)]).rawTextOfSummaryInPage_
      1 3 = "RB3" := by
  have h := split_mergeSummary_roundtrip pageAB (by decide) [(200, subB), (100, subA)]
    (by decide)
    (by
      intro w hw
      simp only [List.mem_cons, List.mem_singleton, List.not_mem_nil, or_false] at hw
      rcases hw with rfl | rfl
      · exact ⟨{ topKDocs_ := [2, 4], topKWorkerIds_ := [200, 200], topKPostionList_ := [1, 3] },
          by decide, rfl⟩
      · exact ⟨{ topKDocs_ := [3], topKWorkerIds_ := [100], topKPostionList_ := [2] },
          by decide, rfl⟩)
    2 (by decide) (by decide) (by intro _; decide)
    (200, subB) (by decide) 1 (by decide) 1 (by decide)
  exact ⟨by decide, h.1, h.2.1, h.2.2 (by decide)⟩

/-- C6: order independence of the reassembly.  For two sub-result lists that are
permutations of each other, whose sub-results agree on the number of display fields and
on whether summaries are enabled, and whose positions lists are strictly increasing,
pairwise disjoint and below the number of documents, `mergeSummaryResult` produces the
same result. -/
theorem mergeSummaryResult_perm (g : KeywordSearchResult) (L1 L2 : WorkerResults)
    (hperm : L1.Perm L2)
    (hfields : ∀ w ∈ L1, ∀ w' ∈ L1,
      w.2.snippetTextOfDocumentInPage_.length = w'.2.snippetTextOfDocumentInPage_.length)
    (hsummary : ∀ w ∈ L1, ∀ w' ∈ L1,
      (w.2.rawTextOfSummaryInPage_.length = 0 ↔ w'.2.rawTextOfSummaryInPage_.length = 0))
    (hinc : ∀ w ∈ L1, w.2.topKPostionList_.Pairwise (· < ·))
    (hdisj : L1.Pairwise (fun x y => ∀ p ∈ x.2.topKPostionList_, p ∉ y.2.topKPostionList_))
    (_hbelow : ∀ w ∈ L1, ∀ p ∈ w.2.topKPostionList_, p < g.topKDocs_.length) :
    mergeSummaryResult g L1 = mergeSummaryResult g L2 := by
  by_cases hnil : L1 = []
  · subst hnil
    rw [hperm.nil_eq]
  · have hnil2 : L2 ≠ [] := by
      intro h
      subst h
      exact hnil hperm.eq_nil
    have hwf : PositionsWellFormed L1 := ⟨hinc, hdisj⟩
    obtain ⟨w1, hw1, he1⟩ := workerResult_zero_mem L1 hnil
    obtain ⟨w2, hw2, he2⟩ := workerResult_zero_mem L2 hnil2
    have hw2' : w2 ∈ L1 := hperm.mem_iff.mpr hw2
    have hdpn : (workerResult L2 0).snippetTextOfDocumentInPage_.length =
        (workerResult L1 0).snippetTextOfDocumentInPage_.length := by
      rw [he1, he2]; exact hfields w2 hw2' w1 hw1
    have hsum : (workerResult L1 0).rawTextOfSummaryInPage_.length = 0 ↔
        (workerResult L2 0).rawTextOfSummaryInPage_.length = 0 := by
      rw [he1, he2]; exact hsummary w1 hw1 w2 hw2'
    rw [mergeSummaryResult_of_ne_nil g L1 hnil, mergeSummaryResult_of_ne_nil g L2 hnil2, hdpn]
    apply ksr_ext
    · rw [summaryRun_rankingPart, summaryRun_rankingPart]
    · rw [summaryRun_snippet, summaryRun_snippet]
      exact finalGrid_perm _ g L1 L2 hperm hwf _
    · rw [summaryRun_fullText, summaryRun_fullText]
      exact finalGrid_perm _ g L1 L2 hperm hwf _
    · by_cases hz : (workerResult L1 0).rawTextOfSummaryInPage_.length = 0
      · rw [summaryRun_rawText_off _ _ _ _ hz, summaryRun_rawText_off _ _ _ _ (hsum.mp hz)]
      · rw [summaryRun_rawText_on _ _ _ _ hz,
          summaryRun_rawText_on _ _ _ _ (fun h => hz (hsum.mpr h))]
        exact finalGrid_perm _ g L1 L2 hperm hwf _

/-- Witness for C6: the replies `subA` and `subB` for the page `pageAB`, in both orders. -/
theorem mergeSummaryResult_perm_witness :
    mergeSummaryResult pageAB [(100, subA), (200, subB)] =
      mergeSummaryResult pageAB [(200, subB), (100, subA)] :=
  mergeSummaryResult_perm pageAB [(100, subA), (200, subB)] [(200, subB), (100, subA)]
    (List.Perm.swap _ _ _) (by decide) (by decide) (by decide) (by decide) (by decide)

/-! ## Display tables without assumptions on the positions lists -/

theorem resize_getD {α : Type} (l : List α) (n : Nat) (d : α) (i : Nat) :
    (resize l n d).getD i d = if i < n then l.getD i d else d := by
  unfold resize
  by_cases hi : i < n
  · rw [if_pos hi]
    by_cases hl : i < l.length
    · have h1 : i < (l.take n).length := by rw [List.length_take]; omega
      rw [List.getD_append _ _ _ _ h1, List.getD_eq_getElem _ _ h1, List.getD_eq_getElem _ _ hl,
        List.getElem_take]
    · have h1 : (l.take n).length ≤ i := by rw [List.length_take]; omega
      have e : l.getD i d = d := List.getD_eq_default _ _ (by omega)
      rw [List.getD_append_right _ _ _ _ h1, e]
      by_cases h2 : i - (l.take n).length < (List.replicate (n - l.length) d).length
      · rw [List.getD_eq_getElem _ _ h2, List.getElem_replicate]
      · exact List.getD_eq_default _ _ (by omega)
  · rw [if_neg hi]
    apply List.getD_eq_default
    rw [List.length_append, List.length_take, List.length_replicate]
    omega

theorem cellGet_rowResize_empty (grid : Grid) (h : ∀ dis i, cellGet grid dis i = "")
    (d topk dis i : Nat) : cellGet (rowResize grid d topk) dis i = "" := by
  unfold cellGet rowResize
  rw [getD_set_length]
  split_ifs with hc
  · rw [resize_getD]
    split_ifs
    · exact h d i
    · rfl
  · exact h dis i

theorem cellGet_resizeRows_empty (grid : Grid) (h : ∀ dis i, cellGet grid dis i = "")
    (topk n : Nat) : ∀ dis i, cellGet (resizeRows n topk grid) dis i = "" := by
  induction n with
  | zero => simpa [resizeRows] using h
  | succ n ih =>
    intro dis i
    rw [resizeRows_succ]
    exact cellGet_rowResize_empty _ ih n topk dis i

/-- A display table that was empty before lines 159-169 holds the default value in every
cell after them. -/
theorem cellGet_initGrid_nil (dpn topk dis i : Nat) : cellGet (initGrid [] dpn topk) dis i = "" := by
  unfold initGrid
  apply cellGet_resizeRows_empty
  intro d j
  unfold cellGet
  rw [resize_getD]
  split_ifs <;> rfl

theorem claimsSlot_mem (rl : WorkerResults) (iter : List Nat) (i c : Nat)
    (h : claimsSlot rl iter i c = true) : i ∈ (workerResult rl c).topKPostionList_ := by
  unfold claimsSlot at h
  rw [decide_eq_true_iff] at h
  rw [← h.2]
  exact getD_mem_of_lt _ _ h.1

/-- Whatever the positions lists hold, the loop of lines 177-208 keeps the shape of a
display table and writes no slot that occurs in no positions list. -/
theorem gridLoop_untouched (sel : KeywordSearchResult → Grid) (rl : WorkerResults)
    (dpn topk : Nat) (init : Grid) (hshape : GridShape init dpn topk) (n : Nat)
    (hn : n ≤ topk) :
    GridShape (gridLoop sel rl dpn n init).1 dpn topk ∧
    ∀ i, (n ≤ i ∨ ∀ a, a < rl.length → i ∉ (workerResult rl a).topKPostionList_) →
      ∀ dis, cellGet (gridLoop sel rl dpn n init).1 dis i = cellGet init dis i := by
  induction n with
  | zero => exact ⟨hshape, fun _ _ _ => rfl⟩
  | succ n ih =>
    obtain ⟨ihs, ihu⟩ := ih (by omega)
    rw [gridLoop_succ]
    unfold gridStep
    split
    · refine ⟨ihs, ?_⟩
      intro i hi dis
      apply ihu i _ dis
      rcases hi with h1 | h1
      · exact Or.inl (by omega)
      · exact Or.inr h1
    · rename_i c hsome
      obtain ⟨hc, hclaim⟩ := findSub_some rl _ n c hsome
      have hmem := claimsSlot_mem rl _ n c hclaim
      refine ⟨copyColumn_shape _ _ _ _ _ _ ihs _, ?_⟩
      intro i hi dis
      have hne : i ≠ n := by
        rcases hi with h1 | h1
        · omega
        · intro he; exact h1 c hc (he ▸ hmem)
      simp only
      rw [cellGet_copyColumn _ _ _ _ dpn topk ihs (by omega) dpn (Nat.le_refl _),
        if_neg (fun hh => hne hh.2)]
      apply ihu i _ dis
      rcases hi with h1 | h1
      · exact Or.inl (by omega)
      · exact Or.inr h1

theorem finalGrid_untouched (sel : KeywordSearchResult → Grid) (g : KeywordSearchResult)
    (rl : WorkerResults) (dpn : Nat) :
    GridShape (finalGrid sel g rl dpn) dpn g.topKDocs_.length ∧
    ∀ i, (∀ w ∈ rl, i ∉ w.2.topKPostionList_) → ∀ dis,
      cellGet (finalGrid sel g rl dpn) dis i =
        cellGet (initGrid (sel g) dpn g.topKDocs_.length) dis i := by
  obtain ⟨hs, hu⟩ := gridLoop_untouched sel rl dpn g.topKDocs_.length
    (initGrid (sel g) dpn g.topKDocs_.length) (initGrid_shape _ _ _) g.topKDocs_.length
    (Nat.le_refl _)
  refine ⟨hs, ?_⟩
  intro i hi dis
  apply hu i _ dis
  right
  intro a ha
  rw [workerResult_eq_getElem rl a ha]
  exact hi _ (List.getElem_mem ha)

theorem gridShape_rows (grid : Grid) (rows cols : Nat) (h : GridShape grid rows cols) :
    grid.length = rows ∧ ∀ row ∈ grid, row.length = cols := by
  refine ⟨h.1, ?_⟩
  intro row hrow
  obtain ⟨dis, hd, he⟩ := List.getElem_of_mem hrow
  have := h.2 dis (by rw [← h.1]; exact hd)
  rw [List.getD_eq_getElem _ _ hd, he] at this
  exact this

/-! ## The merge loop as a sequence of selections -/

theorem mergeFinalState_eq_loop (result : KeywordSearchResult) (rl : WorkerResults) :
    mergeFinalState result rl =
      mergeLoop rl (sizeAdd result.start_ result.count_) (mergeInitState result rl) := rfl

theorem mergeLoop_succ_none (rl : WorkerResults) (n : Nat) (s : MergeState)
    (h : (findMax rl s.iter).2 = none) : mergeLoop rl (n + 1) s = s := by
  simp only [mergeLoop, h]

theorem mergeLoop_succ_some (rl : WorkerResults) (n : Nat) (s : MergeState) (maxi : Nat)
    (h : (findMax rl s.iter).2 = some maxi) :
    mergeLoop rl (n + 1) s = mergeLoop rl n (mergeStep rl maxi s) := by
  simp only [mergeLoop, h]

theorem mergePicks_succ_none (rl : WorkerResults) (n : Nat) (iter : List Nat)
    (h : (findMax rl iter).2 = none) : mergePicks rl (n + 1) iter = [] := by
  simp only [mergePicks, h]

theorem mergePicks_succ_some (rl : WorkerResults) (n : Nat) (iter : List Nat) (maxi : Nat)
    (h : (findMax rl iter).2 = some maxi) :
    mergePicks rl (n + 1) iter =
      (maxi, iter.getD maxi 0) :: mergePicks rl n (iter.set maxi (iter.getD maxi 0 + 1)) := by
  simp only [mergePicks, h]

theorem mergeCursors_succ_none (rl : WorkerResults) (n : Nat) (iter : List Nat)
    (h : (findMax rl iter).2 = none) : mergeCursors rl (n + 1) iter = iter := by
  simp only [mergeCursors, h]

theorem mergeCursors_succ_some (rl : WorkerResults) (n : Nat) (iter : List Nat) (maxi : Nat)
    (h : (findMax rl iter).2 = some maxi) :
    mergeCursors rl (n + 1) iter =
      mergeCursors rl n (iter.set maxi (iter.getD maxi 0 + 1)) := by
  simp only [mergeCursors, h]

/-- The slot counter and the cursor array when the loop ends. -/
theorem mergeLoop_cnt_iter (rl : WorkerResults) :
    ∀ (n : Nat) (s : MergeState),
      (mergeLoop rl n s).cnt = s.cnt + (mergePicks rl n s.iter).length ∧
      (mergeLoop rl n s).iter = mergeCursors rl n s.iter := by
  intro n
  induction n with
  | zero => intro s; exact ⟨rfl, rfl⟩
  | succ n ih =>
    intro s
    cases h : (findMax rl s.iter).2 with
    | none =>
      rw [mergeLoop_succ_none rl n s h, mergePicks_succ_none rl n _ h,
        mergeCursors_succ_none rl n _ h]
      exact ⟨rfl, rfl⟩
    | some maxi =>
      rw [mergeLoop_succ_some rl n s maxi h, mergePicks_succ_some rl n _ maxi h,
        mergeCursors_succ_some rl n _ maxi h]
      obtain ⟨h1, h2⟩ := ih (mergeStep rl maxi s)
      rw [mergeStep_cnt, mergeStep_iter] at h1
      rw [mergeStep_iter] at h2
      exact ⟨by rw [h1, List.length_cons]; omega, h2⟩

theorem mergePicks_length_le (rl : WorkerResults) :
    ∀ (n : Nat) (iter : List Nat), (mergePicks rl n iter).length ≤ n := by
  intro n
  induction n with
  | zero => intro iter; exact Nat.le_refl _
  | succ n ih =>
    intro iter
    cases h : (findMax rl iter).2 with
    | none => rw [mergePicks_succ_none rl n _ h]; exact Nat.zero_le _
    | some maxi =>
      rw [mergePicks_succ_some rl n _ maxi h, List.length_cons]
      exact Nat.succ_le_succ (ih _)

theorem writeOpt_length {α : Type} (l : List α) (k : Nat) (o : Option α) :
    (writeOpt l k o).length = l.length := by
  cases o <;> simp [writeOpt]

theorem writeOpt_getD_ne {α : Type} (l : List α) (k : Nat) (o : Option α) (j : Nat) (d : α)
    (h : k ≠ j) : (writeOpt l k o).getD j d = l.getD j d := by
  cases o with
  | none => rfl
  | some v => exact getD_set_ne l k j v d h

theorem writeOpt_getD_eq {α : Type} (l : List α) (k : Nat) (o : Option α) (d : α)
    (h : k < l.length) : (writeOpt l k o).getD k d = o.getD (l.getD k d) := by
  cases o with
  | none => rfl
  | some v => exact getD_set_eq l k v d h

/-- An array of the result that every iteration writes at the slot counter, with the value
`val` of the selection, holds after the loop: below the starting counter what it held
before, and at the `i`-th slot from the starting counter the value of the `i`-th
selection. -/
theorem mergeLoop_slots {α : Type} (proj : KeywordSearchResult → List α)
    (val : Nat × Nat → Option α) (d : α) (rl : WorkerResults)
    (hstep : ∀ maxi s, proj (mergeStep rl maxi s).result =
      writeOpt (proj s.result) s.cnt (val (maxi, s.iter.getD maxi 0))) :
    ∀ (n : Nat) (s : MergeState),
      (∀ k, k < s.cnt → (proj (mergeLoop rl n s).result).getD k d = (proj s.result).getD k d) ∧
      (∀ i p, (mergePicks rl n s.iter)[i]? = some p → s.cnt + i < (proj s.result).length →
        (proj (mergeLoop rl n s).result).getD (s.cnt + i) d =
          (val p).getD ((proj s.result).getD (s.cnt + i) d)) := by
  intro n
  induction n with
  | zero =>
    intro s
    refine ⟨fun _ _ => rfl, ?_⟩
    intro i p hp
    simp [mergePicks] at hp
  | succ n ih =>
    intro s
    cases h : (findMax rl s.iter).2 with
    | none =>
      rw [mergeLoop_succ_none rl n s h, mergePicks_succ_none rl n _ h]
      refine ⟨fun _ _ => rfl, ?_⟩
      intro i p hp
      simp at hp
    | some maxi =>
      rw [mergeLoop_succ_some rl n s maxi h, mergePicks_succ_some rl n _ maxi h]
      obtain ⟨ihb, ihf⟩ := ih (mergeStep rl maxi s)
      rw [mergeStep_cnt, hstep] at ihb
      rw [mergeStep_cnt, mergeStep_iter, hstep] at ihf
      constructor
      · intro k hk
        rw [ihb k (by omega), writeOpt_getD_ne _ _ _ _ _ (by omega)]
      · intro i p hp hlt
        cases i with
        | zero =>
          simp only [List.getElem?_cons_zero, Option.some.injEq] at hp
          rw [Nat.add_zero] at hlt ⊢
          rw [ihb s.cnt (by omega), writeOpt_getD_eq _ _ _ _ hlt, ← hp]
        | succ i =>
          simp only [List.getElem?_cons_succ] at hp
          have e : s.cnt + (i + 1) = s.cnt + 1 + i := by omega
          rw [e] at hlt ⊢
          rw [ihf i p hp (by rw [writeOpt_length]; exact hlt),
            writeOpt_getD_ne _ _ _ _ _ (by omega)]

theorem mergeStep_docs_writeOpt (rl : WorkerResults) (maxi : Nat) (s : MergeState) :
    (mergeStep rl maxi s).result.topKDocs_ =
      writeOpt s.result.topKDocs_ s.cnt (some (pickDoc rl (maxi, s.iter.getD maxi 0))) :=
  mergeStep_docs rl maxi s

theorem mergeStep_workerIds_writeOpt (rl : WorkerResults) (maxi : Nat) (s : MergeState) :
    (mergeStep rl maxi s).result.topKWorkerIds_ =
      writeOpt s.result.topKWorkerIds_ s.cnt
        ((fun p : Nat × Nat => some (workerId rl p.1)) (maxi, s.iter.getD maxi 0)) :=
  mergeStep_workerIds rl maxi s

theorem mergeStep_scores_writeOpt (rl : WorkerResults) (maxi : Nat) (s : MergeState) :
    (mergeStep rl maxi s).result.topKRankScoreList_ =
      writeOpt s.result.topKRankScoreList_ s.cnt
        (some (pickScore rl (maxi, s.iter.getD maxi 0))) :=
  mergeStep_scores rl maxi s

theorem mergeStep_customScores_writeOpt (rl : WorkerResults) (maxi : Nat) (s : MergeState) :
    (mergeStep rl maxi s).result.topKCustomRankScoreList_ =
      writeOpt s.result.topKCustomRankScoreList_ s.cnt
        (pickCustom rl (maxi, s.iter.getD maxi 0)) := by
  rw [mergeStep_customScores]
  unfold pickCustom writeOpt
  simp only
  split_ifs <;> rfl

/-- Every selection names a worker of the list and a live cursor of it, and its score is
strictly positive. -/
theorem mergePicks_valid (rl : WorkerResults) :
    ∀ (n : Nat) (iter : List Nat), ∀ p ∈ mergePicks rl n iter,
      p.1 < rl.length ∧ p.2 < (workerResult rl p.1).topKRankScoreList_.length ∧
      0 < pickScore rl p := by
  intro n
  induction n with
  | zero => intro iter p hp; simp [mergePicks] at hp
  | succ n ih =>
    intro iter p hp
    cases h : (findMax rl iter).2 with
    | none => rw [mergePicks_succ_none rl n _ h] at hp; simp at hp
    | some maxi =>
      rw [mergePicks_succ_some rl n _ maxi h] at hp
      rcases List.mem_cons.mp hp with he | hp'
      · have inv := findMax_inv rl iter
        subst he
        refine ⟨inv.some_lt maxi h, inv.some_live maxi h, ?_⟩
        have := inv.some_pos maxi h
        rw [← inv.some_head maxi h] at this
        exact this
      · exact ih _ p hp'

theorem picksOf_cons (a : Nat) (p : Nat × Nat) (picks : List (Nat × Nat)) :
    picksOf a (p :: picks) = if p.1 = a then p :: picksOf a picks else picksOf a picks := by
  unfold picksOf
  by_cases h : p.1 = a
  · rw [if_pos h, List.filter_cons_of_pos (by simpa using h)]
  · rw [if_neg h, List.filter_cons_of_neg (by simpa using h)]

/-- The selections made from one worker carry consecutive cursors, starting at the
worker's cursor when the loop starts; the worker's cursor when the loop ends has advanced
by their number. -/
theorem mergePicks_cursors (rl : WorkerResults) :
    ∀ (n : Nat) (iter : List Nat), iter.length = rl.length → ∀ a,
      (picksOf a (mergePicks rl n iter)).map Prod.snd =
        List.range' (iter.getD a 0) (picksOf a (mergePicks rl n iter)).length ∧
      (mergeCursors rl n iter).getD a 0 =
        iter.getD a 0 + (picksOf a (mergePicks rl n iter)).length := by
  intro n
  induction n with
  | zero => intro iter _ a; exact ⟨rfl, rfl⟩
  | succ n ih =>
    intro iter hlen a
    cases h : (findMax rl iter).2 with
    | none =>
      rw [mergePicks_succ_none rl n _ h, mergeCursors_succ_none rl n _ h]
      exact ⟨rfl, rfl⟩
    | some maxi =>
      have hlt : maxi < iter.length := by
        rw [hlen]; exact (findMax_inv rl iter).some_lt maxi h
      rw [mergePicks_succ_some rl n _ maxi h, mergeCursors_succ_some rl n _ maxi h,
        picksOf_cons]
      obtain ⟨ih1, ih2⟩ := ih (iter.set maxi (iter.getD maxi 0 + 1)) (by simpa using hlen) a
      by_cases hm : maxi = a
      · subst hm
        rw [getD_set_eq _ _ _ _ hlt] at ih1 ih2
        simp only [if_true, List.map_cons, List.length_cons]
        refine ⟨?_, by rw [ih2]; omega⟩
        rw [ih1, List.range'_succ]
      · rw [getD_set_ne _ _ _ _ _ hm] at ih1 ih2
        simp only [hm, if_false]
        exact ⟨ih1, ih2⟩

theorem mergeCursors_length (rl : WorkerResults) :
    ∀ (n : Nat) (iter : List Nat), (mergeCursors rl n iter).length = iter.length := by
  intro n
  induction n with
  | zero => intro iter; rfl
  | succ n ih =>
    intro iter
    cases h : (findMax rl iter).2 with
    | none => rw [mergeCursors_succ_none rl n _ h]
    | some maxi => rw [mergeCursors_succ_some rl n _ maxi h, ih]; simp

/-! ## Slots and selections worker by worker -/

/-- Filtering and mapping the indices of a list agrees with filtering and mapping the
list, when the index functions agree with the element functions. -/
theorem range_filter_map {β γ : Type} (l : List β) (Q : Nat → Bool) (q : β → Bool)
    (F : Nat → γ) (f : β → γ)
    (hq : ∀ k p, l[k]? = some p → Q k = q p) (hf : ∀ k p, l[k]? = some p → F k = f p) :
    ((List.range l.length).filter Q).map F = (l.filter q).map f := by
  induction l using List.reverseRecOn with
  | nil => rfl
  | append_singleton l x ih =>
    have hq' : ∀ k p, l[k]? = some p → Q k = q p := by
      intro k p hp
      apply hq k p
      rw [List.getElem?_append_left (List.getElem?_eq_some_iff.mp hp).1]
      exact hp
    have hf' : ∀ k p, l[k]? = some p → F k = f p := by
      intro k p hp
      apply hf k p
      rw [List.getElem?_append_left (List.getElem?_eq_some_iff.mp hp).1]
      exact hp
    have hx : (l ++ [x])[l.length]? = some x := by
      rw [List.getElem?_append_right (Nat.le_refl _)]
      simp
    rw [List.length_append, List.length_singleton, List.range_succ, List.filter_append,
      List.filter_append, List.map_append, List.map_append, ih hq' hf']
    congr 1
    have e1 := hq l.length x hx
    have e2 := hf l.length x hx
    cases hqx : q x with
    | true =>
      rw [hqx] at e1
      rw [List.filter_cons_of_pos e1, List.filter_cons_of_pos hqx]
      simp [e2]
    | false =>
      rw [hqx] at e1
      rw [List.filter_cons_of_neg (by simp [e1]), List.filter_cons_of_neg (by simp [hqx])]
      rfl

theorem workerId_inj (rl : WorkerResults) (hids : (rl.map Prod.fst).Nodup) (a b : Nat)
    (ha : a < rl.length) (hb : b < rl.length) (h : workerId rl a = workerId rl b) : a = b := by
  unfold workerId at h
  rw [List.getD_eq_getElem _ _ ha, List.getD_eq_getElem _ _ hb] at h
  have ha' : a < (rl.map Prod.fst).length := by simpa using ha
  have hb' : b < (rl.map Prod.fst).length := by simpa using hb
  have : (rl.map Prod.fst)[a] = (rl.map Prod.fst)[b] := by
    simpa using h
  exact (hids.getElem_inj_iff).mp this

theorem zip_take_eq_map_range (l1 : List Nat) (l2 : List Int) (hlen : l1.length = l2.length)
    (n : Nat) (hn : n ≤ l2.length) :
    (l1.zip l2).take n = (List.range n).map (fun j => (l1.getD j 0, l2.getD j 0)) := by
  apply List.ext_getElem
  · simp [List.length_take, List.length_zip]; omega
  · intro i h1 h2
    have hi : i < n := by simpa using h2
    simp only [List.getElem_take, List.getElem_zip, List.getElem_map, List.getElem_range]
    rw [List.getD_eq_getElem _ _ (by omega), List.getD_eq_getElem _ _ (by omega)]

theorem mem_picksOf (a : Nat) (picks : List (Nat × Nat)) (p : Nat × Nat) :
    p ∈ picksOf a picks ↔ p ∈ picks ∧ p.1 = a := by
  unfold picksOf
  simp [List.mem_filter]

theorem sum_indicator_range (n b : Nat) (hb : b < n) :
    ((List.range n).map (fun a => if b = a then 1 else 0)).sum = 1 := by
  induction n with
  | zero => omega
  | succ n ih =>
    rw [List.range_succ, List.map_append, List.sum_append]
    by_cases h : b = n
    · subst h
      have : (List.range b).map (fun a => if b = a then 1 else 0) =
          (List.range b).map (fun _ => 0) := by
        apply List.map_congr_left
        intro a ha
        have := List.mem_range.mp ha
        rw [if_neg (by omega)]
      rw [this]
      simp
    · rw [ih (by omega)]
      simp [h]

/-- The selections split among the workers of the list. -/
theorem sum_picksOf_length (n : Nat) (picks : List (Nat × Nat)) (h : ∀ p ∈ picks, p.1 < n) :
    ((List.range n).map (fun a => (picksOf a picks).length)).sum = picks.length := by
  induction picks with
  | nil => simp [picksOf]
  | cons p picks ih =>
    have e : (List.range n).map (fun a => (picksOf a (p :: picks)).length) =
        (List.range n).map
          (fun a => (if p.1 = a then 1 else 0) + (picksOf a picks).length) := by
      apply List.map_congr_left
      intro a _
      rw [picksOf_cons]
      by_cases hp : p.1 = a
      · rw [if_pos hp, if_pos hp, List.length_cons]; omega
      · rw [if_neg hp, if_neg hp]; omega
    rw [e, List.sum_map_add, sum_indicator_range n p.1 (h p (List.mem_cons_self _ _)),
      ih (fun q hq => h q (List.mem_cons_of_mem _ hq)), List.length_cons]
    omega

/-! ## The states of the merge loop -/

theorem mergeTrace_succ_none (rl : WorkerResults) (n : Nat) (s : MergeState)
    (h : (findMax rl s.iter).2 = none) : mergeTrace rl (n + 1) s = [s] := by
  simp only [mergeTrace, h]

theorem mergeTrace_succ_some (rl : WorkerResults) (n : Nat) (s : MergeState) (maxi : Nat)
    (h : (findMax rl s.iter).2 = some maxi) :
    mergeTrace rl (n + 1) s = s :: mergeTrace rl n (mergeStep rl maxi s) := by
  simp only [mergeTrace, h]

theorem mergeTrace_head (rl : WorkerResults) (n : Nat) (s : MergeState) :
    (mergeTrace rl n s).head? = some s := by
  cases n with
  | zero => rfl
  | succ n =>
    cases h : (findMax rl s.iter).2 with
    | none => rw [mergeTrace_succ_none rl n s h]; rfl
    | some maxi => rw [mergeTrace_succ_some rl n s maxi h]; rfl

/-- The trace ends in the state in which the loop ends. -/
theorem mergeTrace_getLast (rl : WorkerResults) :
    ∀ (n : Nat) (s : MergeState), (mergeTrace rl n s).getLast? = some (mergeLoop rl n s) := by
  intro n
  induction n with
  | zero => intro s; rfl
  | succ n ih =>
    intro s
    cases h : (findMax rl s.iter).2 with
    | none => rw [mergeTrace_succ_none rl n s h, mergeLoop_succ_none rl n s h]; rfl
    | some maxi =>
      rw [mergeTrace_succ_some rl n s maxi h, mergeLoop_succ_some rl n s maxi h,
        List.getLast?_cons, ih]
      rfl

/-- One iteration that selects a worker appends the head of the first worker with the
maximal head score. -/
theorem mergeStep_appendsFirstMaximum (rl : WorkerResults) (s : MergeState) (maxi : Nat)
    (h : (findMax rl s.iter).2 = some maxi) (hiter : s.iter.length = rl.length)
    (hd : s.cnt < s.result.topKDocs_.length) (hw : s.cnt < s.result.topKWorkerIds_.length)
    (hs : s.cnt < s.result.topKRankScoreList_.length) :
    AppendsFirstMaximum rl s (mergeStep rl maxi s) := by
  have inv := findMax_inv rl s.iter
  have hlt := inv.some_lt maxi h
  have hhead := inv.some_head maxi h
  refine ⟨maxi, hlt, inv.some_live maxi h, ?_, ?_, rfl, ?_, ?_, ?_, ?_, ?_, ?_⟩
  · intro j hj hlive
    rw [hhead]; exact inv.upper j hj hlive
  · intro j hj hlive
    have := inv.some_first maxi h j hj hlive
    rw [hhead]; omega
  · rw [mergeStep_docs, List.length_set]; exact hd
  · rw [mergeStep_docs, getD_set_eq _ _ _ _ hd]
  · rw [mergeStep_workerIds, getD_set_eq _ _ _ _ hw]
  · rw [mergeStep_scores, getD_set_eq _ _ _ _ hs]
  · rw [mergeStep_iter, getD_set_eq _ _ _ _ (by rw [hiter]; exact hlt)]
  · intro j hj
    rw [mergeStep_iter, getD_set_ne _ _ _ _ _ (fun e => hj e.symm)]

theorem mergeTrace_chain (rl : WorkerResults) :
    ∀ (n : Nat) (s : MergeState), s.iter.length = rl.length →
      s.cnt + n ≤ s.result.topKDocs_.length → s.cnt + n ≤ s.result.topKWorkerIds_.length →
      s.cnt + n ≤ s.result.topKRankScoreList_.length →
      List.Chain' (AppendsFirstMaximum rl) (mergeTrace rl n s) := by
  intro n
  induction n with
  | zero => intro s _ _ _ _; exact List.chain'_singleton _
  | succ n ih =>
    intro s hiter hd hw hs
    cases h : (findMax rl s.iter).2 with
    | none => rw [mergeTrace_succ_none rl n s h]; exact List.chain'_singleton _
    | some maxi =>
      rw [mergeTrace_succ_some rl n s maxi h, List.chain'_cons']
      constructor
      · intro y hy
        rw [mergeTrace_head] at hy
        simp only [Option.mem_def, Option.some.injEq] at hy
        rw [← hy]
        exact mergeStep_appendsFirstMaximum rl s maxi h hiter (by omega) (by omega) (by omega)
      · apply ih
        · simpa using hiter
        · rw [mergeStep_cnt, mergeStep_docs, List.length_set]; omega
        · rw [mergeStep_cnt, mergeStep_workerIds, List.length_set]; omega
        · rw [mergeStep_cnt, mergeStep_scores, List.length_set]; omega

/-- The workers' arrays are parallel: documents as long as scores, custom scores empty or
as long as scores. -/
theorem iterationInBounds_of (rl : WorkerResults)
    (hwf : ∀ w ∈ rl, w.2.topKDocs_.length = w.2.topKRankScoreList_.length ∧
      (w.2.topKCustomRankScoreList_ = [] ∨
        w.2.topKCustomRankScoreList_.length = w.2.topKRankScoreList_.length))
    (s : MergeState) (hiter : s.iter.length = rl.length)
    (hd : s.cnt < s.result.topKDocs_.length) (hw : s.cnt < s.result.topKWorkerIds_.length)
    (hs : s.cnt < s.result.topKRankScoreList_.length)
    (hc : s.cnt < s.result.topKCustomRankScoreList_.length) : IterationInBounds rl s := by
  refine ⟨fun i hi => by rw [hiter]; exact hi, ?_⟩
  intro maxi h
  have inv := findMax_inv rl s.iter
  have hlt := inv.some_lt maxi h
  have hlive : s.iter.getD maxi 0 < (workerResult rl maxi).topKRankScoreList_.length :=
    inv.some_live maxi h
  obtain ⟨id, hmem⟩ := workerResult_mem rl maxi hlt
  obtain ⟨h1, h2⟩ := hwf _ hmem
  refine ⟨hlt, by rw [hiter]; exact hlt, by rw [h1]; exact hlive, hlive, ?_, hd, hw, hs, hc⟩
  intro hpos
  rcases h2 with h2 | h2
  · rw [h2] at hpos; simp at hpos
  · rw [h2]; exact hlive

theorem mergeTrace_inBounds (rl : WorkerResults)
    (hwf : ∀ w ∈ rl, w.2.topKDocs_.length = w.2.topKRankScoreList_.length ∧
      (w.2.topKCustomRankScoreList_ = [] ∨
        w.2.topKCustomRankScoreList_.length = w.2.topKRankScoreList_.length)) :
    ∀ (n : Nat) (s : MergeState), s.iter.length = rl.length →
      s.cnt + n ≤ s.result.topKDocs_.length → s.cnt + n ≤ s.result.topKWorkerIds_.length →
      s.cnt + n ≤ s.result.topKRankScoreList_.length →
      s.cnt + n ≤ s.result.topKCustomRankScoreList_.length →
      ∀ k t, k < n → (mergeTrace rl n s)[k]? = some t → IterationInBounds rl t := by
  intro n
  induction n with
  | zero => intro s _ _ _ _ _ k t hk; omega
  | succ n ih =>
    intro s hiter hd hw hs hc k t hk ht
    have hhere : IterationInBounds rl s :=
      iterationInBounds_of rl hwf s hiter (by omega) (by omega) (by omega) (by omega)
    cases h : (findMax rl s.iter).2 with
    | none =>
      rw [mergeTrace_succ_none rl n s h] at ht
      cases k with
      | zero =>
        simp only [List.getElem?_cons_zero, Option.some.injEq] at ht
        rw [← ht]; exact hhere
      | succ k => simp at ht
    | some maxi =>
      rw [mergeTrace_succ_some rl n s maxi h] at ht
      cases k with
      | zero =>
        simp only [List.getElem?_cons_zero, Option.some.injEq] at ht
        rw [← ht]; exact hhere
      | succ k =>
        simp only [List.getElem?_cons_succ] at ht
        apply ih (mergeStep rl maxi s) _ _ _ _ _ k t (by omega) ht
        · simpa using hiter
        · rw [mergeStep_cnt, mergeStep_docs, List.length_set]; omega
        · rw [mergeStep_cnt, mergeStep_workerIds, List.length_set]; omega
        · rw [mergeStep_cnt, mergeStep_scores, List.length_set]; omega
        · rw [mergeStep_cnt, mergeStep_customScores_length]; omega

/-- The `k`-th selection of the loop is the worker that the scan selects in the `k`-th
state of the loop, paired with that worker's cursor there. -/
theorem mergePicks_of_trace (rl : WorkerResults) :
    ∀ (n : Nat) (s : MergeState) (k : Nat) (t : MergeState) (a : Nat), k < n →
      (mergeTrace rl n s)[k]? = some t → (findMax rl t.iter).2 = some a →
      (mergePicks rl n s.iter)[k]? = some (a, t.iter.getD a 0) := by
  intro n
  induction n with
  | zero => intro s k t a hk; omega
  | succ n ih =>
    intro s k t a hk ht ha
    cases h : (findMax rl s.iter).2 with
    | none =>
      rw [mergeTrace_succ_none rl n s h] at ht
      cases k with
      | zero =>
        simp only [List.getElem?_cons_zero, Option.some.injEq] at ht
        rw [← ht, h] at ha
        exact absurd ha (by simp)
      | succ k => simp at ht
    | some maxi =>
      rw [mergeTrace_succ_some rl n s maxi h] at ht
      rw [mergePicks_succ_some rl n _ maxi h]
      cases k with
      | zero =>
        simp only [List.getElem?_cons_zero, Option.some.injEq] at ht
        rw [← ht, h] at ha
        simp only [Option.some.injEq] at ha
        rw [← ht, ← ha]
        exact List.getElem?_cons_zero
      | succ k =>
        simp only [List.getElem?_cons_succ] at ht ⊢
        exact ih (mergeStep rl maxi s) k t a (by omega) ht ha

/-! ## The merge loop as a selection of the largest scores -/

theorem flatten_range_perm_cons {α : Type} (f g : Nat → List α) (a : Nat) (x : α)
    (hne : ∀ b, b ≠ a → f b = g b) (hat : f a = x :: g a) :
    ∀ n, a < n →
      ((List.range n).map f).flatten.Perm (x :: ((List.range n).map g).flatten) := by
  intro n
  induction n with
  | zero => intro h; omega
  | succ n ih =>
    intro h
    rw [List.range_succ, List.map_append, List.map_append, List.flatten_append,
      List.flatten_append]
    simp only [List.map_cons, List.map_nil, List.flatten_cons, List.flatten_nil,
      List.append_nil]
    by_cases han : a = n
    · subst han
      have e : (List.range a).map f = (List.range a).map g := by
        apply List.map_congr_left
        intro b hb
        exact hne b (by have := List.mem_range.mp hb; omega)
      rw [e, hat]
      exact List.perm_middle
    · rw [hne n (fun e => han e.symm)]
      exact (ih (by omega)).append_right _

theorem remainingScores_step (rl : WorkerResults) (iter : List Nat)
    (hlen : iter.length = rl.length) (maxi : Nat) (hlt : maxi < rl.length)
    (hlive : cursorLive rl iter maxi) :
    (remainingScores rl iter).Perm
      (headScore rl iter maxi :: remainingScores rl (iter.set maxi (iter.getD maxi 0 + 1))) := by
  unfold remainingScores
  apply flatten_range_perm_cons _ _ maxi _ _ _ rl.length hlt
  · intro b hb
    rw [getD_set_ne _ _ _ _ _ (fun e => hb e.symm)]
  · rw [getD_set_eq _ _ _ _ (by rw [hlen]; exact hlt)]
    unfold cursorLive at hlive
    unfold headScore
    rw [List.drop_eq_getElem_cons hlive, List.getD_eq_getElem _ _ hlive]

theorem getD_mem_of_lt_int (p : List Int) (j : Nat) (h : j < p.length) : p.getD j 0 ∈ p := by
  rw [List.getD_eq_getElem _ _ h]; exact List.getElem_mem h

theorem mem_remainingScores (rl : WorkerResults) (iter : List Nat) (y : Int) :
    y ∈ remainingScores rl iter ↔
      ∃ b, b < rl.length ∧ y ∈ (workerResult rl b).topKRankScoreList_.drop (iter.getD b 0) := by
  unfold remainingScores
  simp only [List.mem_flatten, List.mem_map, List.mem_range]
  constructor
  · rintro ⟨l, ⟨b, hb, rfl⟩, hy⟩
    exact ⟨b, hb, hy⟩
  · rintro ⟨b, hb, hy⟩
    exact ⟨_, ⟨b, hb, rfl⟩, hy⟩

theorem headScore_mem (rl : WorkerResults) (iter : List Nat) (j : Nat)
    (hlive : cursorLive rl iter j) :
    headScore rl iter j ∈ (workerResult rl j).topKRankScoreList_ := by
  unfold cursorLive at hlive
  unfold headScore
  exact getD_mem_of_lt_int _ _ hlive

/-- With strictly positive scores the scan selects no worker only when no score is left. -/
theorem remainingScores_eq_nil_of_none (rl : WorkerResults) (hpos : ScoresPositive rl)
    (iter : List Nat) (h : (findMax rl iter).2 = none) : remainingScores rl iter = [] := by
  have inv := findMax_inv rl iter
  have hz := inv.none_zero h
  apply List.eq_nil_iff_forall_not_mem.mpr
  intro y hy
  obtain ⟨b, hb, hmem⟩ := (mem_remainingScores rl iter y).mp hy
  have hlive : cursorLive rl iter b := by
    unfold cursorLive
    by_contra hc
    rw [List.drop_eq_nil_of_le (by omega)] at hmem
    simp at hmem
  have h1 := inv.upper b hb hlive
  obtain ⟨id, hw⟩ := workerResult_mem rl b hb
  have h2 := hpos _ hw _ (headScore_mem rl iter b hlive)
  omega

/-- The scores not yet consumed when the loop starts are the selected scores followed by
the scores not yet consumed when it ends, up to order. -/
theorem mergePicks_perm (rl : WorkerResults) :
    ∀ (n : Nat) (iter : List Nat), iter.length = rl.length →
      (remainingScores rl iter).Perm
        ((mergePicks rl n iter).map (pickScore rl) ++
          remainingScores rl (mergeCursors rl n iter)) := by
  intro n
  induction n with
  | zero => intro iter _; exact List.Perm.refl _
  | succ n ih =>
    intro iter hlen
    cases h : (findMax rl iter).2 with
    | none =>
      rw [mergePicks_succ_none rl n _ h, mergeCursors_succ_none rl n _ h]
      exact List.Perm.refl _
    | some maxi =>
      have inv := findMax_inv rl iter
      rw [mergePicks_succ_some rl n _ maxi h, mergeCursors_succ_some rl n _ maxi h]
      have hstep := remainingScores_step rl iter hlen maxi (inv.some_lt maxi h)
        (inv.some_live maxi h)
      have hrest := ih (iter.set maxi (iter.getD maxi 0 + 1)) (by simpa using hlen)
      exact hstep.trans (List.Perm.cons _ hrest)

/-- With strictly positive scores the loop stops early only when no score is left. -/
theorem mergePicks_length_of_positive (rl : WorkerResults) (hpos : ScoresPositive rl) :
    ∀ (n : Nat) (iter : List Nat), iter.length = rl.length →
      (mergePicks rl n iter).length = min n (remainingScores rl iter).length := by
  intro n
  induction n with
  | zero => intro iter _; simp [mergePicks]
  | succ n ih =>
    intro iter hlen
    cases h : (findMax rl iter).2 with
    | none =>
      rw [mergePicks_succ_none rl n _ h, remainingScores_eq_nil_of_none rl hpos iter h]
      simp
    | some maxi =>
      have inv := findMax_inv rl iter
      have hstep := (remainingScores_step rl iter hlen maxi (inv.some_lt maxi h)
        (inv.some_live maxi h)).length_eq
      rw [mergePicks_succ_some rl n _ maxi h, List.length_cons,
        ih (iter.set maxi (iter.getD maxi 0 + 1)) (by simpa using hlen), hstep,
        List.length_cons]
      omega

/-- For sorted workers the selected scores are non-increasing and dominate every head
left when the loop ends. -/
theorem mergePicks_sorted (rl : WorkerResults) (hs : ScoresSorted rl) :
    ∀ (n : Nat) (iter : List Nat), iter.length = rl.length → ∀ Pacc : List Int,
      NonIncreasing Pacc → HeadsBelow rl iter Pacc →
      NonIncreasing (Pacc ++ (mergePicks rl n iter).map (pickScore rl)) ∧
      HeadsBelow rl (mergeCursors rl n iter)
        (Pacc ++ (mergePicks rl n iter).map (pickScore rl)) := by
  intro n
  induction n with
  | zero => intro iter _ Pacc h1 h2; simpa [mergePicks, mergeCursors] using ⟨h1, h2⟩
  | succ n ih =>
    intro iter hlen Pacc h1 h2
    cases h : (findMax rl iter).2 with
    | none =>
      rw [mergePicks_succ_none rl n _ h, mergeCursors_succ_none rl n _ h]
      simpa using ⟨h1, h2⟩
    | some maxi =>
      have inv := findMax_inv rl iter
      rw [mergePicks_succ_some rl n _ maxi h, mergeCursors_succ_some rl n _ maxi h,
        List.map_cons]
      have e : pickScore rl (maxi, iter.getD maxi 0) = headScore rl iter maxi := rfl
      have h1' : NonIncreasing (Pacc ++ [headScore rl iter maxi]) := by
        unfold NonIncreasing at *
        rw [List.pairwise_append]
        refine ⟨h1, by simp, ?_⟩
        intro x hx y hy
        rw [List.mem_singleton.mp hy]
        exact h2 x hx maxi (inv.some_live maxi h)
      have h2' := headsBelow_step rl hs iter hlen Pacc h2 maxi h
      have := ih (iter.set maxi (iter.getD maxi 0 + 1)) (by simpa using hlen)
        (Pacc ++ [headScore rl iter maxi]) h1' h2'
      rw [e]
      simpa [List.append_assoc] using this

theorem le_head_of_mem_drop (l : List Int) (hl : NonIncreasing l) (k : Nat) (y : Int)
    (hy : y ∈ l.drop k) : k < l.length ∧ y ≤ l.getD k 0 := by
  have hk : k < l.length := by
    by_contra hc
    rw [List.drop_eq_nil_of_le (by omega)] at hy
    simp at hy
  refine ⟨hk, ?_⟩
  rw [List.drop_eq_getElem_cons hk] at hy
  rw [List.getD_eq_getElem _ _ hk]
  rcases List.mem_cons.mp hy with he | hy'
  · rw [he]
  · have hp : (l.drop k).Pairwise (fun a b => b ≤ a) :=
      List.Pairwise.sublist (List.drop_sublist k l) hl
    rw [List.drop_eq_getElem_cons hk, List.pairwise_cons] at hp
    exact hp.1 y hy'

theorem remaining_le_of_headsBelow (rl : WorkerResults) (hs : ScoresSorted rl)
    (iter : List Nat) (P : List Int) (h : HeadsBelow rl iter P) :
    ∀ x ∈ P, ∀ y ∈ remainingScores rl iter, y ≤ x := by
  intro x hx y hy
  obtain ⟨b, hb, hmem⟩ := (mem_remainingScores rl iter y).mp hy
  obtain ⟨id, hw⟩ := workerResult_mem rl b hb
  obtain ⟨hlive, hle⟩ := le_head_of_mem_drop _ (hs _ hw) _ _ hmem
  exact le_trans hle (h x hx b hlive)

theorem map_range_getD {α β : Type} (l : List α) (d : α) (f : α → β) :
    (List.range l.length).map (fun i => f (l.getD i d)) = l.map f := by
  apply List.ext_getElem
  · simp
  · intro i h1 h2
    have hi : i < l.length := by simpa using h2
    simp only [List.getElem_map, List.getElem_range]
    rw [List.getD_eq_getElem _ _ hi]

theorem allScores_eq_remaining (rl : WorkerResults) :
    allScores rl = remainingScores rl (List.replicate rl.length 0) := by
  unfold allScores remainingScores workerResult
  rw [← map_range_getD rl default (fun w => w.2.topKRankScoreList_)]
  congr 1
  apply List.map_congr_left
  intro a ha
  have ha' := List.mem_range.mp ha
  have : (List.replicate rl.length 0).getD a 0 = 0 := by
    rw [List.getD_eq_getElem _ _ (by simpa using ha')]; simp
  rw [this, List.drop_zero]

theorem allScores_length (rl : WorkerResults)
    (hlen : ∀ w ∈ rl, w.2.topKDocs_.length = w.2.topKRankScoreList_.length) :
    (allScores rl).length = overallResultCount rl := by
  rw [overallResultCount_eq]
  unfold allScores
  rw [List.length_flatten, List.map_map]
  congr 1
  apply List.map_congr_left
  intro w hw
  exact (hlen w hw).symm

/-- For sorted workers with strictly positive scores the selected scores are the largest
scores of all workers, in descending order. -/
theorem mergePicks_eq_take_sort (rl : WorkerResults) (hs : ScoresSorted rl)
    (hpos : ScoresPositive rl) (n : Nat) :
    (mergePicks rl n (List.replicate rl.length 0)).map (pickScore rl) =
      (sortDescending (allScores rl)).take (min n (allScores rl).length) := by
  have hlen0 : (List.replicate rl.length 0).length = rl.length := by simp
  have hperm := mergePicks_perm rl n _ hlen0
  have hcount := mergePicks_length_of_positive rl hpos n _ hlen0
  obtain ⟨hsorted, hbelow⟩ := mergePicks_sorted rl hs n _ hlen0 [] (by simp [NonIncreasing])
    (by intro x hx; simp at hx)
  rw [List.nil_append] at hsorted hbelow
  rw [← allScores_eq_remaining] at hperm hcount
  have hPlen : ((mergePicks rl n (List.replicate rl.length 0)).map (pickScore rl)).length =
      min n (allScores rl).length := by
    rw [List.length_map]; exact hcount
  have hdom : ∀ x ∈ (mergePicks rl n (List.replicate rl.length 0)).map (pickScore rl),
      ∀ y ∈ remainingScores rl (mergeCursors rl n (List.replicate rl.length 0)), y ≤ x :=
    remaining_le_of_headsBelow rl hs _ _ hbelow
  generalize (mergePicks rl n (List.replicate rl.length 0)).map (pickScore rl) = P at *
  generalize remainingScores rl (mergeCursors rl n (List.replicate rl.length 0)) = rest at *
  have hsort : sortDescending (allScores rl) = P ++ sortDescending rest := by
    unfold sortDescending
    apply List.eq_of_perm_of_sorted (r := (· ≥ ·))
    · exact (List.perm_insertionSort _ _).trans
        (hperm.trans (List.Perm.append_left _ (List.perm_insertionSort _ _).symm))
    · exact List.sorted_insertionSort _ _
    · unfold List.Sorted
      rw [List.pairwise_append]
      refine ⟨hsorted, List.sorted_insertionSort _ _, ?_⟩
      intro x hx y hy
      exact hdom x hx y ((List.perm_insertionSort _ _).mem_iff.mp hy)
  rw [hsort]
  exact (List.take_left' hPlen).symm

/-! ## The spec example and the frame of the reassembly: settled statements -/

/-- C11: the example scenario of the spec.  Merging worker `A` (documents `[d1, d3]`,
scores `[9, 5]`, total count 10) and worker `B` (documents `[d2, d4]`, scores `[8, 1]`,
total count 5) into an empty result with the window `(0, 3)` gives the documents
`[d1, d2, d3]`, the attribution `[A, B, A]`, the scores `[9, 8, 5]` and leaves the
window at `(0, 3)`. -/
theorem mergeSearchResult_spec_example (d1 d2 d3 d4 A B : Nat) :
    (mergeSearchResult { start_ := 0, count_ := 3 }
      [(A, { totalCount_ := 10, topKDocs_ := [d1, d3], topKRankScoreList_ := [9, 5] }),
       (B, { totalCount_ := 5, topKDocs_ := [d2, d4], topKRankScoreList_ := [8, 1] })]).topKDocs_ =
      [d1, d2, d3] ∧
    (mergeSearchResult { start_ := 0, count_ := 3 }
      [(A, { totalCount_ := 10, topKDocs_ := [d1, d3], topKRankScoreList_ := [9, 5] }),
       (B, { totalCount_ := 5, topKDocs_ := [d2, d4],
             topKRankScoreList_ := [8, 1] })]).topKWorkerIds_ = [A, B, A] ∧
    (mergeSearchResult { start_ := 0, count_ := 3 }
      [(A, { totalCount_ := 10, topKDocs_ := [d1, d3], topKRankScoreList_ := [9, 5] }),
       (B, { totalCount_ := 5, topKDocs_ := [d2, d4],
             topKRankScoreList_ := [8, 1] })]).topKRankScoreList_ = [9, 8, 5] ∧
    (mergeSearchResult { start_ := 0, count_ := 3 }
      [(A, { totalCount_ := 10, topKDocs_ := [d1, d3], topKRankScoreList_ := [9, 5] }),
       (B, { totalCount_ := 5, topKDocs_ := [d2, d4], topKRankScoreList_ := [8, 1] })]).start_ =
      0 ∧
    (mergeSearchResult { start_ := 0, count_ := 3 }
      [(A, { totalCount_ := 10, topKDocs_ := [d1, d3], topKRankScoreList_ := [9, 5] }),
       (B, { totalCount_ := 5, topKDocs_ := [d2, d4], topKRankScoreList_ := [8, 1] })]).count_ =
      3 :=
  ⟨rfl, rfl, rfl, rfl, rfl⟩

/-- C13: for the empty sub-result list `mergeSummaryResult` returns the result as it
was, display tables included. -/
theorem mergeSummaryResult_nil (g : KeywordSearchResult) : mergeSummaryResult g [] = g := by
  rfl

theorem mergeSummaryResult_rankingPart (g : KeywordSearchResult) (L : WorkerResults) :
    rankingPart (mergeSummaryResult g L) = rankingPart g := by
  by_cases h : L = []
  · subst h; rfl
  · rw [mergeSummaryResult_of_ne_nil g L h, summaryRun_rankingPart]

/-- C18: reassembly never re-ranks.  For every result and every sub-result list,
`mergeSummaryResult` leaves the documents, the attribution array, the scores, the custom
scores, the page window and the total count as they were, and `mergeMiningResult` leaves
the whole result as it was. -/
theorem reassembly_keeps_ranking (g : KeywordSearchResult) (L : WorkerResults) :
    (mergeSummaryResult g L).topKDocs_ = g.topKDocs_ ∧
    (mergeSummaryResult g L).topKWorkerIds_ = g.topKWorkerIds_ ∧
    (mergeSummaryResult g L).topKRankScoreList_ = g.topKRankScoreList_ ∧
    (mergeSummaryResult g L).topKCustomRankScoreList_ = g.topKCustomRankScoreList_ ∧
    (mergeSummaryResult g L).start_ = g.start_ ∧
    (mergeSummaryResult g L).count_ = g.count_ ∧
    (mergeSummaryResult g L).totalCount_ = g.totalCount_ ∧
    mergeMiningResult g L = g := by
  have h := mergeSummaryResult_rankingPart g L
  have h1 : (rankingPart (mergeSummaryResult g L)).topKDocs_ = (rankingPart g).topKDocs_ :=
    congrArg _ h
  have h2 : (rankingPart (mergeSummaryResult g L)).topKWorkerIds_ =
      (rankingPart g).topKWorkerIds_ := congrArg _ h
  have h3 : (rankingPart (mergeSummaryResult g L)).topKRankScoreList_ =
      (rankingPart g).topKRankScoreList_ := congrArg _ h
  have h4 : (rankingPart (mergeSummaryResult g L)).topKCustomRankScoreList_ =
      (rankingPart g).topKCustomRankScoreList_ := congrArg _ h
  have h5 : (rankingPart (mergeSummaryResult g L)).start_ = (rankingPart g).start_ :=
    congrArg _ h
  have h6 : (rankingPart (mergeSummaryResult g L)).count_ = (rankingPart g).count_ :=
    congrArg _ h
  have h7 : (rankingPart (mergeSummaryResult g L)).totalCount_ = (rankingPart g).totalCount_ :=
    congrArg _ h
  exact ⟨h1, h2, h3, h4, h5, h6, h7, rfl⟩

/-- C12 (counterexample): the page `pageAB`, whose display tables are empty, reassembled
from `subA`, which carries two display fields, and `subBare`, which owns positions 1 and 3
and carries none.  When slot 1 is processed the scan selects `subBare` at cursor 0, and
line 200 reads row 0, cell 0 of its snippet table, which has no row: the read is outside
the table, so the source has no defined behaviour on this input. -/
theorem mergeSummaryResult_reads_out_of_bounds :
    subsBare ≠ [] ∧
    pageAB.snippetTextOfDocumentInPage_ = [] ∧ pageAB.fullTextOfDocumentInPage_ = [] ∧
    pageAB.rawTextOfSummaryInPage_ = [] ∧
    (workerResult subsBare 0).snippetTextOfDocumentInPage_.length = 2 ∧
    findSub subsBare (summaryStateAt pageAB subsBare 1).iter 1 = some 1 ∧
    (summaryStateAt pageAB subsBare 1).iter.getD 1 0 = 0 ∧
    (workerResult subsBare 1).snippetTextOfDocumentInPage_ = [] ∧
    ¬ cellInBounds (workerResult subsBare 1).snippetTextOfDocumentInPage_ 0 0 ∧
    ¬ SummaryReadsInBounds pageAB subsBare := by
  decide

/-- C12 (amended): for a non-empty sub-result list on which every read of lines 200-203
stays inside the table it reads, and a result whose display tables are empty before the
call, after `mergeSummaryResult` the snippet and the full-text table have exactly as many
rows as the first sub-result has display fields, every row has one cell per document of
the result, and every slot that occurs in no sub-result's positions list holds the
default empty value in every field of every table.  The hypothesis on the reads leaves
out exactly the inputs on which the source indexes a vector past its end. -/
theorem mergeSummaryResult_shape_and_defaults (g : KeywordSearchResult) (L : WorkerResults)
    (hne : L ≠ []) (_hreads : SummaryReadsInBounds g L)
    (hsnip : g.snippetTextOfDocumentInPage_ = [])
    (hfull : g.fullTextOfDocumentInPage_ = [])
    (hraw : g.rawTextOfSummaryInPage_ = []) :
    ((mergeSummaryResult g L).snippetTextOfDocumentInPage_.length =
        (workerResult L 0).snippetTextOfDocumentInPage_.length ∧
      ∀ row ∈ (mergeSummaryResult g L).snippetTextOfDocumentInPage_,
        row.length = g.topKDocs_.length) ∧
    ((mergeSummaryResult g L).fullTextOfDocumentInPage_.length =
        (workerResult L 0).snippetTextOfDocumentInPage_.length ∧
      ∀ row ∈ (mergeSummaryResult g L).fullTextOfDocumentInPage_,
        row.length = g.topKDocs_.length) ∧
    ∀ i, i < g.topKDocs_.length → (∀ w ∈ L, i ∉ w.2.topKPostionList_) →
      ∀ f, f < (workerResult L 0).snippetTextOfDocumentInPage_.length →
        cellGet (mergeSummaryResult g L).snippetTextOfDocumentInPage_ f i = "" ∧
        cellGet (mergeSummaryResult g L).fullTextOfDocumentInPage_ f i = "" ∧
        cellGet (mergeSummaryResult g L).rawTextOfSummaryInPage_ f i = "" := by
  rw [mergeSummaryResult_of_ne_nil g L hne, summaryRun_snippet, summaryRun_fullText]
  obtain ⟨s1, u1⟩ := finalGrid_untouched (fun r => r.snippetTextOfDocumentInPage_) g L
    (workerResult L 0).snippetTextOfDocumentInPage_.length
  obtain ⟨s2, u2⟩ := finalGrid_untouched (fun r => r.fullTextOfDocumentInPage_) g L
    (workerResult L 0).snippetTextOfDocumentInPage_.length
  obtain ⟨s3, u3⟩ := finalGrid_untouched (fun r => r.rawTextOfSummaryInPage_) g L
    (workerResult L 0).snippetTextOfDocumentInPage_.length
  refine ⟨gridShape_rows _ _ _ s1, gridShape_rows _ _ _ s2, ?_⟩
  intro i _ hi f _
  refine ⟨?_, ?_, ?_⟩
  · rw [u1 i hi f]
    simp only [hsnip]
    exact cellGet_initGrid_nil _ _ _ _
  · rw [u2 i hi f]
    simp only [hfull]
    exact cellGet_initGrid_nil _ _ _ _
  · by_cases hz : (workerResult L 0).rawTextOfSummaryInPage_.length = 0
    · rw [summaryRun_rawText_off _ _ _ _ hz, hraw]
      rfl
    · rw [summaryRun_rawText_on _ _ _ _ hz, u3 i hi f]
      simp only [hraw]
      exact cellGet_initGrid_nil _ _ _ _

/-- Witness for C12 (amended): the page `pageAB` reassembled from the reply `subB` alone,
whose tables hold two rows of two values; the slots 0 and 2 occur in no positions list. -/
theorem mergeSummaryResult_shape_and_defaults_witness :
    SummaryReadsInBounds pageAB [(200, subB)] ∧
    (mergeSummaryResult pageAB [(200, subB)]).snippetTextOfDocumentInPage_.length = 2 ∧
    cellGet (mergeSummaryResult pageAB [(200, subB)]).snippetTextOfDocumentInPage_ 1 2 = "" ∧
    cellGet (mergeSummaryResult pageAB [(200, subB)]).snippetTextOfDocumentInPage_ 1 3 = "B3" :=
  ⟨by decide,
    (mergeSummaryResult_shape_and_defaults pageAB [(200, subB)] (by decide) (by decide)
      (by decide) (by decide) (by decide)).1.1,
    ((mergeSummaryResult_shape_and_defaults pageAB [(200, subB)] (by decide) (by decide)
      (by decide) (by decide) (by decide)).2.2 2 (by decide) (by decide) 1 (by decide)).1,
    by decide⟩

/-! ## The merge loop: settled statements -/

/-- C14 (code evaluated at the failing input): two workers with sorted scores `[5, 0]`
and `[-2]`, documents as long as scores, requested window `(0, 3)`.  The loop fills one
slot and stops with the cursor of the first worker still within bounds, because line 63
starts the scan from `max = 0` and line 67 only accepts a score above it; the claim
gives `min 3 3 = 3` filled slots. -/
theorem mergeSearchResult_stops_at_nonpositive :
    (∀ w ∈ shardsNonPositive, NonIncreasing w.2.topKRankScoreList_) ∧
    (∀ w ∈ shardsNonPositive, w.2.topKDocs_.length = w.2.topKRankScoreList_.length) ∧
    overallResultCount shardsNonPositive = 3 ∧
    (mergeFinalState { start_ := 0, count_ := 3 } shardsNonPositive).cnt = 1 ∧
    (mergeFinalState { start_ := 0, count_ := 3 } shardsNonPositive).iter = [1, 0] ∧
    cursorLive shardsNonPositive
      (mergeFinalState { start_ := 0, count_ := 3 } shardsNonPositive).iter 0 ∧
    (mergeSearchResult { start_ := 0, count_ := 3 } shardsNonPositive).topKDocs_ = [1, 0, 0] := by
  decide

theorem mergeInitState_lengths (result : KeywordSearchResult) (rl : WorkerResults) :
    (mergeInitState result rl).cnt = 0 ∧
    (mergeInitState result rl).iter = List.replicate rl.length 0 ∧
    (mergeInitState result rl).result.topKDocs_.length = sizeAdd result.start_ result.count_ ∧
    (mergeInitState result rl).result.topKWorkerIds_.length = sizeAdd result.start_ result.count_ ∧
    (mergeInitState result rl).result.topKRankScoreList_.length =
      sizeAdd result.start_ result.count_ ∧
    (mergeInitState result rl).result.topKCustomRankScoreList_.length =
      sizeAdd result.start_ result.count_ := by
  simp [mergeInitState]

/-- What the `k`-th selection `p` of the loop leaves in slot `k` of the merged result. -/
theorem mergeFinalState_slot (result : KeywordSearchResult) (rl : WorkerResults) (k : Nat)
    (p : Nat × Nat)
    (hpick : (mergePicks rl (sizeAdd result.start_ result.count_)
      (List.replicate rl.length 0))[k]? = some p) :
    k < sizeAdd result.start_ result.count_ ∧
    (mergeFinalState result rl).result.topKDocs_.getD k 0 = pickDoc rl p ∧
    (mergeFinalState result rl).result.topKWorkerIds_.getD k 0 = workerId rl p.1 ∧
    (mergeFinalState result rl).result.topKRankScoreList_.getD k 0 = pickScore rl p ∧
    (mergeFinalState result rl).result.topKCustomRankScoreList_.getD k 0 =
      (pickCustom rl p).getD
        ((resize result.topKCustomRankScoreList_ (sizeAdd result.start_ result.count_) 0).getD k 0) := by
  obtain ⟨h0, h1, h2, h3, h4, h5⟩ := mergeInitState_lengths result rl
  have hk : k < sizeAdd result.start_ result.count_ := by
    have := (List.getElem?_eq_some_iff.mp hpick).1
    have := mergePicks_length_le rl (sizeAdd result.start_ result.count_) (List.replicate rl.length 0)
    omega
  rw [mergeFinalState_eq_loop]
  rw [← h1] at hpick
  have d := (mergeLoop_slots (fun r => r.topKDocs_) (fun p => some (pickDoc rl p)) 0 rl
    (mergeStep_docs_writeOpt rl) _ (mergeInitState result rl)).2 k p hpick
    (by rw [h0, h2]; omega)
  have w := (mergeLoop_slots (fun r => r.topKWorkerIds_) (fun p => some (workerId rl p.1)) 0 rl
    (mergeStep_workerIds_writeOpt rl) _ (mergeInitState result rl)).2 k p hpick
    (by rw [h0, h3]; omega)
  have s := (mergeLoop_slots (fun r => r.topKRankScoreList_) (fun p => some (pickScore rl p)) 0
    rl (mergeStep_scores_writeOpt rl) _ (mergeInitState result rl)).2 k p hpick
    (by rw [h0, h4]; omega)
  have c := (mergeLoop_slots (fun r => r.topKCustomRankScoreList_) (pickCustom rl) 0
    rl (mergeStep_customScores_writeOpt rl) _ (mergeInitState result rl)).2 k p hpick
    (by rw [h0, h5]; omega)
  rw [h0, Nat.zero_add] at d w s c
  have e : (mergeInitState result rl).result.topKCustomRankScoreList_ =
      resize result.topKCustomRankScoreList_ (sizeAdd result.start_ result.count_) 0 := by
    simp [mergeInitState]
  rw [e] at c
  exact ⟨hk, d, w, s, c⟩

/-- C17: for two or more workers merged into a result created empty, let the `k`-th
iteration of the loop, started in the state `t`, take slot `k` from worker `a` at cursor
`j`.  Then slot `k` of the merged result holds the document, the id and the score of that
worker at `j`; the custom score at `j` when the worker's custom scores are non-empty (and
as long as its documents); the default value `0` when they are empty. -/
theorem mergeSearchResult_customScores (result : KeywordSearchResult) (rl : WorkerResults)
    (hmany : 2 ≤ rl.length) (hempty : CreatedEmpty result) (k a j : Nat) (t : MergeState)
    (hk : k < sizeAdd result.start_ result.count_)
    (ht : (mergeTrace rl (sizeAdd result.start_ result.count_) (mergeInitState result rl))[k]? =
      some t)
    (ha : (findMax rl t.iter).2 = some a) (hj : t.iter.getD a 0 = j) :
    k < (mergeSearchResult result rl).topKCustomRankScoreList_.length ∧
    (mergeSearchResult result rl).topKDocs_.getD k 0 = (workerResult rl a).topKDocs_.getD j 0 ∧
    (mergeSearchResult result rl).topKWorkerIds_.getD k 0 = workerId rl a ∧
    (mergeSearchResult result rl).topKRankScoreList_.getD k 0 =
      (workerResult rl a).topKRankScoreList_.getD j 0 ∧
    ((workerResult rl a).topKCustomRankScoreList_ ≠ [] →
      (workerResult rl a).topKCustomRankScoreList_.length =
        (workerResult rl a).topKDocs_.length →
      (mergeSearchResult result rl).topKCustomRankScoreList_.getD k 0 =
        (workerResult rl a).topKCustomRankScoreList_.getD j 0) ∧
    ((workerResult rl a).topKCustomRankScoreList_ = [] →
      (mergeSearchResult result rl).topKCustomRankScoreList_.getD k 0 = 0) := by
  have hne : rl.length ≠ 1 := by omega
  have hpick : (mergePicks rl (sizeAdd result.start_ result.count_)
      (List.replicate rl.length 0))[k]? = some (a, j) := by
    have := mergePicks_of_trace rl _ (mergeInitState result rl) k t a hk ht ha
    rw [hj] at this
    exact this
  obtain ⟨-, d, w, s, c⟩ := mergeFinalState_slot result rl k (a, j) hpick
  rw [mergeSearchResult_of_ne_one _ _ hne, (mergeFinalState_lengths result rl).2.2.2]
  refine ⟨hk, d, w, s, ?_, ?_⟩
  · intro hc _
    have hpos : (workerResult rl a).topKCustomRankScoreList_.length > 0 :=
      List.length_pos.mpr hc
    rw [c]
    simp only [pickCustom, hpos, if_true, Option.getD_some]
  · intro hc
    rw [c]
    simp only [pickCustom, hc, List.length_nil, gt_iff_lt, Nat.lt_irrefl, if_false,
      Option.getD_none, hempty.2.2.2.1, resize_nil]
    rw [List.getD_eq_getElem _ _ (by simpa using hk)]
    simp

/-- Witness for C17: worker A (no custom scores) and `shardC` (custom scores
`[70, 20]`), window `(0, 3)`; the second iteration takes slot 1 from `shardC` at
cursor 0, the first takes slot 0 from worker A. -/
theorem mergeSearchResult_customScores_witness :
    2 ≤ shardsAC.length ∧ CreatedEmpty { start_ := 0, count_ := 3 } ∧
    (mergeSearchResult { start_ := 0, count_ := 3 } shardsAC).topKCustomRankScoreList_.getD 1 0 =
      70 ∧
    (mergeSearchResult { start_ := 0, count_ := 3 } shardsAC).topKDocs_.getD 1 0 = 5 :=
  ⟨by decide, by decide,
    (mergeSearchResult_customScores { start_ := 0, count_ := 3 } shardsAC (by decide)
      (by decide) 1 1 0
      (mergeStep shardsAC 0 (mergeInitState { start_ := 0, count_ := 3 } shardsAC))
      (by decide) (by decide) (by decide) (by decide)).2.2.2.2.1 (by decide) (by decide),
    (mergeSearchResult_customScores { start_ := 0, count_ := 3 } shardsAC (by decide)
      (by decide) 1 1 0
      (mergeStep shardsAC 0 (mergeInitState { start_ := 0, count_ := 3 } shardsAC))
      (by decide) (by decide) (by decide) (by decide)).2.1⟩

/-- The filled slots attributed to a worker are the slots of the selections made from
it, and they hold the documents and scores of those selections. -/
theorem slotsOf_eq_picksOf (result : KeywordSearchResult) (rl : WorkerResults)
    (hids : (rl.map Prod.fst).Nodup) (a : Nat) (ha : a < rl.length) :
    (slotsOf (mergeFinalState result rl).result (mergeFinalState result rl).cnt
        (workerId rl a)).map
      (fun k => ((mergeFinalState result rl).result.topKDocs_.getD k 0,
        (mergeFinalState result rl).result.topKRankScoreList_.getD k 0)) =
    (picksOf a (mergePicks rl (sizeAdd result.start_ result.count_)
        (List.replicate rl.length 0))).map (fun p => (pickDoc rl p, pickScore rl p)) := by
  have hcnt : (mergeFinalState result rl).cnt =
      (mergePicks rl (sizeAdd result.start_ result.count_) (List.replicate rl.length 0)).length := by
    rw [mergeFinalState_eq_loop, (mergeLoop_cnt_iter rl _ _).1]
    simp [mergeInitState]
  unfold slotsOf picksOf
  rw [hcnt]
  apply range_filter_map
  · intro k p hp
    obtain ⟨-, -, w, -, -⟩ := mergeFinalState_slot result rl k p hp
    have hv := mergePicks_valid rl _ _ p (List.getElem?_mem hp)
    rw [w]
    by_cases h : p.1 = a
    · simp [h]
    · have : workerId rl p.1 ≠ workerId rl a :=
        fun he => h (workerId_inj rl hids p.1 a hv.1 ha he)
      simp [h, this]
  · intro k p hp
    obtain ⟨-, d, -, s, -⟩ := mergeFinalState_slot result rl k p hp
    rw [d, s]

/-- C20: per-worker order preservation.  For two or more workers with pairwise distinct
ids and documents as long as scores, the filled slots that the merged result attributes
to a worker, read in increasing slot order, hold exactly the first `n` (document, score)
pairs of that worker in the worker's own order, `n` being the number of those slots; and
these numbers add up, over the workers, to the number of filled slots. -/
theorem mergeSearchResult_per_worker_order (result : KeywordSearchResult)
    (rl : WorkerResults) (hmany : 2 ≤ rl.length) (hids : (rl.map Prod.fst).Nodup)
    (hlen : ∀ w ∈ rl, w.2.topKDocs_.length = w.2.topKRankScoreList_.length) :
    (∀ a, a < rl.length →
      (slotsOf (mergeSearchResult result rl) (mergeFinalState result rl).cnt
          (workerId rl a)).map
        (fun k => ((mergeSearchResult result rl).topKDocs_.getD k 0,
          (mergeSearchResult result rl).topKRankScoreList_.getD k 0)) =
      ((workerResult rl a).topKDocs_.zip (workerResult rl a).topKRankScoreList_).take
        (slotsOf (mergeSearchResult result rl) (mergeFinalState result rl).cnt
          (workerId rl a)).length) ∧
    ((List.range rl.length).map
      (fun a => (slotsOf (mergeSearchResult result rl) (mergeFinalState result rl).cnt
        (workerId rl a)).length)).sum = (mergeFinalState result rl).cnt := by
  have hne : rl.length ≠ 1 := by omega
  rw [mergeSearchResult_of_ne_one _ _ hne]
  have hcnt : (mergeFinalState result rl).cnt =
      (mergePicks rl (sizeAdd result.start_ result.count_) (List.replicate rl.length 0)).length := by
    rw [mergeFinalState_eq_loop, (mergeLoop_cnt_iter rl _ _).1]
    simp [mergeInitState]
  have hslots : ∀ a, a < rl.length →
      (slotsOf (mergeFinalState result rl).result (mergeFinalState result rl).cnt
        (workerId rl a)).length =
      (picksOf a (mergePicks rl (sizeAdd result.start_ result.count_)
        (List.replicate rl.length 0))).length := by
    intro a ha
    have := congrArg List.length (slotsOf_eq_picksOf result rl hids a ha)
    simpa using this
  constructor
  · intro a ha
    rw [slotsOf_eq_picksOf result rl hids a ha, hslots a ha]
    obtain ⟨hcur, -⟩ := mergePicks_cursors rl (sizeAdd result.start_ result.count_)
      (List.replicate rl.length 0) (by simp) a
    have hzero : (List.replicate rl.length 0).getD a 0 = 0 := by
      rw [List.getD_eq_getElem _ _ (by simpa using ha)]; simp
    rw [hzero] at hcur
    generalize hps : picksOf a (mergePicks rl (sizeAdd result.start_ result.count_)
      (List.replicate rl.length 0)) = ps at hcur
    -- every selection from worker `a` is `(a, j)` with `j` a cursor within bounds
    have hmem : ∀ p ∈ ps, p.1 = a ∧ p.2 < (workerResult rl a).topKRankScoreList_.length := by
      intro p hp
      rw [← hps, mem_picksOf] at hp
      have hv := mergePicks_valid rl _ _ p hp.1
      rw [hp.2] at hv
      exact ⟨hp.2, hv.2.1⟩
    have hbound : ps.length ≤ (workerResult rl a).topKRankScoreList_.length := by
      by_contra hc
      have hin : ps.length - 1 ∈ List.range' 0 ps.length := by
        rw [List.mem_range'_1]; omega
      rw [← hcur, List.mem_map] at hin
      obtain ⟨p, hp, he⟩ := hin
      have := (hmem p hp).2
      omega
    obtain ⟨id, hw⟩ := workerResult_mem rl a ha
    rw [zip_take_eq_map_range _ _ (hlen _ hw) _ hbound, List.range_eq_range', ← hcur,
      List.map_map]
    apply List.map_congr_left
    intro p hp
    obtain ⟨h1, -⟩ := hmem p hp
    simp only [Function.comp, pickDoc, pickScore, h1]
  · rw [hcnt]
    have e : (List.range rl.length).map
        (fun a => (slotsOf (mergeFinalState result rl).result
          (mergePicks rl (sizeAdd result.start_ result.count_) (List.replicate rl.length 0)).length
          (workerId rl a)).length) =
        (List.range rl.length).map
          (fun a => (picksOf a (mergePicks rl (sizeAdd result.start_ result.count_)
            (List.replicate rl.length 0))).length) := by
      apply List.map_congr_left
      intro a ha
      rw [← hcnt]
      exact hslots a (List.mem_range.mp ha)
    rw [e]
    exact sum_picksOf_length _ _ (fun p hp => (mergePicks_valid rl _ _ p hp).1)

/-- Witness for C20: three workers with tied scores, requested window `(2, 5)`; the
slots of worker 7 hold its first three documents and scores in its own order. -/
theorem mergeSearchResult_per_worker_order_witness :
    2 ≤ shardsTied.length ∧ (shardsTied.map Prod.fst).Nodup ∧
    (∀ w ∈ shardsTied, w.2.topKDocs_.length = w.2.topKRankScoreList_.length) ∧
    (slotsOf (mergeSearchResult { start_ := 2, count_ := 5 } shardsTied)
        (mergeFinalState { start_ := 2, count_ := 5 } shardsTied).cnt 7).map
      (fun k => ((mergeSearchResult { start_ := 2, count_ := 5 } shardsTied).topKDocs_.getD k 0,
        (mergeSearchResult { start_ := 2, count_ := 5 } shardsTied).topKRankScoreList_.getD k 0)) =
      [(31, 7), (32, 3), (33, 3)] :=
  ⟨by decide, by decide, by decide,
    ((mergeSearchResult_per_worker_order { start_ := 2, count_ := 5 } shardsTied (by decide)
      (by decide) (by decide)).1 2 (by decide)).trans (by decide)⟩

/-- C15: for two or more workers, every iteration of the merge loop that appends a
document appends the current head (document, id, score) of the first worker, in
input-list order, whose head score is the maximum over the cursors within bounds, and
advances that worker's cursor alone, by one.  The iterations are the steps between
consecutive states of the loop, the last of which is the state the merge returns. -/
theorem mergeSearchResult_appends_first_maximum (result : KeywordSearchResult)
    (rl : WorkerResults) (hmany : 2 ≤ rl.length) :
    List.Chain' (AppendsFirstMaximum rl)
      (mergeTrace rl (sizeAdd result.start_ result.count_) (mergeInitState result rl)) ∧
    (mergeTrace rl (sizeAdd result.start_ result.count_) (mergeInitState result rl)).getLast? =
      some (mergeFinalState result rl) ∧
    mergeSearchResult result rl = (mergeFinalState result rl).result := by
  obtain ⟨h0, h1, h2, h3, h4, -⟩ := mergeInitState_lengths result rl
  refine ⟨?_, mergeTrace_getLast rl _ _, mergeSearchResult_of_ne_one _ _ (by omega)⟩
  apply mergeTrace_chain
  · rw [h1]; simp
  · rw [h0, h2]; omega
  · rw [h0, h3]; omega
  · rw [h0, h4]; omega

/-- Witness for C15: three workers whose head scores tie at 7, requested window
`(2, 5)`. -/
theorem mergeSearchResult_appends_first_maximum_witness :
    2 ≤ shardsTied.length ∧
    List.Chain' (AppendsFirstMaximum shardsTied)
      (mergeTrace shardsTied 7 (mergeInitState { start_ := 2, count_ := 5 } shardsTied)) ∧
    (mergeSearchResult { start_ := 2, count_ := 5 } shardsTied).topKWorkerIds_ =
      [6, 5, 5, 6, 7, 7, 7] :=
  ⟨by decide,
    (mergeSearchResult_appends_first_maximum { start_ := 2, count_ := 5 } shardsTied
      (by decide)).1,
    by decide⟩

/-- C19: index safety of the merge.  When every worker's documents are as long as its
scores and its custom scores are empty or of that same length, every array access of
`mergeSearchResult` is within bounds, for every requested window: the single-worker
branch reads `resultList[0]` with one worker present, the counting loop of lines 30-35
reads `resultList[i]` below `workerNum`, and every iteration of the merge loop, started
in any of the states the loop passes through, is within bounds. -/
theorem mergeSearchResult_index_safety (result : KeywordSearchResult) (rl : WorkerResults)
    (hwf : ∀ w ∈ rl, w.2.topKDocs_.length = w.2.topKRankScoreList_.length ∧
      (w.2.topKCustomRankScoreList_ = [] ∨
        w.2.topKCustomRankScoreList_.length = w.2.topKRankScoreList_.length)) :
    (rl.length = 1 → 0 < rl.length) ∧
    (∀ k t, k < sizeAdd result.start_ result.count_ →
      (mergeTrace rl (sizeAdd result.start_ result.count_) (mergeInitState result rl))[k]? =
        some t →
      IterationInBounds rl t) ∧
    (mergeTrace rl (sizeAdd result.start_ result.count_) (mergeInitState result rl)).getLast? =
      some (mergeFinalState result rl) := by
  obtain ⟨h0, h1, h2, h3, h4, h5⟩ := mergeInitState_lengths result rl
  refine ⟨fun h => by omega, ?_, mergeTrace_getLast rl _ _⟩
  apply mergeTrace_inBounds rl hwf
  · rw [h1]; simp
  · rw [h0, h2]; omega
  · rw [h0, h3]; omega
  · rw [h0, h4]; omega
  · rw [h0, h5]; omega

/-- Witness for C19: the three workers of `shardsTied`, two of them with custom scores;
the iteration started in the fourth state of the loop is within bounds. -/
theorem mergeSearchResult_index_safety_witness :
    (∀ w ∈ shardsTied, w.2.topKDocs_.length = w.2.topKRankScoreList_.length ∧
      (w.2.topKCustomRankScoreList_ = [] ∨
        w.2.topKCustomRankScoreList_.length = w.2.topKRankScoreList_.length)) ∧
    ∀ t, (mergeTrace shardsTied 7
        (mergeInitState { start_ := 2, count_ := 5 } shardsTied))[3]? = some t →
      IterationInBounds shardsTied t :=
  ⟨by decide, fun t =>
    (mergeSearchResult_index_safety { start_ := 2, count_ := 5 } shardsTied (by decide)).2.1 3
      t (by decide)⟩

/-- With strictly positive scores the merge fills as many slots as were requested, or as
many as the workers returned documents when that is fewer. -/
theorem mergeFinalState_cnt_of_positive (result : KeywordSearchResult) (rl : WorkerResults)
    (hpos : ScoresPositive rl)
    (hlen : ∀ w ∈ rl, w.2.topKDocs_.length = w.2.topKRankScoreList_.length) :
    (mergeFinalState result rl).cnt =
      min (sizeAdd result.start_ result.count_) (overallResultCount rl) := by
  rw [mergeFinalState_eq_loop, (mergeLoop_cnt_iter rl _ _).1]
  have := mergePicks_length_of_positive rl hpos (sizeAdd result.start_ result.count_)
    (List.replicate rl.length 0) (by simp)
  rw [← allScores_eq_remaining, allScores_length rl hlen] at this
  simp only [mergeInitState, Nat.zero_add]
  exact this

/-- C16: global top-K.  For two or more workers whose scores are non-increasing,
strictly positive and as long as their documents, and every requested window with
`resultCount = pageStart + pageCount` (the `size_t` sum of line 39), the first
`min resultCount overallResultCount`
entries of the merged scores array are the first `min resultCount overallResultCount`
entries of the descending sort of all workers' scores. -/
theorem mergeSearchResult_top_scores (result : KeywordSearchResult) (rl : WorkerResults)
    (hmany : 2 ≤ rl.length)
    (hsorted : ∀ w ∈ rl, NonIncreasing w.2.topKRankScoreList_)
    (hpos : ∀ w ∈ rl, ∀ x ∈ w.2.topKRankScoreList_, 0 < x)
    (hlen : ∀ w ∈ rl, w.2.topKRankScoreList_.length = w.2.topKDocs_.length) :
    (mergeSearchResult result rl).topKRankScoreList_.take
        (min (sizeAdd result.start_ result.count_) (overallResultCount rl)) =
      (sortDescending (allScores rl)).take
        (min (sizeAdd result.start_ result.count_) (overallResultCount rl)) := by
  have hne : rl.length ≠ 1 := by omega
  have hlen' : ∀ w ∈ rl, w.2.topKDocs_.length = w.2.topKRankScoreList_.length :=
    fun w hw => (hlen w hw).symm
  have hall := allScores_length rl hlen'
  have hpicks := mergePicks_eq_take_sort rl hsorted hpos (sizeAdd result.start_ result.count_)
  rw [hall] at hpicks
  rw [mergeSearchResult_of_ne_one _ _ hne, ← hpicks]
  have hplen : (mergePicks rl (sizeAdd result.start_ result.count_)
      (List.replicate rl.length 0)).length =
      min (sizeAdd result.start_ result.count_) (overallResultCount rl) := by
    have := mergePicks_length_of_positive rl hpos (sizeAdd result.start_ result.count_)
      (List.replicate rl.length 0) (by simp)
    rw [← allScores_eq_remaining, hall] at this
    exact this
  have hflen := (mergeFinalState_lengths result rl).2.2.1
  apply List.ext_getElem
  · rw [List.length_take, List.length_map, hplen, hflen]
    omega
  · intro i h1 h2
    have hi : i < (mergePicks rl (sizeAdd result.start_ result.count_)
        (List.replicate rl.length 0)).length := by simpa using h2
    have hpick := List.getElem?_eq_getElem hi
    obtain ⟨hk, -, -, s, -⟩ := mergeFinalState_slot result rl i _ hpick
    rw [List.getElem_take, List.getElem_map, ← s, List.getD_eq_getElem _ _ (by omega)]

/-- Witness for C16: the three workers of `shardsTied` (nine scores), requested window
`(2, 5)`: the seven merged scores are the seven largest. -/
theorem mergeSearchResult_top_scores_witness :
    2 ≤ shardsTied.length ∧
    (∀ w ∈ shardsTied, NonIncreasing w.2.topKRankScoreList_) ∧
    (∀ w ∈ shardsTied, ∀ x ∈ w.2.topKRankScoreList_, 0 < x) ∧
    (mergeSearchResult { start_ := 2, count_ := 5 } shardsTied).topKRankScoreList_.take 7 =
      [9, 7, 7, 7, 7, 3, 3] :=
  ⟨by decide, by decide, by decide,
    (mergeSearchResult_top_scores { start_ := 2, count_ := 5 } shardsTied (by decide)
      (by decide) (by decide) (by decide)).trans (by decide)⟩

/-! ## Two sub-results with the same position at their cursors -/

theorem summaryStateAt_succ (g : KeywordSearchResult) (L : WorkerResults) (n : Nat) :
    summaryStateAt g L (n + 1) =
      summaryStep L (workerResult L 0).snippetTextOfDocumentInPage_.length
        (workerResult L 0).rawTextOfSummaryInPage_.length (summaryStateAt g L n) n := by
  simp [summaryStateAt, List.range_succ, List.foldl_append]

theorem summaryFinalState_eq_stateAt (g : KeywordSearchResult) (L : WorkerResults) :
    summaryFinalState g L = summaryStateAt g L g.topKDocs_.length := rfl

theorem mergeSummaryResult_eq_stateAt (g : KeywordSearchResult) (L : WorkerResults)
    (h : L ≠ []) :
    mergeSummaryResult g L = (summaryStateAt g L g.topKDocs_.length).result := by
  rw [mergeSummaryResult_of_ne_nil g L h]
  rfl

/-- The loop state before slot `n`, seen on one display table that every iteration
copies. -/
theorem summaryStateAt_grid (sel : KeywordSearchResult → Grid) (g : KeywordSearchResult)
    (L : WorkerResults)
    (hsel : ∀ sub it i r,
      sel (copyFields (workerResult L 0).snippetTextOfDocumentInPage_.length
        (workerResult L 0).rawTextOfSummaryInPage_.length sub it i r) =
      copyColumn (workerResult L 0).snippetTextOfDocumentInPage_.length (sel sub) it i (sel r))
    (hinit : sel (initSummary g g.topKDocs_.length
        (workerResult L 0).snippetTextOfDocumentInPage_.length
        (workerResult L 0).rawTextOfSummaryInPage_.length) =
      initGrid (sel g) (workerResult L 0).snippetTextOfDocumentInPage_.length
        g.topKDocs_.length)
    (n : Nat) :
    (sel (summaryStateAt g L n).result, (summaryStateAt g L n).iter) =
      gridLoop sel L (workerResult L 0).snippetTextOfDocumentInPage_.length n
        (initGrid (sel g) (workerResult L 0).snippetTextOfDocumentInPage_.length
          g.topKDocs_.length) := by
  unfold summaryStateAt gridLoop
  rw [summaryLoop_grid sel L _ _ hsel, hinit]

theorem gridStep_of_none (sel : KeywordSearchResult → Grid) (L : WorkerResults) (dpn : Nat)
    (st : Grid × List Nat) (k : Nat) (h : findSub L st.2 k = none) :
    gridStep sel L dpn st k = st := by
  simp only [gridStep, h]

theorem gridStep_of_some (sel : KeywordSearchResult → Grid) (L : WorkerResults) (dpn : Nat)
    (st : Grid × List Nat) (k c : Nat) (h : findSub L st.2 k = some c) :
    gridStep sel L dpn st k =
      (copyColumn dpn (sel (workerResult L c)) (st.2.getD c 0) k st.1,
        st.2.set c (st.2.getD c 0 + 1)) := by
  simp only [gridStep, h]

/-- The iteration for slot `k` writes column `k` only. -/
theorem gridStep_cell_ne (sel : KeywordSearchResult → Grid) (L : WorkerResults)
    (dpn topk : Nat) (st : Grid × List Nat) (hshape : GridShape st.1 dpn topk) (k : Nat)
    (hk : k < topk) (p : Nat) (hp : p ≠ k) (dis : Nat) :
    cellGet (gridStep sel L dpn st k).1 dis p = cellGet st.1 dis p := by
  cases h : findSub L st.2 k with
  | none => rw [gridStep_of_none sel L dpn st k h]
  | some c =>
    rw [gridStep_of_some sel L dpn st k c h]
    simp only
    rw [cellGet_copyColumn _ _ _ _ dpn topk hshape hk dpn (Nat.le_refl _),
      if_neg (fun hh => hp hh.2)]

theorem gridLoop_shape (sel : KeywordSearchResult → Grid) (L : WorkerResults)
    (dpn topk : Nat) (init : Grid) (hshape : GridShape init dpn topk) (n : Nat)
    (hn : n ≤ topk) : GridShape (gridLoop sel L dpn n init).1 dpn topk :=
  (gridLoop_untouched sel L dpn topk init hshape n hn).1

/-- A cell keeps its value from the state before slot `n` to the state before slot `m`
when no sub-result is selected for its slot in between. -/
theorem gridLoop_cell_stable (sel : KeywordSearchResult → Grid) (L : WorkerResults)
    (dpn topk : Nat) (init : Grid) (hshape : GridShape init dpn topk) (p dis n : Nat) :
    ∀ m, n ≤ m → m ≤ topk →
      (n ≤ p → p < m → findSub L (gridLoop sel L dpn p init).2 p = none) →
      cellGet (gridLoop sel L dpn m init).1 dis p =
        cellGet (gridLoop sel L dpn n init).1 dis p := by
  intro m
  induction m with
  | zero =>
    intro hnm _ _
    have : n = 0 := by omega
    rw [this]
  | succ m ih =>
    intro hnm hm hnone
    by_cases hn : n = m + 1
    · rw [hn]
    · have ih' := ih (by omega) (by omega) (fun h1 h2 => hnone h1 (by omega))
      rw [gridLoop_succ, ← ih']
      by_cases hpm : p = m
      · subst hpm
        rw [gridStep_of_none sel L dpn _ p (hnone (by omega) (by omega))]
      · exact gridStep_cell_ne sel L dpn topk _
          (gridLoop_shape sel L dpn topk init hshape m (by omega)) m (by omega) p hpm dis

/-- The slot for which a sub-result is selected holds, when the loop ends, the values of
that sub-result at its cursor. -/
theorem gridLoop_cell_selected (sel : KeywordSearchResult → Grid) (L : WorkerResults)
    (dpn topk : Nat) (init : Grid) (hshape : GridShape init dpn topk) (i a : Nat)
    (hi : i < topk) (ha : findSub L (gridLoop sel L dpn i init).2 i = some a) (dis : Nat)
    (hdis : dis < dpn) :
    cellGet (gridLoop sel L dpn topk init).1 dis i =
      cellGet (sel (workerResult L a)) dis ((gridLoop sel L dpn i init).2.getD a 0) := by
  rw [gridLoop_cell_stable sel L dpn topk init hshape i dis (i + 1) topk (by omega)
    (Nat.le_refl _) (fun h _ => by omega)]
  rw [gridLoop_succ, gridStep_of_some sel L dpn _ i a ha]
  simp only
  rw [cellGet_copyColumn _ _ _ _ dpn topk
    (gridLoop_shape sel L dpn topk init hshape i (by omega)) hi dpn (Nat.le_refl _),
    if_pos ⟨hdis, rfl⟩]

/-- A cursor that points at position `i` is not selected for any other slot. -/
theorem findSub_ne_of_cursor (L : WorkerResults) (iter : List Nat) (i k b : Nat)
    (hpos : (workerResult L b).topKPostionList_.getD (iter.getD b 0) 0 = i) (hk : k ≠ i) :
    findSub L iter k ≠ some b := by
  intro h
  have hc := (findSub_some L iter k b h).2
  unfold claimsSlot at hc
  rw [decide_eq_true_iff] at hc
  exact hk (hc.2.symm.trans hpos)

theorem gridStep_iter_ne (sel : KeywordSearchResult → Grid) (L : WorkerResults) (dpn : Nat)
    (st : Grid × List Nat) (k b : Nat) (h : findSub L st.2 k ≠ some b) :
    (gridStep sel L dpn st k).2.getD b 0 = st.2.getD b 0 := by
  cases hc : findSub L st.2 k with
  | none => rw [gridStep_of_none sel L dpn st k hc]
  | some c =>
    rw [gridStep_of_some sel L dpn st k c hc]
    simp only
    rw [getD_set_ne _ _ _ _ _ (fun e => h (by rw [hc, e]))]

/-- A sub-result that has position `i` at its cursor when another sub-result is selected
for slot `i` keeps that cursor in every later state of the loop, and is selected for no
slot from `i` on. -/
theorem gridLoop_cursor_stuck (sel : KeywordSearchResult → Grid) (L : WorkerResults)
    (dpn : Nat) (init : Grid) (i a b : Nat) (hab : a ≠ b)
    (ha : findSub L (gridLoop sel L dpn i init).2 i = some a)
    (hb : claimsSlot L (gridLoop sel L dpn i init).2 i b = true) :
    ∀ n, i ≤ n →
      (gridLoop sel L dpn n init).2.getD b 0 = (gridLoop sel L dpn i init).2.getD b 0 ∧
      findSub L (gridLoop sel L dpn n init).2 n ≠ some b := by
  have hpos : (workerResult L b).topKPostionList_.getD
      ((gridLoop sel L dpn i init).2.getD b 0) 0 = i := by
    unfold claimsSlot at hb
    rw [decide_eq_true_iff] at hb
    exact hb.2
  have hhere : findSub L (gridLoop sel L dpn i init).2 i ≠ some b := by
    rw [ha]; intro e; exact hab (Option.some.inj e)
  intro n
  induction n with
  | zero =>
    intro h
    have : i = 0 := by omega
    subst this
    exact ⟨rfl, hhere⟩
  | succ n ih =>
    intro h
    by_cases hn : i = n + 1
    · rw [← hn]; exact ⟨rfl, hhere⟩
    · obtain ⟨ih1, ih2⟩ := ih (by omega)
      have hcur : (gridLoop sel L dpn (n + 1) init).2.getD b 0 =
          (gridLoop sel L dpn i init).2.getD b 0 := by
        rw [gridLoop_succ, gridStep_iter_ne sel L dpn _ n b ih2, ih1]
      refine ⟨hcur, ?_⟩
      apply findSub_ne_of_cursor L _ i (n + 1) b _ (by omega)
      rw [hcur]; exact hpos

theorem summaryStateAt_rawText_off (g : KeywordSearchResult) (L : WorkerResults) (n : Nat)
    (hz : (workerResult L 0).rawTextOfSummaryInPage_.length = 0) :
    (summaryStateAt g L n).result.rawTextOfSummaryInPage_ = g.rawTextOfSummaryInPage_ := by
  unfold summaryStateAt
  rw [hz, summaryLoop_keep (fun r => r.rawTextOfSummaryInPage_) L _ 0
    (copyFields_rawText_off _)]
  exact initSummary_rawText_off _ _ _

/-- The conflict seen on one display table that every iteration copies: the slot holds the
values of the selected sub-result; a slot for which no sub-result is selected from `i` on
keeps the values it held when slot `i` was processed; and those are the default values,
from slot `i` on, when the table was empty before the call. -/
theorem summaryStateAt_conflict_table (sel : KeywordSearchResult → Grid)
    (g : KeywordSearchResult) (L : WorkerResults)
    (hsel : ∀ sub it i r,
      sel (copyFields (workerResult L 0).snippetTextOfDocumentInPage_.length
        (workerResult L 0).rawTextOfSummaryInPage_.length sub it i r) =
      copyColumn (workerResult L 0).snippetTextOfDocumentInPage_.length (sel sub) it i (sel r))
    (hinit : sel (initSummary g g.topKDocs_.length
        (workerResult L 0).snippetTextOfDocumentInPage_.length
        (workerResult L 0).rawTextOfSummaryInPage_.length) =
      initGrid (sel g) (workerResult L 0).snippetTextOfDocumentInPage_.length
        g.topKDocs_.length)
    (i a : Nat) (hi : i < g.topKDocs_.length)
    (ha : findSub L (summaryStateAt g L i).iter i = some a) :
    (∀ f, f < (workerResult L 0).snippetTextOfDocumentInPage_.length →
      cellGet (sel (summaryStateAt g L g.topKDocs_.length).result) f i =
        cellGet (sel (workerResult L a)) f ((summaryStateAt g L i).iter.getD a 0)) ∧
    (∀ p, p ≠ i →
      (i < p → p < g.topKDocs_.length → findSub L (summaryStateAt g L p).iter p = none) →
      ∀ f, cellGet (sel (summaryStateAt g L g.topKDocs_.length).result) f p =
        cellGet (sel (summaryStateAt g L i).result) f p) ∧
    (sel g = [] → ∀ p, i ≤ p → ∀ f, cellGet (sel (summaryStateAt g L i).result) f p = "") := by
  have hgrid := summaryStateAt_grid sel g L hsel hinit
  have h1 : ∀ n, sel (summaryStateAt g L n).result =
      (gridLoop sel L (workerResult L 0).snippetTextOfDocumentInPage_.length n
        (initGrid (sel g) (workerResult L 0).snippetTextOfDocumentInPage_.length
          g.topKDocs_.length)).1 := fun n => congrArg Prod.fst (hgrid n)
  have h2 : ∀ n, (summaryStateAt g L n).iter =
      (gridLoop sel L (workerResult L 0).snippetTextOfDocumentInPage_.length n
        (initGrid (sel g) (workerResult L 0).snippetTextOfDocumentInPage_.length
          g.topKDocs_.length)).2 := fun n => congrArg Prod.snd (hgrid n)
  have hshape : GridShape
      (initGrid (sel g) (workerResult L 0).snippetTextOfDocumentInPage_.length
        g.topKDocs_.length)
      (workerResult L 0).snippetTextOfDocumentInPage_.length g.topKDocs_.length :=
    initGrid_shape (sel g)
      (workerResult L 0).snippetTextOfDocumentInPage_.length g.topKDocs_.length
  refine ⟨?_, ?_, ?_⟩
  · intro f hf
    rw [h1, h2]
    rw [h2] at ha
    exact gridLoop_cell_selected sel L _ _ _ hshape i a hi ha f hf
  · intro p hp hnone f
    rw [h1, h1]
    apply gridLoop_cell_stable sel L _ _ _ hshape p f i _ (Nat.le_of_lt hi) (Nat.le_refl _)
    intro hip hpt
    rw [← h2]
    exact hnone (by omega) hpt
  · intro hempty p hp f
    rw [h1, (gridLoop_untouched sel L _ _ _ hshape i (Nat.le_of_lt hi)).2 p (Or.inl hp) f,
      hempty]
    exact cellGet_initGrid_nil _ _ _ _

/-- The conflict seen on the cursors: the sub-result that loses slot `i` keeps its cursor in
every later state of the loop and is selected for no slot from `i` on. -/
theorem summaryStateAt_cursor_stuck (g : KeywordSearchResult) (L : WorkerResults)
    (i a b : Nat) (hab : a ≠ b)
    (ha : findSub L (summaryStateAt g L i).iter i = some a)
    (hb : claimsSlot L (summaryStateAt g L i).iter i b = true) :
    ∀ n, i ≤ n →
      (summaryStateAt g L n).iter.getD b 0 = (summaryStateAt g L i).iter.getD b 0 ∧
      findSub L (summaryStateAt g L n).iter n ≠ some b := by
  have hgrid := summaryStateAt_grid (fun r => r.snippetTextOfDocumentInPage_) g L
    (copyFields_snippet _ _) (initSummary_snippet _ _ _ _)
  have h2 : ∀ n, (summaryStateAt g L n).iter =
      (gridLoop (fun r => r.snippetTextOfDocumentInPage_) L
        (workerResult L 0).snippetTextOfDocumentInPage_.length n
        (initGrid g.snippetTextOfDocumentInPage_
          (workerResult L 0).snippetTextOfDocumentInPage_.length
          g.topKDocs_.length)).2 := fun n => congrArg Prod.snd (hgrid n)
  intro n hn
  rw [h2 i] at ha hb ⊢
  rw [h2 n]
  exact gridLoop_cursor_stuck _ L _ _ i a b hab ha hb n hn

/-! ## Conflicting position claims: settled statements -/

/-- C21 (counterexample): the result `pageOld`, whose snippet table holds old values,
reassembled from `subFirst` (positions `[1]`) and `subSecond` (positions `[0, 1, 0, 2]`).
When slot 1 is processed both sub-results have position 1 at their cursor, the cursor of
`subSecond` being 1.  The entries of `subSecond` from that cursor on name the slots 1, 0
and 2; no sub-result other than `subSecond` names slot 0 or slot 2; yet after the call
slot 0 holds `"b0"` and `"fb0"`, which `subSecond` supplied before the conflict, and slot
2 of the snippet table holds the old value `"old2"`, none of them the default value. -/
theorem mergeSummaryResult_conflict_slots_not_default :
    claimsSlot subsConflict (summaryStateAt pageOld subsConflict 1).iter 1 0 = true ∧
    claimsSlot subsConflict (summaryStateAt pageOld subsConflict 1).iter 1 1 = true ∧
    (summaryStateAt pageOld subsConflict 1).iter.getD 1 0 = 1 ∧
    subSecond.topKPostionList_.drop 1 = [1, 0, 2] ∧
    subFirst.topKPostionList_ = [1] ∧
    (mergeSummaryResult pageOld subsConflict).snippetTextOfDocumentInPage_ =
      [["b0", "a1", "old2"]] ∧
    (mergeSummaryResult pageOld subsConflict).fullTextOfDocumentInPage_ =
      [["fb0", "fa1", ""]] := by
  decide

/-- C21 (amended): let `a` be the first sub-result in the list that has global position
`i` at its cursor when slot `i` is processed, and let a later sub-result `b` have `i` at
its cursor too.  Then, when the loop ends, slot `i` holds the display values of `a` at its
cursor, in every field of the snippet and the full-text table and, when summaries are
enabled, of the summary table; the cursor of `b` is the same in every later state of the
loop and `b` is selected for no slot from `i` on, so no entry of `b` from that cursor on
is copied; every other slot for which no sub-result is selected from `i` on keeps the
values it held when slot `i` was processed; and for a result whose display tables were
empty before the call those are the default empty values in every slot after `i`. -/
theorem mergeSummaryResult_conflict (g : KeywordSearchResult) (L : WorkerResults)
    (i a b : Nat) (hi : i < g.topKDocs_.length) (hab : a < b)
    (ha : findSub L (summaryStateAt g L i).iter i = some a)
    (hb : claimsSlot L (summaryStateAt g L i).iter i b = true) :
    (∀ f, f < (workerResult L 0).snippetTextOfDocumentInPage_.length →
      cellGet (mergeSummaryResult g L).snippetTextOfDocumentInPage_ f i =
        cellGet (workerResult L a).snippetTextOfDocumentInPage_ f
          ((summaryStateAt g L i).iter.getD a 0) ∧
      cellGet (mergeSummaryResult g L).fullTextOfDocumentInPage_ f i =
        cellGet (workerResult L a).fullTextOfDocumentInPage_ f
          ((summaryStateAt g L i).iter.getD a 0) ∧
      ((workerResult L 0).rawTextOfSummaryInPage_.length ≠ 0 →
        cellGet (mergeSummaryResult g L).rawTextOfSummaryInPage_ f i =
          cellGet (workerResult L a).rawTextOfSummaryInPage_ f
            ((summaryStateAt g L i).iter.getD a 0))) ∧
    (∀ n, i ≤ n → n ≤ g.topKDocs_.length →
      (summaryStateAt g L n).iter.getD b 0 = (summaryStateAt g L i).iter.getD b 0) ∧
    (∀ n, i ≤ n → n < g.topKDocs_.length →
      findSub L (summaryStateAt g L n).iter n ≠ some b) ∧
    (∀ p, p ≠ i →
      (i < p → p < g.topKDocs_.length → findSub L (summaryStateAt g L p).iter p = none) →
      ∀ f,
        cellGet (mergeSummaryResult g L).snippetTextOfDocumentInPage_ f p =
          cellGet (summaryStateAt g L i).result.snippetTextOfDocumentInPage_ f p ∧
        cellGet (mergeSummaryResult g L).fullTextOfDocumentInPage_ f p =
          cellGet (summaryStateAt g L i).result.fullTextOfDocumentInPage_ f p ∧
        cellGet (mergeSummaryResult g L).rawTextOfSummaryInPage_ f p =
          cellGet (summaryStateAt g L i).result.rawTextOfSummaryInPage_ f p) ∧
    (g.snippetTextOfDocumentInPage_ = [] → g.fullTextOfDocumentInPage_ = [] →
      g.rawTextOfSummaryInPage_ = [] → ∀ p, i < p → ∀ f,
        cellGet (summaryStateAt g L i).result.snippetTextOfDocumentInPage_ f p = "" ∧
        cellGet (summaryStateAt g L i).result.fullTextOfDocumentInPage_ f p = "" ∧
        cellGet (summaryStateAt g L i).result.rawTextOfSummaryInPage_ f p = "") := by
  have hne : L ≠ [] := by
    intro h
    have := (findSub_some L _ i a ha).1
    rw [h] at this
    simp at this
  have hstuck := summaryStateAt_cursor_stuck g L i a b (Nat.ne_of_lt hab) ha hb
  obtain ⟨s1, s2, s3⟩ := summaryStateAt_conflict_table (fun r => r.snippetTextOfDocumentInPage_)
    g L (copyFields_snippet _ _) (initSummary_snippet _ _ _ _) i a hi ha
  obtain ⟨f1, f2, f3⟩ := summaryStateAt_conflict_table (fun r => r.fullTextOfDocumentInPage_)
    g L (copyFields_fullText _ _) (initSummary_fullText _ _ _ _) i a hi ha
  rw [mergeSummaryResult_eq_stateAt g L hne]
  refine ⟨?_, fun n hn _ => (hstuck n hn).1, fun n hn _ => (hstuck n hn).2, ?_, ?_⟩
  · intro f hf
    refine ⟨s1 f hf, f1 f hf, ?_⟩
    intro hon
    exact (summaryStateAt_conflict_table (fun r => r.rawTextOfSummaryInPage_) g L
      (copyFields_rawText_on _ _ hon) (initSummary_rawText_on _ _ _ _ hon) i a hi ha).1 f hf
  · intro p hp hnone f
    refine ⟨s2 p hp hnone f, f2 p hp hnone f, ?_⟩
    by_cases hz : (workerResult L 0).rawTextOfSummaryInPage_.length = 0
    · rw [summaryStateAt_rawText_off g L _ hz, summaryStateAt_rawText_off g L _ hz]
    · exact (summaryStateAt_conflict_table (fun r => r.rawTextOfSummaryInPage_) g L
        (copyFields_rawText_on _ _ hz) (initSummary_rawText_on _ _ _ _ hz) i a hi ha).2.1
        p hp hnone f
  · intro hs hf hr p hp f
    refine ⟨s3 hs p (Nat.le_of_lt hp) f, f3 hf p (Nat.le_of_lt hp) f, ?_⟩
    by_cases hz : (workerResult L 0).rawTextOfSummaryInPage_.length = 0
    · rw [summaryStateAt_rawText_off g L _ hz, hr]
      rfl
    · exact (summaryStateAt_conflict_table (fun r => r.rawTextOfSummaryInPage_) g L
        (copyFields_rawText_on _ _ hz) (initSummary_rawText_on _ _ _ _ hz) i a hi ha).2.2
        hr p (Nat.le_of_lt hp) f

/-- Witness for C21 (amended): the page `pageAB` reassembled from the reply `subB` listed
twice; at slot 1 both copies have position 1 at their cursor, the first copy fills the
slot and the cursor of the second copy stays at 0 to the end. -/
theorem mergeSummaryResult_conflict_witness :
    (1 : Nat) < pageAB.topKDocs_.length ∧
    findSub [(200, subB), (200, subB)]
      (summaryStateAt pageAB [(200, subB), (200, subB)] 1).iter 1 = some 0 ∧
    claimsSlot [(200, subB), (200, subB)]
      (summaryStateAt pageAB [(200, subB), (200, subB)] 1).iter 1 1 = true ∧
    cellGet (mergeSummaryResult pageAB [(200, subB), (200, subB)]).snippetTextOfDocumentInPage_
      0 1 = "b1" ∧
    (summaryStateAt pageAB [(200, subB), (200, subB)] 4).iter.getD 1 0 = 0 :=
  ⟨by decide, by decide, by decide,
    ((mergeSummaryResult_conflict pageAB [(200, subB), (200, subB)] 1 0 1 (by decide)
      (by decide) (by decide) (by decide)).1 0 (by decide)).1.trans (by decide),
    ((mergeSummaryResult_conflict pageAB [(200, subB), (200, subB)] 1 0 1 (by decide)
      (by decide) (by decide) (by decide)).2.1 4 (by decide) (by decide)).trans (by decide)⟩

end sf1r
